import Mathlib

/-!
The amd64 encoder of `crawshaw/asm` (package `i64`).

A shallow embedding of the instruction encoder (`i64.go`), the operand model
(`addr.go`, `register.go`), the mnemonics (`op.go`) and the program layout
(`program.go`), followed by theorems about them.

Conventions of the embedding.

* Go's `int`-based enumerations (`Op`, `Register`, `AddrType`) are `Int` with the
  named constants as abbreviations, so every value the Go types admit is present.
* `uint8` fields are `Nat`; every operation that can leave the byte range is
  followed by an explicit `% 256`.
* An `interface{}` payload is the inductive `Value`, one constructor per dynamic
  type the code distinguishes.
* A method with a pointer receiver returns the updated record together with what
  it returned: `none`, an `error`, or a run-time panic.
* An `io.Writer` is a state type with a `Write` function.
-/

namespace I64

/-! ## op.go -/

/-- Type `Op`: an amd64 operation (`type Op int`). -/
abbrev Op := Int

abbrev LABEL : Op := 0
abbrev ADD : Op := 1
abbrev OR : Op := 2
abbrev ADC : Op := 3
abbrev SBB : Op := 4
abbrev AND : Op := 5
abbrev SUB : Op := 6
abbrev XOR : Op := 7
abbrev CMP : Op := 8
abbrev ADDL : Op := 9
abbrev ORL : Op := 10
abbrev ADCL : Op := 11
abbrev SBBL : Op := 12
abbrev ANDL : Op := 13
abbrev SUBL : Op := 14
abbrev XORL : Op := 15
abbrev CMPL : Op := 16
abbrev ADDQ : Op := 17
abbrev ORQ : Op := 18
abbrev ADCQ : Op := 19
abbrev SBBQ : Op := 20
abbrev ANDQ : Op := 21
abbrev SUBQ : Op := 22
abbrev XORQ : Op := 23
abbrev CMPQ : Op := 24
abbrev IMULL : Op := 25
abbrev IMULQ : Op := 26
abbrev IDIVL : Op := 27
abbrev IDIVQ : Op := 28
abbrev MOVB : Op := 29
abbrev MOVL : Op := 30
abbrev MOVQ : Op := 31
abbrev LEAL : Op := 32
abbrev LEAQ : Op := 33
abbrev CALL : Op := 34
abbrev RET : Op := 35
abbrev JMP : Op := 36
abbrev JE : Op := 37
abbrev JNE : Op := 38
abbrev JHI : Op := 39
abbrev PUSHL : Op := 40
abbrev PUSHQ : Op := 41
abbrev POPL : Op := 42
abbrev POPQ : Op := 43
abbrev LEA : Op := 44
abbrev MOVSS : Op := 45
abbrev ADDSS : Op := 46
abbrev MULSS : Op := 47
abbrev SUBSS : Op := 48
abbrev MINSS : Op := 49
abbrev DIVSS : Op := 50
abbrev MAXSS : Op := 51
abbrev MOVSD : Op := 52
abbrev ADDSD : Op := 53
abbrev MULSD : Op := 54
abbrev SUBSD : Op := 55
abbrev MINSD : Op := 56
abbrev DIVSD : Op := 57
abbrev MAXSD : Op := 58
abbrev lastOp : Op := 59

/-! ## register.go -/

/-- Type `Register`: an amd64 register (`type Register int`). -/
abbrev Register := Int

abbrev AX : Int := 0
abbrev CX : Int := 1
abbrev DX : Int := 2
abbrev BX : Int := 3
abbrev SP : Int := 4
abbrev BP : Int := 5
abbrev SI : Int := 6
abbrev DI : Int := 7
abbrev R8 : Int := 8
abbrev R9 : Int := 9
abbrev R10 : Int := 10
abbrev R11 : Int := 11
abbrev R12 : Int := 12
abbrev R13 : Int := 13
abbrev R14 : Int := 14
abbrev R15 : Int := 15
abbrev X0 : Int := 16
abbrev X1 : Int := 17
abbrev X2 : Int := 18
abbrev X3 : Int := 19
abbrev X4 : Int := 20
abbrev X5 : Int := 21
abbrev X6 : Int := 22
abbrev X7 : Int := 23
abbrev X8 : Int := 24
abbrev X9 : Int := 25
abbrev X10 : Int := 26
abbrev X11 : Int := 27
abbrev X12 : Int := 28
abbrev X13 : Int := 29
abbrev X14 : Int := 30
abbrev X15 : Int := 31

/-! ## addr.go -/

/-- Type `AddrType`: the type of an `Addr` (`type AddrType int`), spaced as a bit field. -/
abbrev AddrType := Int

abbrev None : AddrType := 0
abbrev Reg : AddrType := 1
abbrev Ind : AddrType := 2
abbrev Xmm : AddrType := 4
abbrev Imm8 : AddrType := 8
abbrev Imm16 : AddrType := 16
abbrev Imm32 : AddrType := 32
abbrev Imm64 : AddrType := 64
abbrev Rel8 : AddrType := 128
abbrev Rel16 : AddrType := 256
abbrev Rel32 : AddrType := 512
abbrev Label : AddrType := 1024

/-- The dynamic value held by `Addr.Value` (an `interface{}`): the nil interface, a
`Register`, one of the integer types the code switches on, or a value of some
other type. Integer payloads are kept as mathematical integers in the range of
their Go type. Of a value of another type the code uses nothing but the text package
`fmt` prints for it under the verb `%x`, which is what `other` holds. -/
inductive Value where
  | nil
  | register (r : Int)
  | uint8 (v : Nat)
  | uint16 (v : Nat)
  | uint32 (v : Nat)
  | uint64 (v : Nat)
  | int8 (v : Int)
  | int16 (v : Int)
  | int32 (v : Int)
  | int64 (v : Int)
  | int (v : Int)
  | other (hex : String)
  deriving DecidableEq, Repr

/-- Struct `Addr`: an address used by an instruction. Field `Typ` is Go's `Type`. -/
structure Addr where
  Typ : AddrType
  Value : Value
  Disp : Nat
  Name : String
  deriving DecidableEq, Repr

/-- The zero `Addr` (an operand left out of a struct literal). -/
def Addr.zero : Addr := ⟨None, .nil, 0, ""⟩

/-- A run-time panic of the Go program. -/
inductive Panic where
  | unknownImm
  | unknownRel
  | notSignedInteger
  | notInteger
  | typeAssertion
  | unreachable
  | unknownWidth (width : Int)
  | nilDereference
  | indexOutOfRange
  | unexpectedJumpType (t : AddrType)
  | unknownAddrType
  deriving DecidableEq, Repr

/-- Function `Imm`: builds an `Addr` that represents immediate data. -/
def Imm (v : Value) : Except Panic Addr :=
  match v with
  | .uint8 _ => .ok ⟨Imm8, v, 0, ""⟩
  | .uint32 _ => .ok ⟨Imm32, v, 0, ""⟩
  | .uint64 _ => .ok ⟨Imm64, v, 0, ""⟩
  | _ => .error .unknownImm

/-- Function `Rel`: builds an `Addr` that represents a relative address. -/
def Rel (v : Value) : Except Panic Addr :=
  match v with
  | .int8 _ => .ok ⟨Rel8, v, 0, ""⟩
  | .int32 _ => .ok ⟨Rel32, v, 0, ""⟩
  | _ => .error .unknownRel

/-- Function `LabelAddr`: builds an `Addr` that represents a label. -/
def LabelAddr (name : String) : Addr := ⟨Label, .nil, 0, name⟩

/-- Method `Register.Addr`: an `Addr` representing a register. -/
def Register.Addr (r : Int) : I64.Addr :=
  ⟨if X0 ≤ r ∧ r ≤ X15 then Xmm else Reg, .register r, 0, ""⟩

/-- Method `Register.Ind`: a memory address pointed to by the given register. -/
def Register.Ind (r : Int) (disp : Nat) : I64.Addr := ⟨I64.Ind, .register r, disp, ""⟩

/-- Method `Addr.valueInt64`. -/
def Addr.valueInt64 (a : Addr) : Except Panic Int :=
  match a.Value with
  | .int8 v => .ok v
  | .int16 v => .ok v
  | .int32 v => .ok v
  | .int64 v => .ok v
  | .int v => .ok v
  | _ => .error .notSignedInteger

/-- Conversion `uint64(x)` of a signed 64-bit integer. -/
def uint64 (x : Int) : Nat := (x % 2 ^ 64).toNat

/-- Conversion `uint8(x)` of an integer. -/
def uint8 (x : Int) : Nat := (x % 256).toNat

/-- Method `Addr.valueUint64`. -/
def Addr.valueUint64 (a : Addr) : Except Panic Nat :=
  match a.Value with
  | .uint8 v => .ok v
  | .uint16 v => .ok v
  | .uint32 v => .ok v
  | .uint64 v => .ok v
  | .int8 _ | .int16 _ | .int32 _ | .int64 _ | .int _ =>
    match a.valueInt64 with
    | .ok v => .ok (uint64 v)
    | .error e => .error e
  | _ => .error .notInteger

/-! ## i64.go -/

/-- Struct `Instruction`: an amd64 assembly instruction. -/
structure Instruction where
  Op : Op
  From : Addr
  To : Addr
  deriving DecidableEq, Repr

abbrev rexW : Nat := 0x08
abbrev rexR : Nat := 0x04
abbrev rexX : Nat := 0x02
abbrev rexB : Nat := 0x01

/-- Modelled from the spec: the mod policy of a recipe (Go type `modBits`, declared next
to the opcode table, which is not among the sources): `None` (no ModR/M byte),
`Default` (reg field derived from the register operand) or `Fixed-k` for `k` in
`0..8` (reg field is the constant `k`). -/
inductive modBits where
  | modNone
  | modDefault
  | mod0
  | mod1
  | mod2
  | mod3
  | mod4
  | mod5
  | mod6
  | mod7
  | mod8
  deriving DecidableEq, Repr

/-- Modelled from the spec: the constant `k` of the policy `Fixed-k` (the Go
expression `bits - mod0`); `0` for the two policies that are not `Fixed-k`. -/
def modBits.fixed : modBits → Nat
  | .mod1 => 1
  | .mod2 => 2
  | .mod3 => 3
  | .mod4 => 4
  | .mod5 => 5
  | .mod6 => 6
  | .mod7 => 7
  | .mod8 => 8
  | _ => 0

/-- Modelled from the spec: the key of the opcode table (Go type `opKey`, not among the
sources): mnemonic, source-operand kind, destination-operand kind. -/
structure opKey where
  op : Op
  fromTyp : AddrType
  toTyp : AddrType
  deriving DecidableEq, Repr

/-- Modelled from the spec: an opcode recipe (the value type of the opcode table, not among
the sources): up to three opcode bytes, a flag requiring REX.W, a flag requiring
the register to be added into `c1`, and a mod policy. -/
structure opVal where
  c0 : Nat
  c1 : Nat
  c2 : Nat
  rex : Bool
  addReg : Bool
  mod : modBits
  deriving DecidableEq, Repr

/-- The opcode table `optab` (a Go map, not among the sources) as a lookup function; the
encoder takes it as a parameter. -/
abbrev Optab := opKey → Option opVal

/-- An `error` value returned by the encoder or by a writer. -/
inductive Error where
  | unknownCombination (key : opKey)
  | addressMustBeRegister
  | r8Unsupported
  | xmmUnsupported
  | onlyOneIndirect
  | dispWithSIB (disp : Nat)
  | labelRedefined (i : Nat) (name : String) (previous : Int)
  | atInstruction (p : Instruction) (err : Error)
  | writer (code : Nat)
  deriving DecidableEq, Repr

/-- How a call can fail: it returns an `error`, or it panics. -/
inductive Failure where
  | error (err : Error)
  | panic (p : Panic)
  deriving DecidableEq, Repr

/-- Struct `ins`: a laid out `Instruction`. Field `insn` is Go's pointer field `ins`
(`none` is the nil pointer); the pointee is held by value and refreshed by `make`. -/
structure ins where
  insn : Option Instruction
  codeblock : Int
  codeblockEnd : Int
  rex : Nat
  c0 : Nat
  c1 : Nat
  c2 : Nat
  modRM : Bool
  modRMmod : Nat
  modRMreg : Nat
  modRMrm : Nat
  sib : Bool
  sibScale : Nat
  sibIndex : Nat
  sibBase : Nat
  dispWidth : Int
  disp : Nat
  immWidth : Int
  imm : Nat
  deriving DecidableEq, Repr

/-- The zero `ins` record (`new(ins)`, or an element of `make([]ins, n)`). -/
def ins.zero : ins :=
  ⟨none, 0, 0, 0, 0, 0, 0, false, 0, 0, 0, false, 0, 0, 0, 0, 0, 0, 0⟩

/-- The statement `if err := step; err != nil { return err }` followed by `rest`. -/
def andThen (step : ins × Option Failure) (rest : ins → ins × Option Failure) :
    ins × Option Failure :=
  match step.2 with
  | some f => (step.1, some f)
  | none => rest step.1

/-- Method `ins.addRegToOp`. -/
def ins.addRegToOp (c : ins) : ins × Option Failure :=
  match c.insn with
  | none => (c, some (.panic .nilDereference))
  | some p =>
    let r := if p.To.Typ = Reg then p.To else p.From
    match r.Value with
    | .register reg =>
      if R8 ≤ reg ∧ reg ≤ R15 then (c, some (.error .r8Unsupported))
      else if X0 ≤ reg ∧ reg ≤ X15 then (c, some (.error .xmmUnsupported))
      else ({ c with c1 := (c.c1 + uint8 (reg - AX)) % 256 }, none)
    | _ => (c, some (.error .addressMustBeRegister))

/-- First part of `ins.indirectAddress`: the mod field and the displacement. -/
def ins.indirectDisp (c : ins) (r2 : Addr) : ins × Option Failure :=
  if r2.Disp = 0 then ({ c with modRMmod := 0 }, none)
  else if r2.Disp ≤ 0xff then
    ({ c with modRMmod := 0x01, dispWidth := 8, disp := r2.Disp }, none)
  else if r2.Disp ≤ 0xffffffff then
    ({ c with modRMmod := 0x02, dispWidth := 32, disp := r2.Disp }, none)
  else (c, some (.error (.dispWithSIB r2.Disp)))

/-- Second part of `ins.indirectAddress`: the rm field and the SIB byte. -/
def ins.indirectRm (c : ins) (r2 : Addr) : ins × Option Failure :=
  match r2.Value with
  | .register reg =>
    -- Skip SIB if rm != 100b.
    if R8 ≤ reg ∧ reg ≤ R15 ∧ reg - R8 ≠ 0x4 then
      ({ c with rex := c.rex ||| rexB, modRMrm := uint8 (reg - R8) }, none)
    else if X0 ≤ reg ∧ reg ≤ X7 ∧ reg - X0 ≠ 0x4 then
      ({ c with rex := c.rex ||| rexB, modRMrm := uint8 (reg - X0) }, none)
    else if reg ≠ 0x4 then
      ({ c with modRMrm := uint8 reg }, none)
    -- Add a SIB.
    else if R8 ≤ reg ∧ reg ≤ R15 then
      ({ c with sib := true, modRMrm := 0x4, rex := c.rex ||| rexB, sibIndex := 0x4,
                sibBase := uint8 (reg - R8) }, none)
    else if X0 ≤ reg ∧ reg ≤ X7 then
      ({ c with sib := true, modRMrm := 0x4, sibIndex := 0x4,
                sibBase := uint8 (reg - X0) }, none)
    else if X8 ≤ reg ∧ reg ≤ X15 then
      ({ c with sib := true, modRMrm := 0x4, rex := c.rex ||| rexB, sibIndex := 0x4,
                sibBase := uint8 (reg - X8) }, none)
    else
      ({ c with sib := true, modRMrm := 0x4, sibIndex := 0x4, sibBase := uint8 reg }, none)
  | _ => (c, some (.panic .typeAssertion))

/-- Method `ins.indirectAddress`. -/
def ins.indirectAddress (c : ins) (r2 : Addr) : ins × Option Failure :=
  andThen (c.indirectDisp r2) fun c => c.indirectRm r2

/-- Method `ins.directAddress`. -/
def ins.directAddress (c : ins) (r2 : Addr) : ins × Option Failure :=
  match r2.Value with
  | .register reg =>
    if R8 ≤ reg ∧ reg ≤ R15 then
      ({ c with modRMmod := 0x3, rex := c.rex ||| rexB, modRMrm := uint8 (reg - R8) }, none)
    else if X0 ≤ reg ∧ reg ≤ X7 then
      ({ c with modRMmod := 0x3, modRMrm := uint8 (reg - X0) }, none)
    else if X8 ≤ reg ∧ reg ≤ X15 then
      ({ c with modRMmod := 0x3, rex := c.rex ||| rexB, modRMrm := uint8 (reg - X8) }, none)
    else ({ c with modRMmod := 0x3, modRMrm := uint8 reg }, none)
  | _ => ({ c with modRMmod := 0x3 }, none)

/-- The `switch bits` statement of `ins.makeMod`: the reg field of the ModR/M byte. -/
def ins.makeModReg (c : ins) (bits : modBits) (r1 : Addr) : ins × Option Failure :=
  match bits with
  | .modDefault =>
    match r1.Value with
    | .register reg =>
      if AX ≤ reg ∧ reg ≤ DI then ({ c with modRMreg := uint8 (reg - AX) }, none)
      else if R8 ≤ reg ∧ reg ≤ R15 then
        ({ c with rex := c.rex ||| rexR, modRMreg := uint8 (reg - R8) }, none)
      else if X0 ≤ reg ∧ reg ≤ X7 then ({ c with modRMreg := uint8 (reg - X0) }, none)
      else if X8 ≤ reg ∧ reg ≤ X15 then
        ({ c with rex := c.rex ||| rexR, modRMreg := uint8 (reg - X8) }, none)
      else (c, none)
    | _ => (c, none)
  | .modNone => (c, some (.panic .unreachable))
  | bits => ({ c with modRMreg := bits.fixed % 256 }, none)

/-- The local `r1` of `ins.makeMod`: the direct address. -/
def Instruction.r1 (p : Instruction) : Addr := if p.From.Typ = Ind then p.To else p.From

/-- The local `r2` of `ins.makeMod`: the address that may be indirect. -/
def Instruction.r2 (p : Instruction) : Addr := if p.From.Typ = Ind then p.From else p.To

/-- Method `ins.makeMod`. -/
def ins.makeMod (c : ins) (bits : modBits) : ins × Option Failure :=
  if bits = .modNone then (c, none)
  else
    match c.insn with
    | none => ({ c with modRM := true }, some (.panic .nilDereference))
    | some p =>
      if p.r1.Typ = Ind then ({ c with modRM := true }, some (.error .onlyOneIndirect))
      else
        andThen ({ c with modRM := true }.makeModReg bits p.r1) fun c =>
          if p.r2.Typ = Ind then c.indirectAddress p.r2 else c.directAddress p.r2

/-- Method `ins.makeImm`. -/
def ins.makeImm (c : ins) (r : Addr) : ins × Option Failure :=
  if r.Typ = Imm8 ∨ r.Typ = Rel8 then
    match r.valueUint64 with
    | .ok v => ({ c with immWidth := 8, imm := v }, none)
    | .error e => ({ c with immWidth := 8 }, some (.panic e))
  else if r.Typ = Imm16 ∨ r.Typ = Rel16 then
    match r.valueUint64 with
    | .ok v => ({ c with immWidth := 16, imm := v }, none)
    | .error e => ({ c with immWidth := 16 }, some (.panic e))
  else if r.Typ = Imm32 ∨ r.Typ = Rel32 then
    match r.valueUint64 with
    | .ok v => ({ c with immWidth := 32, imm := v }, none)
    | .error e => ({ c with immWidth := 32 }, some (.panic e))
  else if r.Typ = Imm64 then
    match r.valueUint64 with
    | .ok v => ({ c with immWidth := 64, imm := v }, none)
    | .error e => ({ c with immWidth := 64 }, some (.panic e))
  else (c, none)

/-- Method `ins.make`: encodes instruction `p` into the record `c`. -/
def ins.make (optab : Optab) (c : ins) (p : Instruction) : ins × Option Failure :=
  if p.Op = LABEL then ({ c with insn := some p }, none)
  else
    match optab ⟨p.Op, p.From.Typ, p.To.Typ⟩ with
    | none =>
      ({ c with insn := some p }, some (.error (.unknownCombination ⟨p.Op, p.From.Typ, p.To.Typ⟩)))
    | some optabVal =>
      andThen
        (if optabVal.addReg then
          { c with insn := some p, c0 := optabVal.c0, c1 := optabVal.c1,
                   c2 := optabVal.c2 }.addRegToOp
         else
          ({ c with insn := some p, c0 := optabVal.c0, c1 := optabVal.c1,
                    c2 := optabVal.c2 }, none))
        fun c =>
          andThen ((if optabVal.rex then { c with rex := c.rex ||| rexW } else c).makeMod
            optabVal.mod) fun c =>
            andThen (c.makeImm p.From) fun c => c.makeImm p.To

/-- An `io.Writer`: a sink with state `σ` whose `Write` either takes the bytes or
reports an error. -/
structure Writer (σ : Type) where
  Write : σ → List Nat → σ × Option Error

/-- A `bytes.Buffer`: the bytes written so far; its `Write` never fails. -/
def bufferWriter : Writer (List Nat) := ⟨fun s b => (s ++ b, none)⟩

/-- The `n` least significant bytes of `v`, least significant first
(`binary.LittleEndian`). -/
def littleEndian : Nat → Nat → List Nat
  | 0, _ => []
  | n + 1, v => v % 256 :: littleEndian n (v / 256)

/-- Function `writeBytes`. -/
def writeBytes {σ : Type} (W : Writer σ) (w : σ) (width : Int) (v : Nat) :
    σ × Option Failure :=
  if width = 8 then
    let r := W.Write w (littleEndian 1 (v % 2 ^ 8)); (r.1, r.2.map Failure.error)
  else if width = 16 then
    let r := W.Write w (littleEndian 2 (v % 2 ^ 16)); (r.1, r.2.map Failure.error)
  else if width = 32 then
    let r := W.Write w (littleEndian 4 (v % 2 ^ 32)); (r.1, r.2.map Failure.error)
  else if width = 64 then
    let r := W.Write w (littleEndian 8 (v % 2 ^ 64)); (r.1, r.2.map Failure.error)
  else (w, some (.panic (.unknownWidth width)))

/-- The bytes `ins.writeTo` collects in `buf` before its first `Write`: REX, the opcode
bytes, ModR/M and SIB. -/
def ins.buf (c : ins) : List Nat :=
  (if c.rex ≠ 0 then [0x48 ||| c.rex] else [])
  ++ (if c.c0 ≠ 0 then [c.c0] else [])
  ++ [c.c1]
  ++ (if c.c1 = 0x0f then [c.c2] else [])
  ++ (if c.modRM then
        [((c.modRMmod <<< 6) % 256) ||| ((c.modRMreg <<< 3) % 256) ||| c.modRMrm] else [])
  ++ (if c.sib then
        [((c.sibScale <<< 6) % 256) ||| ((c.sibIndex <<< 3) % 256) ||| c.sibBase] else [])

/-- Method `ins.writeTo`: the sink after the call, the count `n` and the error. -/
def ins.writeTo {σ : Type} (c : ins) (W : Writer σ) (w : σ) : σ × Int × Option Failure :=
  match c.insn with
  | none => (w, 0, some (.panic .nilDereference))
  | some p =>
    if p.Op = LABEL then (w, 0, none)
    else
      match W.Write w c.buf with
      | (w, some err) => (w, 0, some (.error err))
      | (w, none) =>
        let n : Int := c.buf.length
        match (if c.dispWidth > 0 then writeBytes W w c.dispWidth c.disp else (w, none)) with
        | (w, some f) => (w, n, some f)
        | (w, none) =>
          let n := if c.dispWidth > 0 then n + c.dispWidth else n
          match (if c.immWidth > 0 then writeBytes W w c.immWidth c.imm else (w, none)) with
          | (w, some f) => (w, n, some f)
          | (w, none) => (w, if c.immWidth > 0 then n + c.immWidth else n, none)

/-- The bytes `writeTo` emits for a record into an empty `bytes.Buffer`. -/
def ins.emitted (c : ins) : List Nat := (c.writeTo bufferWriter []).1

/-- The displacement bytes `writeTo` emits for a record (between `buf` and the
immediate), into an empty `bytes.Buffer`. -/
def ins.dispBytes (c : ins) : List Nat :=
  if c.dispWidth > 0 then (writeBytes bufferWriter [] c.dispWidth c.disp).1 else []

/-! ## program.go -/

/-- Type `Program`: an amd64 program. -/
abbrev Program := List Instruction

/-- The map `labels` of `layOut` (`map[string]int`), as an association list. -/
abbrev Labels := List (String × Nat)

/-- The map read `labels[name]`: the zero value `0` when `name` is not a key. -/
def Labels.get (labels : Labels) (name : String) : Nat := (labels.lookup name).getD 0

/-- First loop of `Program.layOut`: collect labels, from index `i` on. -/
def collectLabels : List Instruction → Nat → Labels → Except Failure Labels
  | [], _, labels => .ok labels
  | x :: rest, i, labels =>
    if x.Op = LABEL then
      match labels.lookup x.From.Name with
      | some previous => .error (.error (.labelRedefined i x.From.Name previous))
      | none => collectLabels rest (i + 1) ((x.From.Name, i) :: labels)
    else collectLabels rest (i + 1) labels

abbrev shortJumpLimit : Int := 17

/-- Body of the second loop of `Program.layOut`: the in-place rewrite of `p[i].To`. -/
def selectJump (labels : Labels) (i : Nat) (x : Instruction) : Instruction :=
  if x.To.Typ = Label then
    if x.Op = CALL then { x with To := { x.To with Typ := Rel32, Value := .int8 0 } }
    else if (i : Int) - (labels.get x.To.Name : Int) < shortJumpLimit then
      { x with To := { x.To with Typ := Rel8, Value := .int8 0 } }
    else { x with To := { x.To with Typ := Rel16, Value := .int16 0 } }
  else x

/-- Second loop of `Program.layOut`, from index `i` on: the rewritten instructions and
the collected `jumps`. -/
def selectJumps (labels : Labels) : List Instruction → Nat → List Instruction × List Nat
  | [], _ => ([], [])
  | x :: rest, i =>
    let r := selectJumps labels rest (i + 1)
    (selectJump labels i x :: r.1, if x.To.Typ = Label then i :: r.2 else r.2)

/-- The panic carried by a failure, if it is one (a panic unwinds through callers that
ignore the returned `error`). -/
def panicOf : Option Failure → Option Panic
  | some (.panic e) => some e
  | _ => none

/-- Third loop of `Program.layOut`: lay out instructions. -/
def layOutAll (optab : Optab) : List Instruction → Except Failure (List ins)
  | [] => .ok []
  | x :: rest =>
    match ins.zero.make optab x with
    | (_, some (.error err)) => .error (.error (.atInstruction x err))
    | (_, some (.panic e)) => .error (.panic e)
    | (c, none) =>
      match layOutAll optab rest with
      | .ok cs => .ok (c :: cs)
      | .error f => .error f

/-- Fourth loop of `Program.layOut`: calculate codeblock offsets. -/
def assignOffsets : List ins → Int → Except Failure (List ins)
  | [], _ => .ok []
  | c :: rest, codeblock =>
    -- buf.Reset(); laidOut[i].writeTo(buf)
    match panicOf (({ c with codeblock := codeblock } : ins).writeTo bufferWriter []).2.2 with
    | some e => .error (.panic e)
    | none =>
      match assignOffsets rest
          (codeblock
            + (({ c with codeblock := codeblock } : ins).writeTo bufferWriter []).1.length) with
      | .ok cs =>
        .ok ({ c with
                codeblock := codeblock,
                codeblockEnd := codeblock
                  + (({ c with codeblock := codeblock } : ins).writeTo bufferWriter []).1.length }
              :: cs)
      | .error f => .error f

/-- Conversion `int8(x)`, `int16(x)`, `int32(x)` of an `int`: wrap to `w` signed bits. -/
def wrapSigned (w : Nat) (x : Int) : Int := (x + 2 ^ (w - 1)) % 2 ^ w - 2 ^ (w - 1)

/-- Body of the fifth loop of `Program.layOut`: update one jump location. -/
def patchJump (optab : Optab) (labels : Labels) (st : Program × List ins) (jump : Nat) :
    Except Failure (Program × List ins) :=
  match st.1[jump]? with
  | none => .error (.panic .indexOutOfRange)
  | some pj =>
    match st.2[labels.get pj.To.Name]?, st.2[jump]? with
    | some target, some cj =>
      let val := target.codeblock - cj.codeblockEnd
      let v : Option Value :=
        if pj.To.Typ = Rel8 then some (.int8 (wrapSigned 8 val))
        else if pj.To.Typ = Rel16 then some (.int16 (wrapSigned 16 val))
        else if pj.To.Typ = Rel32 then some (.int32 (wrapSigned 32 val))
        else none
      match v with
      | none => .error (.panic (.unexpectedJumpType pj.To.Typ))
      | some v =>
        let pj := { pj with To := { pj.To with Value := v } }
        match panicOf (cj.make optab pj).2 with
        | some e => .error (.panic e)
        | none => .ok (st.1.set jump pj, st.2.set jump (cj.make optab pj).1)
    | _, _ => .error (.panic .indexOutOfRange)

/-- Fifth loop of `Program.layOut`: update jump locations. -/
def patchJumps (optab : Optab) (labels : Labels) :
    List Nat → Program × List ins → Except Failure (Program × List ins)
  | [], st => .ok st
  | jump :: jumps, st =>
    match patchJump optab labels st jump with
    | .ok st => patchJumps optab labels jumps st
    | .error f => .error f

/-- Method `Program.layOut`: translates `Instruction` into `ins` and resolves labels.
The first component is the program as the call leaves it (label operands are
rewritten in place). -/
def Program.layOut (optab : Optab) (p : Program) : Program × Except Failure (List ins) :=
  match collectLabels p 0 [] with
  | .error f => (p, .error f)
  | .ok labels =>
    let r := selectJumps labels p 0
    match layOutAll optab r.1 with
    | .error f => (r.1, .error f)
    | .ok laidOut =>
      match assignOffsets laidOut 0 with
      | .error f => (r.1, .error f)
      | .ok laidOut =>
        match patchJumps optab labels r.2 (r.1, laidOut) with
        | .error f => (r.1, .error f)
        | .ok st => (st.1, .ok st.2)

/-- The loop of `Program.WriteTo` over the laid out instructions. -/
def writeAll {σ : Type} (W : Writer σ) : List ins → σ → Int → σ × Int × Option Failure
  | [], w, n => (w, n, none)
  | c :: rest, w, n =>
    match c.writeTo W w with
    | (w, n1, some f) => (w, n + n1, some f)
    | (w, n1, none) => writeAll W rest w (n + n1)

/-- Method `Program.WriteTo`: writes the assembled bytes of a program to `w`. Returns
the program as the call leaves it, the sink, the count `n` and the error. -/
def Program.WriteTo {σ : Type} (optab : Optab) (p : Program) (W : Writer σ) (w : σ) :
    Program × σ × Int × Option Failure :=
  match p.layOut optab with
  | (p, .error f) => (p, w, 0, some f)
  | (p, .ok laidOut) => (p, writeAll W laidOut w 0)

/-- Method `Program.Bytes`: the assembled bytes of a program. -/
def Program.Bytes (optab : Optab) (p : Program) : Program × Except Failure (List Nat) :=
  match p.WriteTo optab bufferWriter [] with
  | (p, _, _, some f) => (p, .error f)
  | (p, buf, _, none) => (p, .ok buf)

/-- Modelled from the spec: the opcode table `optab` is not among the sources; these are the
recipes of the concrete scenarios of the spec (the instructions of `i64tests`), each
read off the bytes the scenario expects. Every other key is absent. -/
def scenarioOptab : Optab := fun key =>
  ([ (⟨ADDQ, Reg, Reg⟩, ⟨0, 0x01, 0, true, false, .modDefault⟩),
     (⟨RET, None, None⟩, ⟨0, 0xc3, 0, false, false, .modNone⟩),
     (⟨PUSHQ, Imm8, None⟩, ⟨0, 0x6a, 0, false, false, .modNone⟩),
     (⟨PUSHQ, Imm32, None⟩, ⟨0, 0x68, 0, false, false, .modNone⟩),
     (⟨MOVL, Imm32, Reg⟩, ⟨0, 0xb8, 0, false, true, .modNone⟩),
     (⟨MOVQ, Ind, Reg⟩, ⟨0, 0x8b, 0, true, false, .modDefault⟩),
     (⟨MOVQ, Imm32, Ind⟩, ⟨0, 0xc7, 0, true, false, .mod0⟩),
     (⟨MOVQ, Imm64, Reg⟩, ⟨0, 0xb8, 0, true, true, .modNone⟩),
     (⟨CMPQ, Reg, Ind⟩, ⟨0, 0x3b, 0, true, false, .modDefault⟩),
     (⟨POPQ, None, Reg⟩, ⟨0, 0x58, 0, false, true, .modNone⟩),
     (⟨PUSHQ, Reg, None⟩, ⟨0, 0x50, 0, false, true, .modNone⟩),
     (⟨JHI, None, Rel8⟩, ⟨0, 0x77, 0, false, false, .modNone⟩),
     (⟨CALL, None, Rel32⟩, ⟨0, 0xe8, 0, false, false, .modNone⟩),
     (⟨MOVSD, Ind, Xmm⟩, ⟨0xf2, 0x0f, 0x10, false, false, .modDefault⟩),
     (⟨MOVSD, Xmm, Ind⟩, ⟨0xf2, 0x0f, 0x11, false, false, .modDefault⟩),
     (⟨ADDSD, Xmm, Xmm⟩, ⟨0xf2, 0x0f, 0x58, false, false, .modDefault⟩),
     (⟨IDIVL, None, Reg⟩, ⟨0, 0xf7, 0, false, false, .mod7⟩),
     (⟨IDIVQ, None, Reg⟩, ⟨0, 0xf7, 0, true, false, .mod7⟩) ] :
    List (opKey × opVal)).lookup key

/-! ## Concrete inputs -/

/-- The instruction `MOVQ $0xabcd1234abcd, BP` of `i64tests` (ten bytes). -/
def movqImm64 : Instruction := ⟨MOVQ, ⟨Imm64, .uint64 0xabcd1234abcd, 0, ""⟩, Register.Addr BP⟩

/-- A backward jump over thirteen ten-byte instructions:
`loop:`, 13 × `MOVQ $0xabcd1234abcd, BP`, `JHI loop`. -/
def backwardJump : Program :=
  [⟨LABEL, LabelAddr "loop", Addr.zero⟩] ++ List.replicate 13 movqImm64
    ++ [⟨JHI, Addr.zero, LabelAddr "loop"⟩]

/-- A forward jump over thirteen ten-byte instructions:
`JHI done`, 13 × `MOVQ $0xabcd1234abcd, BP`, `done:`. -/
def forwardJump : Program :=
  [⟨JHI, Addr.zero, LabelAddr "done"⟩] ++ List.replicate 13 movqImm64
    ++ [⟨LABEL, LabelAddr "done", Addr.zero⟩]

/-- The one-instruction program `PUSHQ $0x9d42` (instruction of `i64tests`). -/
def pushImm32 : Program := [⟨PUSHQ, ⟨Imm32, .uint32 0x9d42, 0, ""⟩, Addr.zero⟩]

/-- The one-instruction program `JHI nowhere`; no `LABEL` defines `nowhere`. -/
def jumpNowhere : Program := [⟨JHI, Addr.zero, LabelAddr "nowhere"⟩]

/-- The instruction `MOVQ 8+(R12), BX`. -/
def movqR12 : Instruction := ⟨MOVQ, Register.Ind R12 8, Register.Addr BX⟩

/-- The start offset of record `t` and the end offset of record `j` of a layout. -/
def offsetsOf (r : Except Failure (List ins)) (t j : Nat) : Option (Option Int × Option Int) :=
  r.toOption.map fun l => (l[t]?.map ins.codeblock, l[j]?.map ins.codeblockEnd)

/-! ## Predicates used in the theorems -/

/-- Widths and field ranges of a record built by `make`. -/
def ins.wellFormed (c : ins) : Prop :=
  (c.dispWidth = 0 ∨ c.dispWidth = 8 ∨ c.dispWidth = 32)
  ∧ (c.immWidth = 0 ∨ c.immWidth = 8 ∨ c.immWidth = 16 ∨ c.immWidth = 32 ∨ c.immWidth = 64)
  ∧ c.modRMmod ≤ 3 ∧ c.modRMreg ≤ 8 ∧ c.sibScale ≤ 3 ∧ c.sibIndex ≤ 4

/-- The byte sequence of a record in the order the spec gives. -/
def ins.serialized (c : ins) : List Nat :=
  (if c.rex ≠ 0 then [0x48 ||| c.rex] else [])
  ++ (if c.c0 ≠ 0 then [c.c0] else [])
  ++ [c.c1]
  ++ (if c.c1 = 0x0F then [c.c2] else [])
  ++ (if c.modRM then [c.modRMmod <<< 6 ||| c.modRMreg <<< 3 ||| c.modRMrm] else [])
  ++ (if c.sib then [c.sibScale <<< 6 ||| c.sibIndex <<< 3 ||| c.sibBase] else [])
  ++ (if c.dispWidth ≠ 0 then littleEndian (c.dispWidth / 8).toNat c.disp else [])
  ++ (if c.immWidth ≠ 0 then littleEndian (c.immWidth / 8).toNat c.imm else [])

/-- A laid-out record: the result of `make` on a zero record, or a record of a
successful `layOut`. -/
def LaidOut (optab : Optab) (c : ins) : Prop :=
  (∃ q, ins.zero.make optab q = (c, none))
    ∨ ∃ p p' L, Program.layOut optab p = (p', .ok L) ∧ c ∈ L

/-- The width in bytes of an integer payload (0 for a payload that is no integer). -/
def Value.width : Value → Nat
  | .uint8 _ | .int8 _ => 1
  | .uint16 _ | .int16 _ => 2
  | .uint32 _ | .int32 _ => 4
  | .uint64 _ | .int64 _ | .int _ => 8
  | _ => 0

/-- The integer an integer payload denotes (0 for a payload that is no integer). -/
def Value.toInt : Value → Int
  | .uint8 v | .uint16 v | .uint32 v | .uint64 v => v
  | .int8 v | .int16 v | .int32 v | .int64 v | .int v => v
  | _ => 0

/-- The payload lies in the range of its Go type. -/
def Value.inRange : Value → Prop
  | .uint8 v => v < 2 ^ 8
  | .uint16 v => v < 2 ^ 16
  | .uint32 v => v < 2 ^ 32
  | .uint64 v => v < 2 ^ 64
  | .int8 v => -2 ^ 7 ≤ v ∧ v < 2 ^ 7
  | .int16 v => -2 ^ 15 ≤ v ∧ v < 2 ^ 15
  | .int32 v => -2 ^ 31 ≤ v ∧ v < 2 ^ 31
  | .int64 v | .int v => -2 ^ 63 ≤ v ∧ v < 2 ^ 63
  | _ => True

instance (v : Value) : Decidable v.inRange := by
  cases v <;> unfold Value.inRange <;> infer_instance

/-- The little-endian representation of an integer payload at its width (two's
complement for a signed one): byte `i` is `⌊v / 256^i⌋ mod 256`. -/
def Value.littleEndianRepr (v : Value) : List Nat :=
  (List.range v.width).map fun i => ((v.toInt / 256 ^ i) % 256).toNat

/-- The unsigned integer a little-endian byte sequence denotes. -/
def decodeLittleEndian : List Nat → Nat
  | [] => 0
  | b :: bs => b + 256 * decodeLittleEndian bs

/-- Decoding a byte sequence at the type of the payload `like`. -/
def Value.decode (like : Value) (bs : List Nat) : Value :=
  match like with
  | .uint8 _ => .uint8 (decodeLittleEndian bs)
  | .uint16 _ => .uint16 (decodeLittleEndian bs)
  | .uint32 _ => .uint32 (decodeLittleEndian bs)
  | .uint64 _ => .uint64 (decodeLittleEndian bs)
  | .int8 _ => .int8 (wrapSigned 8 (decodeLittleEndian bs))
  | .int16 _ => .int16 (wrapSigned 16 (decodeLittleEndian bs))
  | .int32 _ => .int32 (wrapSigned 32 (decodeLittleEndian bs))
  | .int64 _ => .int64 (wrapSigned 64 (decodeLittleEndian bs))
  | .int _ => .int (wrapSigned 64 (decodeLittleEndian bs))
  | x => x

/-- The operand kinds for which `makeImm` sets an immediate. -/
def carriesImmediate (t : AddrType) : Prop :=
  t = Imm8 ∨ t = Rel8 ∨ t = Imm16 ∨ t = Rel16 ∨ t = Imm32 ∨ t = Rel32 ∨ t = Imm64

instance (t : AddrType) : Decidable (carriesImmediate t) := by
  unfold carriesImmediate; infer_instance

/-- The instruction `MOVQ 8+(SP), BX` of `i64tests`. -/
def movqSP8 : Instruction := ⟨MOVQ, Register.Ind SP 8, Register.Addr BX⟩

/-- The instruction `CALL Rel(int32(-0x113))` of `i64tests`. -/
def callRel32 : Instruction := ⟨CALL, Addr.zero, ⟨Rel32, .int32 (-0x113), 0, ""⟩⟩

/-- A loop: `loop:`, `ADDQ BP, BX`, `JHI loop` (start offsets 0, 0, 3; end offset 5). -/
def loopProgram : Program :=
  [⟨LABEL, LabelAddr "loop", Addr.zero⟩, ⟨ADDQ, Register.Addr BP, Register.Addr BX⟩,
   ⟨JHI, Addr.zero, LabelAddr "loop"⟩]

/-- Whether a payload is one of Go's signed integer types. -/
def Value.isSigned : Value → Bool
  | .int8 _ | .int16 _ | .int32 _ | .int64 _ | .int _ => true
  | _ => false

/-- Whether a payload is one of Go's integer types (the types `valueUint64` accepts). -/
def Value.isInteger : Value → Bool
  | .uint8 _ | .uint16 _ | .uint32 _ | .uint64 _ => true
  | .int8 _ | .int16 _ | .int32 _ | .int64 _ | .int _ => true
  | _ => false

/-- Two operands that `make` cannot tell apart except for the immediate value: equal, or
relative operands of the same type whose payloads are both integers. -/
def ARel (r r' : Addr) : Prop :=
  r'.Typ = r.Typ ∧ r'.Disp = r.Disp ∧
    (r'.Value = r.Value ∨
      ((r.Typ = Rel8 ∨ r.Typ = Rel16 ∨ r.Typ = Rel32) ∧ r.Value.isInteger = true
        ∧ r'.Value.isInteger = true))

/-- Two instructions equal up to `ARel` on the destination. -/
def QRel (q q' : Instruction) : Prop := q'.Op = q.Op ∧ q'.From = q.From ∧ ARel q.To q'.To

/-- The instructions two records point to are indistinguishable. -/
def IRel (ci di : Option Instruction) : Prop :=
  ∃ q q', di = some q ∧ ci = some q' ∧ QRel q q'

/-- Record `c` is what results from encoding into `s` when `d` results from encoding an
indistinguishable instruction into the zero record. -/
def Sim (s c d : ins) : Prop :=
  c.codeblock = s.codeblock ∧ c.codeblockEnd = s.codeblockEnd
  ∧ c.rex = s.rex ||| d.rex ∧ c.c0 = d.c0 ∧ c.c1 = d.c1
  ∧ c.modRM = (s.modRM || d.modRM) ∧ c.sib = (s.sib || d.sib)
  ∧ c.dispWidth = (if d.dispWidth = 0 then s.dispWidth else d.dispWidth)
  ∧ c.immWidth = (if d.immWidth = 0 then s.immWidth else d.immWidth)
  ∧ IRel c.insn d.insn

/-- The fields of a record that decide how many bytes `writeTo` emits. -/
def SameShape (c c' : ins) : Prop :=
  c.rex = c'.rex ∧ c.c0 = c'.c0 ∧ c.c1 = c'.c1 ∧ c.modRM = c'.modRM ∧ c.sib = c'.sib
  ∧ c.dispWidth = c'.dispWidth ∧ c.immWidth = c'.immWidth
  ∧ c.insn.map Instruction.Op = c'.insn.map Instruction.Op

/-- Record `c` is an encoding of instruction `q`: it points to `q`, its fields are in
range, and it has the shape of `q` encoded into a zero record without failure. -/
def Encodes (optab : Optab) (q : Instruction) (c : ins) : Prop :=
  c.wellFormed ∧ c.insn = some q ∧ (ins.zero.make optab q).2 = none
    ∧ SameShape c (ins.zero.make optab q).1

/-! ## Names (op.go, register.go) -/

/-- The map `opName` of op.go, in the order of the source. -/
def opNameTable : List (Op × String) :=
  [(LABEL, "LABEL"),
   (ADD, "ADD"), (OR, "OR"), (ADC, "ADC"), (SBB, "SBB"), (AND, "AND"), (SUB, "SUB"),
   (XOR, "XOR"), (CMP, "CMP"),
   (ADDL, "ADDL"), (ORL, "ORL"), (ADCL, "ADCL"), (SBBL, "SBBL"), (ANDL, "ANDL"),
   (SUBL, "SUBL"), (XORL, "XORL"), (CMPL, "CMPL"),
   (ADDQ, "ADDQ"), (ORQ, "ORQ"), (ADCQ, "ADCQ"), (SBBQ, "SBBQ"), (ANDQ, "ANDQ"),
   (SUBQ, "SUBQ"), (XORQ, "XORQ"), (CMPQ, "CMPQ"),
   (IMULL, "IMULL"), (IMULQ, "IMULQ"),
   (IDIVL, "IDIVL"), (IDIVQ, "IDIVQ"),
   (MOVB, "MOVB"), (MOVL, "MOVL"), (MOVQ, "MOVQ"),
   (LEAL, "LEAL"), (LEAQ, "LEAQ"),
   (CALL, "CALL"), (RET, "RET"), (JMP, "JMP"), (JE, "JE"), (JNE, "JNE"), (JHI, "JHI"),
   (PUSHL, "PUSHL"), (PUSHQ, "PUSHQ"), (POPL, "POPL"), (POPQ, "POPQ"), (LEA, "LEA"),
   (MOVSS, "MOVSS"), (ADDSS, "ADDSS"), (MULSS, "MULSS"), (SUBSS, "SUBSS"),
   (MINSS, "MINSS"), (DIVSS, "DIVSS"), (MAXSS, "MAXSS"),
   (MOVSD, "MOVSD"), (ADDSD, "ADDSD"), (MULSD, "MULSD"), (SUBSD, "SUBSD"),
   (MINSD, "MINSD"), (DIVSD, "DIVSD"), (MAXSD, "MAXSD")]

/-- The map read `opName[op]` with its `ok` result: `none` when `op` has no entry. -/
def opNameEntry (op : Op) : Option String := opNameTable.lookup op

/-- The map read `opName[op]` (method `Op.String`): the empty string when `op` has no
entry. -/
def opName (op : Op) : String := (opNameEntry op).getD ""

/-- The map `registerName` of register.go. -/
def registerNameTable : List (Int × String) :=
  [(AX, "AX"), (CX, "CX"), (DX, "DX"), (BX, "BX"), (SP, "SP"), (BP, "BP"), (SI, "SI"),
   (DI, "DI"), (R8, "R8"), (R9, "R9"), (R10, "R10"), (R11, "R11"), (R12, "R12"),
   (R13, "R13"), (R14, "R14"), (R15, "R15"),
   (X0, "X0"), (X1, "X1"), (X2, "X2"), (X3, "X3"), (X4, "X4"), (X5, "X5"), (X6, "X6"),
   (X7, "X7"), (X8, "X8"), (X9, "X9"), (X10, "X10"), (X11, "X11"), (X12, "X12"),
   (X13, "X13"), (X14, "X14"), (X15, "X15")]

/-- The map read `registerName[r]` (method `Register.String`): the empty string when `r`
has no entry. -/
def registerName (r : Int) : String := (registerNameTable.lookup r).getD ""

/-! ## Text output (addr.go, i64.go, program.go) -/

/-- The verb `%x` of package `fmt` on a non-negative integer: lowercase hexadecimal. -/
def hex (n : Nat) : String := String.mk (Nat.toDigits 16 n)

/-- The verb `%x` on a signed integer. -/
def fmtHex (v : Int) : String := if v < 0 then "-" ++ hex v.natAbs else hex v.toNat

/-- The verb `%06x` on a signed integer: zero padding to width 6, the sign included. -/
def fmtHex06 (v : Int) : String :=
  (if v < 0 then "-" else "")
    ++ String.mk (List.replicate
        (6 - (if v < 0 then 1 else 0) - (hex v.natAbs).length) '0')
    ++ hex v.natAbs

/-- The verb `%x` on a byte slice (or on a string): two digits for each byte. -/
def fmtBytes (b : List Nat) : String :=
  String.join (b.map fun x => String.mk [Nat.digitChar (x / 16), Nat.digitChar (x % 16)])

/-- The verb `%x` on the payload of an `Addr`: an integer in hexadecimal, a `Register`
through its `String` method, the nil interface as `fmt` reports it, and for a payload of
another type the text it holds. -/
def Value.fmtHex : Value → String
  | .nil => "%!x(<nil>)"
  | .register r => fmtBytes ((registerName r).data.map Char.toNat)
  | .uint8 v | .uint16 v | .uint32 v | .uint64 v => hex v
  | .int8 v | .int16 v | .int32 v | .int64 v | .int v => I64.fmtHex v
  | .other text => text

/-- Method `Addr.printText`: the text written to `w`. -/
def Addr.printText (p : Addr) (codeblockEnd : Int) : Except Panic String :=
  if p.Typ = None then .ok ""
  else if p.Typ = Reg ∨ p.Typ = Xmm then
    match p.Value with
    | .register r => .ok (registerName r)
    | _ => .error .typeAssertion
  else if p.Typ = Ind then
    match p.Value with
    | .register r =>
      if p.Disp ≠ 0 then .ok (hex p.Disp ++ "+(" ++ registerName r ++ ")")
      else .ok ("(" ++ registerName r ++ ")")
    | _ => .error .typeAssertion
  else if p.Typ = Rel8 ∨ p.Typ = Rel16 ∨ p.Typ = Rel32 then
    if codeblockEnd ≠ 0 then
      -- We know where we are, print the absolute jump point.
      match p.valueInt64 with
      | .ok v => .ok (p.Name ++ ":(" ++ fmtHex06 (wrapSigned 64 (codeblockEnd + v)) ++ ")")
      | .error e => .error e
    else .ok (p.Name ++ ":(" ++ p.Value.fmtHex ++ ")")
  else if p.Typ = Imm8 ∨ p.Typ = Imm16 ∨ p.Typ = Imm32 ∨ p.Typ = Imm64 then
    .ok ("0x" ++ p.Value.fmtHex)
  else if p.Typ = Label then .ok p.Name
  else .error .unknownAddrType

/-- The slice expression `s[n:]` on a string of ASCII characters. -/
def sliceFrom (s : String) (n : Nat) : String := String.mk (s.data.drop n)

abbrev namePad : String := "      "

/-- Method `ins.printText`: the text written to `w`. The names of `opName` are ASCII, so
`len(name)` is the number of characters. -/
def ins.printText (c : ins) : Except Panic String :=
  match c.insn with
  | none => .error .nilDereference
  | some p =>
    match p.From.printText c.codeblockEnd with
    | .error e => .error e
    | .ok from_ =>
      match p.To.printText c.codeblockEnd with
      | .error e => .error e
      | .ok to_ =>
        .ok (opName p.Op
          ++ (if (opName p.Op).length < namePad.length
              then sliceFrom namePad (opName p.Op).length else "")
          ++ from_ ++ "," ++ to_)

abbrev bPad : String := "                     "

/-- The loop of `Program.PrintText` over the laid out instructions, from index `i` on:
the text written to `w`. -/
def printLines (p : Program) : List ins → Nat → Except Panic String
  | [], _ => .ok ""
  | c :: rest, i =>
    match p[i]? with
    | none => .error .indexOutOfRange
    | some x =>
      if x.Op = LABEL then
        match printLines p rest (i + 1) with
        | .ok text => .ok (x.From.Name ++ ":\n" ++ text)
        | .error e => .error e
      else
        match panicOf (c.writeTo bufferWriter []).2.2 with
        | some e => .error e
        | none =>
          match c.printText with
          | .error e => .error e
          | .ok line =>
            match printLines p rest (i + 1) with
            | .ok text =>
              .ok (fmtHex06 c.codeblock ++ "  " ++ fmtBytes c.emitted
                ++ (if c.emitted.length * 2 < bPad.length
                    then sliceFrom bPad (c.emitted.length * 2) else "")
                ++ " | " ++ line
                ++ (if i + 1 < p.length then "\n" else "")
                ++ text)
            | .error e => .error e

/-- Method `Program.PrintText`: the program as the call leaves it, and the text written
to `w` or the failure. -/
def Program.PrintText (optab : Optab) (p : Program) : Program × Except Failure String :=
  match p.layOut optab with
  | (p, .error f) => (p, .error f)
  | (p, .ok laidOut) =>
    match printLines p laidOut 0 with
    | .ok text => (p, .ok text)
    | .error e => (p, .error (.panic e))

/-! ## Further predicates and inputs -/

/-- The names of the `LABEL` pseudo-ops of a program, in order. -/
def labelNames (p : List Instruction) : List String :=
  (p.filter fun x => decide (x.Op = LABEL)).map fun x => x.From.Name

/-- The key `make` looks up for an instruction. -/
def Instruction.key (p : Instruction) : opKey := ⟨p.Op, p.From.Typ, p.To.Typ⟩

/-- An opcode table with the single recipe `(IDIVL, None, Reg)` under the policy
`Fixed-8`. -/
def fixed8Optab : Optab := fun k =>
  if k = ⟨IDIVL, None, Reg⟩ then some ⟨0, 0xf7, 0, false, false, .mod8⟩ else none

/-- The width in bytes that an immediate or relative kind declares (0 for the other
kinds). -/
def AddrType.width (t : AddrType) : Nat :=
  if t = Imm8 ∨ t = Rel8 then 1
  else if t = Imm16 ∨ t = Rel16 then 2
  else if t = Imm32 ∨ t = Rel32 then 4
  else if t = Imm64 then 8
  else 0

/-- The instruction `MOVQ 8+(X0), BX`: its base register is an SSE register. -/
def movqX0 : Instruction := ⟨MOVQ, Register.Ind X0 8, Register.Addr BX⟩

/-- A forward jump over seventeen ten-byte instructions:
`JHI done`, 17 × `MOVQ $0xabcd1234abcd, BP`, `done:` (the jump is instruction 0, the
label instruction 18). -/
def farForwardJump : Program :=
  [⟨JHI, Addr.zero, LabelAddr "done"⟩] ++ List.replicate 17 movqImm64
    ++ [⟨LABEL, LabelAddr "done", Addr.zero⟩]

/-- A backward jump over seventeen ten-byte instructions:
`loop:`, 17 × `MOVQ $0xabcd1234abcd, BP`, `JHI loop` (the label is instruction 0, the
jump instruction 18). -/
def farBackwardJump : Program :=
  [⟨LABEL, LabelAddr "loop", Addr.zero⟩] ++ List.replicate 17 movqImm64
    ++ [⟨JHI, Addr.zero, LabelAddr "loop"⟩]

/-- A program that defines the label `a` twice and jumps to it:
`a:`, `a:`, `JHI a`. -/
def duplicateLabel : Program :=
  [⟨LABEL, LabelAddr "a", Addr.zero⟩, ⟨LABEL, LabelAddr "a", Addr.zero⟩,
   ⟨JHI, Addr.zero, LabelAddr "a"⟩]

/-- A program whose second instruction has a key that `scenarioOptab` lacks:
`ADDQ BP,BX`, then `RET` with a register source. -/
def absentKey : Program :=
  [⟨ADDQ, Register.Addr BP, Register.Addr BX⟩, ⟨RET, Register.Addr AX, Addr.zero⟩]

/-- Instruction `y` is `x` up to the payload of the destination. -/
def SameButValue (x y : Instruction) : Prop :=
  y.Op = x.Op ∧ y.From = x.From ∧ y.To.Typ = x.To.Typ ∧ y.To.Name = x.To.Name
    ∧ y.To.Disp = x.To.Disp

/-! ## Inputs and predicates for the REX prefix, the displacement and repeated layout -/

/-- The instruction `ADDSD X8, X1`: the recipe of `ADDSD` requests no REX.W, the source
register needs REX.R. -/
def addsdX8 : Instruction := ⟨ADDSD, Register.Addr X8, Register.Addr X1⟩

/-- The instruction `MOVSD (R9), X0`: the recipe of `MOVSD` requests no REX.W, the base
register needs REX.B. -/
def movsdR9 : Instruction := ⟨MOVSD, Register.Ind R9 0, Register.Addr X0⟩

/-- The instruction `MOVQ 0x80+(CX), BX`. -/
def movqDisp80 : Instruction := ⟨MOVQ, Register.Ind CX 0x80, Register.Addr BX⟩

/-- The instruction `MOVQ 0x80000000+(CX), BX`. -/
def movqDisp31 : Instruction := ⟨MOVQ, Register.Ind CX 0x80000000, Register.Addr BX⟩

/-- The signed integer a little-endian byte sequence denotes at its own width (two's
complement), as the processor reads a displacement. -/
def signedLittleEndian (bs : List Nat) : Int :=
  wrapSigned (8 * bs.length) (decodeLittleEndian bs)

/-- A field of record `c` against the same field of `s` and `d`: `c` holds what `d`
holds, or neither encoding has written the field, so that `c` holds what `s` held and
`d` holds zero. -/
def FieldSim (fs fc fd : Nat) : Prop := fc = fd ∨ (fc = fs ∧ fd = 0)

/-- Companion of `Sim` for the fields that do not decide how many bytes are emitted. -/
def Sim2 (s c d : ins) : Prop :=
  FieldSim s.c2 c.c2 d.c2 ∧ FieldSim s.modRMmod c.modRMmod d.modRMmod
  ∧ FieldSim s.modRMreg c.modRMreg d.modRMreg ∧ FieldSim s.modRMrm c.modRMrm d.modRMrm
  ∧ FieldSim s.sibScale c.sibScale d.sibScale ∧ FieldSim s.sibIndex c.sibIndex d.sibIndex
  ∧ FieldSim s.sibBase c.sibBase d.sibBase ∧ FieldSim s.disp c.disp d.disp

/-- Record `c` is the encoding of instruction `q` into a zero record, which does not
fail, up to the two offsets. -/
def Exact (optab : Optab) (q : Instruction) (c : ins) : Prop :=
  (ins.zero.make optab q).2 = none
  ∧ ∃ a b : Int, c = { (ins.zero.make optab q).1 with codeblock := a, codeblockEnd := b }

/-- What the first loop of `layOut` reads of an instruction. -/
def Instruction.labelKey (x : Instruction) : I64.Op × String := (x.Op, x.From.Name)

/-- An opcode table with the single recipe `(ADDQ, Reg, Reg)` under the Default policy
that also adds the register to the opcode. -/
def addRegDefaultOptab : Optab := fun k =>
  if k = ⟨ADDQ, Reg, Reg⟩ then some ⟨0, 0x01, 0, true, true, .modDefault⟩ else none

/-! ## Lemmas -/

theorem andThen_none {r : ins × Option Failure} {k : ins → ins × Option Failure}
    (h : r.2 = none) : andThen r k = k r.1 := by
  unfold andThen; rw [h]

theorem andThen_some {r : ins × Option Failure} {k : ins → ins × Option Failure} {f : Failure}
    (h : r.2 = some f) : andThen r k = (r.1, some f) := by
  unfold andThen; rw [h]

theorem andThen_preserves (P : ins → Prop) {r : ins × Option Failure}
    {k : ins → ins × Option Failure} (hr : P r.1) (hk : ∀ c, P c → P (k c).1) :
    P (andThen r k).1 := by
  unfold andThen
  split
  · exact hr
  · exact hk _ hr

theorem addRegToOp_wellFormed (c : ins) (h : c.wellFormed) : (c.addRegToOp).1.wellFormed := by
  unfold ins.addRegToOp
  split
  · exact h
  · dsimp only
    split
    · split_ifs <;> exact h
    · exact h

theorem makeModReg_wellFormed (c : ins) (bits : modBits) (r : Addr) (h : c.wellFormed) :
    (c.makeModReg bits r).1.wellFormed := by
  unfold ins.makeModReg
  unfold ins.wellFormed at *
  split
  · split
    · simp only [AX, DI, R8, R15, X0, X7, X8, X15, uint8]
      split_ifs <;> dsimp only <;> omega
    · exact h
  · exact h
  · cases bits <;> simp only [modBits.fixed] <;> omega

theorem indirectDisp_wellFormed (c : ins) (r : Addr) (h : c.wellFormed) :
    (c.indirectDisp r).1.wellFormed := by
  unfold ins.indirectDisp
  unfold ins.wellFormed at *
  split_ifs <;> dsimp only <;> omega

theorem indirectRm_frame (c : ins) (r : Addr) :
    (c.indirectRm r).1.dispWidth = c.dispWidth ∧ (c.indirectRm r).1.immWidth = c.immWidth
    ∧ (c.indirectRm r).1.modRMmod = c.modRMmod ∧ (c.indirectRm r).1.modRMreg = c.modRMreg
    ∧ (c.indirectRm r).1.sibScale = c.sibScale
    ∧ ((c.indirectRm r).1.sibIndex = c.sibIndex ∨ (c.indirectRm r).1.sibIndex = 4) := by
  unfold ins.indirectRm
  split
  · split_ifs <;> simp
  · simp

theorem indirectRm_wellFormed (c : ins) (r : Addr) (h : c.wellFormed) :
    (c.indirectRm r).1.wellFormed := by
  have := indirectRm_frame c r
  unfold ins.wellFormed at *
  omega

theorem indirectAddress_wellFormed (c : ins) (r : Addr) (h : c.wellFormed) :
    (c.indirectAddress r).1.wellFormed :=
  andThen_preserves ins.wellFormed (indirectDisp_wellFormed c r h)
    fun c hc => indirectRm_wellFormed c r hc

theorem directAddress_wellFormed (c : ins) (r : Addr) (h : c.wellFormed) :
    (c.directAddress r).1.wellFormed := by
  unfold ins.directAddress
  unfold ins.wellFormed at *
  split
  · split_ifs <;> dsimp only <;> omega
  · dsimp only; omega

theorem makeMod_wellFormed (c : ins) (bits : modBits) (h : c.wellFormed) :
    (c.makeMod bits).1.wellFormed := by
  unfold ins.makeMod
  have h' : ({ c with modRM := true } : ins).wellFormed := h
  by_cases hb : bits = .modNone
  · rw [if_pos hb]; exact h
  · rw [if_neg hb]
    split
    · exact h'
    · rename_i p _
      by_cases h1 : p.r1.Typ = Ind
      · rw [if_pos h1]; exact h'
      · rw [if_neg h1]
        apply andThen_preserves ins.wellFormed (makeModReg_wellFormed _ _ _ h')
        intro c hc
        split_ifs
        · exact indirectAddress_wellFormed _ _ hc
        · exact directAddress_wellFormed _ _ hc

theorem makeImm_wellFormed (c : ins) (r : Addr) (h : c.wellFormed) :
    (c.makeImm r).1.wellFormed := by
  unfold ins.makeImm
  unfold ins.wellFormed at *
  split_ifs <;> (try split) <;> dsimp only <;> omega

theorem make_wellFormed (optab : Optab) (c : ins) (p : Instruction) (h : c.wellFormed) :
    (c.make optab p).1.wellFormed := by
  unfold ins.make
  by_cases hl : p.Op = LABEL
  · rw [if_pos hl]; exact h
  · rw [if_neg hl]
    split
    · exact h
    · rename_i v _
      apply andThen_preserves ins.wellFormed
      · by_cases ha : v.addReg = true
        · rw [if_pos ha]; exact addRegToOp_wellFormed _ h
        · rw [if_neg ha]; exact h
      · intro c hc
        apply andThen_preserves ins.wellFormed
        · apply makeMod_wellFormed
          by_cases hr : v.rex = true
          · rw [if_pos hr]; exact hc
          · rw [if_neg hr]; exact hc
        · intro c hc
          apply andThen_preserves ins.wellFormed (makeImm_wellFormed _ _ hc)
          intro c hc
          exact makeImm_wellFormed _ _ hc

theorem littleEndian_mod (n v : Nat) : littleEndian n (v % 256 ^ n) = littleEndian n v := by
  induction n generalizing v with
  | zero => rfl
  | succ n ih =>
    simp only [littleEndian]
    have h1 : v % 256 ^ (n + 1) % 256 = v % 256 := by
      rw [pow_succ, Nat.mul_comm]; exact Nat.mod_mul_right_mod v 256 (256 ^ n)
    have h2 : v % 256 ^ (n + 1) / 256 = v / 256 % 256 ^ n := by
      rw [pow_succ, Nat.mul_comm]; exact Nat.mod_mul_right_div_self v 256 (256 ^ n)
    rw [h1, h2, ih]

theorem littleEndian_length (n v : Nat) : (littleEndian n v).length = n := by
  induction n generalizing v with
  | zero => rfl
  | succ n ih => simp [littleEndian, ih]

theorem writeBytes_buffer (s : List Nat) (w : Int) (v : Nat)
    (h : w = 8 ∨ w = 16 ∨ w = 32 ∨ w = 64) :
    writeBytes bufferWriter s w v = (s ++ littleEndian (w / 8).toNat v, none) := by
  rcases h with h | h | h | h <;> subst h
  · have := littleEndian_mod 1 v
    simpa [writeBytes, bufferWriter] using this
  · have := littleEndian_mod 2 v
    simpa [writeBytes, bufferWriter] using this
  · have := littleEndian_mod 4 v
    simpa [writeBytes, bufferWriter] using this
  · have := littleEndian_mod 8 v
    simpa [writeBytes, bufferWriter] using this

theorem buf_eq (c : ins) (h : c.wellFormed) :
    c.buf = (if c.rex ≠ 0 then [0x48 ||| c.rex] else [])
      ++ (if c.c0 ≠ 0 then [c.c0] else [])
      ++ [c.c1]
      ++ (if c.c1 = 0x0F then [c.c2] else [])
      ++ (if c.modRM then [c.modRMmod <<< 6 ||| c.modRMreg <<< 3 ||| c.modRMrm] else [])
      ++ (if c.sib then [c.sibScale <<< 6 ||| c.sibIndex <<< 3 ||| c.sibBase] else []) := by
  obtain ⟨_, _, h1, h2, h3, h4⟩ := h
  have e1 : (c.modRMmod <<< 6) % 256 = c.modRMmod <<< 6 := by
    rw [Nat.shiftLeft_eq]; omega
  have e2 : (c.modRMreg <<< 3) % 256 = c.modRMreg <<< 3 := by
    rw [Nat.shiftLeft_eq]; omega
  have e3 : (c.sibScale <<< 6) % 256 = c.sibScale <<< 6 := by
    rw [Nat.shiftLeft_eq]; omega
  have e4 : (c.sibIndex <<< 3) % 256 = c.sibIndex <<< 3 := by
    rw [Nat.shiftLeft_eq]; omega
  unfold ins.buf
  rw [e1, e2, e3, e4]

theorem writeTo_buffer (c : ins) (p : Instruction) (s : List Nat) (h : c.wellFormed)
    (hp : c.insn = some p) (hop : p.Op ≠ LABEL) :
    (c.writeTo bufferWriter s).1 = s ++ c.serialized ∧ (c.writeTo bufferWriter s).2.2 = none := by
  have hb := buf_eq c h
  obtain ⟨hd, hi, _⟩ := h
  unfold ins.writeTo ins.serialized
  rw [hp]
  simp only [if_neg hop, ← hb]
  have hw : bufferWriter.Write s c.buf = (s ++ c.buf, none) := rfl
  rw [hw]
  rcases hd with hd | hd | hd <;> rcases hi with hi | hi | hi | hi | hi <;>
    simp [hd, hi, writeBytes_buffer]

theorem writeTo_label {σ : Type} (c : ins) (p : Instruction) (W : Writer σ) (w : σ)
    (hp : c.insn = some p) (hop : p.Op = LABEL) : c.writeTo W w = (w, 0, none) := by
  unfold ins.writeTo
  rw [hp]
  simp only [if_pos hop]

theorem andThen_sim {s : ins} {r r' : ins × Option Failure}
    {k k' : ins → ins × Option Failure} (h2 : r.2 = r'.2) (hs : Sim s r.1 r'.1)
    (hk : ∀ c d, Sim s c d → (k c).2 = (k' d).2 ∧ Sim s (k c).1 (k' d).1) :
    (andThen r k).2 = (andThen r' k').2 ∧ Sim s (andThen r k).1 (andThen r' k').1 := by
  cases h : r'.2 with
  | none =>
    rw [andThen_none (h2.trans h), andThen_none h]
    exact hk _ _ hs
  | some f =>
    rw [andThen_some (h2.trans h), andThen_some h]
    exact ⟨rfl, hs⟩

theorem indirectRm_sim (s c d : ins) (r r' : Addr) (hv : r'.Value = r.Value) (h : Sim s c d) :
    (c.indirectRm r').2 = (d.indirectRm r).2
      ∧ Sim s (c.indirectRm r').1 (d.indirectRm r).1 := by
  obtain ⟨h1, h2, h3, h4, h5, h6, h7, h8, h9, h10⟩ := h
  unfold ins.indirectRm
  rw [hv]
  split
  · split_ifs <;> refine ⟨rfl, ?_⟩ <;> unfold Sim <;> dsimp only <;>
      simp [h1, h2, h3, h4, h5, h6, h7, h8, h9, h10, Nat.lor_assoc]
  · exact ⟨rfl, h1, h2, h3, h4, h5, h6, h7, h8, h9, h10⟩

theorem indirectDisp_sim (s c d : ins) (r r' : Addr) (hv : r'.Disp = r.Disp) (h : Sim s c d) :
    (c.indirectDisp r').2 = (d.indirectDisp r).2
      ∧ Sim s (c.indirectDisp r').1 (d.indirectDisp r).1 := by
  obtain ⟨h1, h2, h3, h4, h5, h6, h7, h8, h9, h10⟩ := h
  unfold ins.indirectDisp
  rw [hv]
  split_ifs <;> refine ⟨rfl, ?_⟩ <;> unfold Sim <;> dsimp only <;>
    simp [h1, h2, h3, h4, h5, h6, h7, h8, h9, h10, Nat.lor_assoc]

theorem indirectAddress_sim (s c d : ins) (r r' : Addr) (hd : r'.Disp = r.Disp)
    (hv : r'.Value = r.Value) (h : Sim s c d) :
    (c.indirectAddress r').2 = (d.indirectAddress r).2
      ∧ Sim s (c.indirectAddress r').1 (d.indirectAddress r).1 := by
  unfold ins.indirectAddress
  exact andThen_sim (indirectDisp_sim s c d r r' hd h).1 (indirectDisp_sim s c d r r' hd h).2
    fun c d h => indirectRm_sim s c d r r' hv h

theorem isInteger_of_isSigned {v : Value} (h : v.isSigned = true) : v.isInteger = true := by
  cases v <;> simp_all [Value.isSigned, Value.isInteger]

theorem isInteger_not_register {v : Value} (h : v.isInteger = true) (reg : Int) :
    v ≠ .register reg := by
  intro e; subst e; simp [Value.isInteger] at h

theorem directAddress_sim (s c d : ins) (r r' : Addr) (hr : ARel r r') (h : Sim s c d) :
    (c.directAddress r').2 = (d.directAddress r).2
      ∧ Sim s (c.directAddress r').1 (d.directAddress r).1 := by
  obtain ⟨h1, h2, h3, h4, h5, h6, h7, h8, h9, h10⟩ := h
  have key : ∀ r₀ : Addr, (c.directAddress r₀).2 = (d.directAddress r₀).2
      ∧ Sim s (c.directAddress r₀).1 (d.directAddress r₀).1 := by
    intro r₀
    unfold ins.directAddress
    split
    · split_ifs <;> refine ⟨rfl, ?_⟩ <;> unfold Sim <;> dsimp only <;>
        simp [h1, h2, h3, h4, h5, h6, h7, h8, h9, h10, Nat.lor_assoc]
    · exact ⟨rfl, h1, h2, h3, h4, h5, h6, h7, h8, h9, h10⟩
  obtain ⟨_, _, hv | ⟨_, hs, hs'⟩⟩ := hr
  · have e : ∀ x : ins, x.directAddress r' = x.directAddress r := by
      intro x; unfold ins.directAddress; rw [hv]
    rw [e c]; exact key r
  · have e : ∀ (x : ins) (r₀ : Addr), r₀.Value.isInteger = true →
        x.directAddress r₀ = ({ x with modRMmod := 0x3 }, none) := by
      intro x r₀ h₀; unfold ins.directAddress
      split
      · rename_i reg hreg; exact absurd hreg (isInteger_not_register h₀ reg)
      · rfl
    rw [e c r' hs', e d r hs]
    exact ⟨rfl, h1, h2, h3, h4, h5, h6, h7, h8, h9, h10⟩

theorem makeModReg_sim (s c d : ins) (bits : modBits) (r r' : Addr) (hr : ARel r r')
    (h : Sim s c d) :
    (c.makeModReg bits r').2 = (d.makeModReg bits r).2
      ∧ Sim s (c.makeModReg bits r').1 (d.makeModReg bits r).1 := by
  obtain ⟨h1, h2, h3, h4, h5, h6, h7, h8, h9, h10⟩ := h
  have key : ∀ r₀ : Addr, (c.makeModReg bits r₀).2 = (d.makeModReg bits r₀).2
      ∧ Sim s (c.makeModReg bits r₀).1 (d.makeModReg bits r₀).1 := by
    intro r₀
    unfold ins.makeModReg
    split
    · split
      · split_ifs <;> refine ⟨rfl, ?_⟩ <;> unfold Sim <;> dsimp only <;>
          simp [h1, h2, h3, h4, h5, h6, h7, h8, h9, h10, Nat.lor_assoc]
      · exact ⟨rfl, h1, h2, h3, h4, h5, h6, h7, h8, h9, h10⟩
    · exact ⟨rfl, h1, h2, h3, h4, h5, h6, h7, h8, h9, h10⟩
    · exact ⟨rfl, h1, h2, h3, h4, h5, h6, h7, h8, h9, h10⟩
  obtain ⟨_, _, hv | ⟨_, hs, hs'⟩⟩ := hr
  · have e : ∀ x : ins, x.makeModReg bits r' = x.makeModReg bits r := by
      intro x; unfold ins.makeModReg; rw [hv]
    rw [e c]; exact key r
  · have e : ∀ (x : ins) (r₀ r₁ : Addr), r₀.Value.isInteger = true → r₁.Value.isInteger = true →
        (x.makeModReg bits r₀) = (x.makeModReg bits r₁) := by
      intro x r₀ r₁ h₀ h₁; unfold ins.makeModReg
      split
      · split
        · rename_i reg hreg; exact absurd hreg (isInteger_not_register h₀ reg)
        · split
          · rename_i reg hreg; exact absurd hreg (isInteger_not_register h₁ reg)
          · rfl
      · rfl
      · rfl
    rw [e c r' r hs' hs]; exact key r

theorem valueUint64_integer {r : Addr} (h : r.Value.isInteger = true) :
    ∃ v, r.valueUint64 = .ok v := by
  unfold Addr.valueUint64 Addr.valueInt64
  cases hv : r.Value <;> simp_all [Value.isInteger]

theorem makeImm_sim (s c d : ins) (r r' : Addr) (hr : ARel r r') (h : Sim s c d) :
    (c.makeImm r').2 = (d.makeImm r).2 ∧ Sim s (c.makeImm r').1 (d.makeImm r).1 := by
  obtain ⟨h1, h2, h3, h4, h5, h6, h7, h8, h9, h10⟩ := h
  obtain ⟨ht, _, hv⟩ := hr
  have hu : (∃ v v', r.valueUint64 = .ok v ∧ r'.valueUint64 = .ok v')
      ∨ ∃ e, r.valueUint64 = .error e ∧ r'.valueUint64 = .error e := by
    rcases hv with hv | ⟨_, hs, hs'⟩
    · have e : r'.valueUint64 = r.valueUint64 := by
        unfold Addr.valueUint64 Addr.valueInt64; rw [hv]
      rw [e]
      cases r.valueUint64 with
      | ok v => exact Or.inl ⟨v, v, rfl, rfl⟩
      | error e => exact Or.inr ⟨e, rfl, rfl⟩
    · obtain ⟨v, hv⟩ := valueUint64_integer hs
      obtain ⟨v', hv'⟩ := valueUint64_integer hs'
      exact Or.inl ⟨v, v', hv, hv'⟩
  unfold ins.makeImm
  rw [ht]
  rcases hu with ⟨v, v', e, e'⟩ | ⟨x, e, e'⟩ <;> rw [e, e'] <;>
    split_ifs <;> refine ⟨rfl, ?_⟩ <;> unfold Sim <;> dsimp only <;>
      simp [h1, h2, h3, h4, h5, h6, h7, h8, h9, h10]

theorem ARel.refl (r : Addr) : ARel r r := ⟨rfl, rfl, Or.inl rfl⟩

theorem addRegToOp_some (c : ins) (p : Instruction) (hp : c.insn = some p) :
    c.addRegToOp =
      match (if p.To.Typ = Reg then p.To else p.From).Value with
      | .register reg =>
        if R8 ≤ reg ∧ reg ≤ R15 then (c, some (.error .r8Unsupported))
        else if X0 ≤ reg ∧ reg ≤ X15 then (c, some (.error .xmmUnsupported))
        else ({ c with c1 := (c.c1 + uint8 (reg - AX)) % 256 }, none)
      | _ => (c, some (.error .addressMustBeRegister)) := by
  cases c
  cases hp
  rfl

theorem makeMod_some (c : ins) (bits : modBits) (p : Instruction) (hp : c.insn = some p) :
    c.makeMod bits =
      if bits = .modNone then (c, none)
      else if p.r1.Typ = Ind then ({ c with modRM := true }, some (.error .onlyOneIndirect))
      else
        andThen ({ c with modRM := true }.makeModReg bits p.r1) fun c =>
          if p.r2.Typ = Ind then c.indirectAddress p.r2 else c.directAddress p.r2 := by
  cases c
  cases hp
  rfl

theorem addRegToOp_sim (s c d : ins) (h : Sim s c d) :
    (c.addRegToOp).2 = (d.addRegToOp).2 ∧ Sim s (c.addRegToOp).1 (d.addRegToOp).1 := by
  obtain ⟨h1, h2, h3, h4, h5, h6, h7, h8, h9, h10⟩ := h
  obtain ⟨q, q', hq, hq', -, hf, ht, -, hv⟩ := id h10
  have hval : (if q'.To.Typ = Reg then q'.To else q'.From).Value
      = (if q.To.Typ = Reg then q.To else q.From).Value := by
    rw [ht, hf]
    split_ifs with hreg
    · rcases hv with hv | ⟨hrel, -, -⟩
      · exact hv
      · rw [hreg] at hrel; exact absurd hrel (by decide)
    · rfl
  rw [addRegToOp_some c q' hq', addRegToOp_some d q hq, hval]
  split
  · split_ifs <;> refine ⟨rfl, ?_⟩ <;> unfold Sim <;> dsimp only <;>
      simp [h1, h2, h3, h4, h5, h6, h7, h8, h9, h10]
  · exact ⟨rfl, h1, h2, h3, h4, h5, h6, h7, h8, h9, h10⟩

theorem QRel.r1 {q q' : Instruction} (h : QRel q q') : ARel q.r1 q'.r1 := by
  obtain ⟨-, hf, ht⟩ := h
  unfold Instruction.r1
  rw [hf]
  split_ifs
  · exact ht
  · exact ARel.refl _

theorem QRel.r2 {q q' : Instruction} (h : QRel q q') : ARel q.r2 q'.r2 := by
  obtain ⟨-, hf, ht⟩ := h
  unfold Instruction.r2
  rw [hf]
  split_ifs
  · exact ARel.refl _
  · exact ht

theorem ARel.value_of_ind {r r' : Addr} (h : ARel r r') (hi : r.Typ = Ind) :
    r'.Value = r.Value := by
  obtain ⟨-, -, hv | ⟨hrel, -, -⟩⟩ := h
  · exact hv
  · rw [hi] at hrel; exact absurd hrel (by decide)

theorem makeMod_sim (s c d : ins) (bits : modBits) (h : Sim s c d) :
    (c.makeMod bits).2 = (d.makeMod bits).2 ∧ Sim s (c.makeMod bits).1 (d.makeMod bits).1 := by
  obtain ⟨q, q', hq, hq', hqr⟩ := id h.2.2.2.2.2.2.2.2.2
  have h' : Sim s { c with modRM := true } { d with modRM := true } := by
    obtain ⟨h1, h2, h3, h4, h5, h6, h7, h8, h9, h10⟩ := h
    unfold Sim; dsimp only
    simp [h1, h2, h3, h4, h5, h6, h7, h8, h9, h10]
  have a1 := hqr.r1
  have a2 := hqr.r2
  rw [makeMod_some c bits q' hq', makeMod_some d bits q hq, a1.1, a2.1]
  by_cases hb : bits = .modNone
  · rw [if_pos hb, if_pos hb]; exact ⟨rfl, h⟩
  · rw [if_neg hb, if_neg hb]
    by_cases h1 : q.r1.Typ = Ind
    · rw [if_pos h1, if_pos h1]; exact ⟨rfl, h'⟩
    · rw [if_neg h1, if_neg h1]
      refine andThen_sim (makeModReg_sim s _ _ bits _ _ a1 h').1
        (makeModReg_sim s _ _ bits _ _ a1 h').2 ?_
      intro c d hcd
      by_cases h2 : q.r2.Typ = Ind
      · rw [if_pos h2, if_pos h2]
        exact indirectAddress_sim s c d _ _ a2.2.1 (a2.value_of_ind h2) hcd
      · rw [if_neg h2, if_neg h2]
        exact directAddress_sim s c d _ _ a2 hcd

theorem make_label (optab : Optab) (c : ins) (p : Instruction) (h : p.Op = LABEL) :
    c.make optab p = ({ c with insn := some p }, none) := by
  unfold ins.make; rw [if_pos h]

theorem make_sim (optab : Optab) (s : ins) (q q' : Instruction) (h : QRel q q')
    (hop : q.Op ≠ LABEL) :
    (s.make optab q').2 = (ins.zero.make optab q).2
      ∧ ((ins.zero.make optab q).2 = none →
          Sim s (s.make optab q').1 (ins.zero.make optab q).1) := by
  obtain ⟨ho, hf, ht⟩ := id h
  have hop' : q'.Op ≠ LABEL := by rw [ho]; exact hop
  unfold ins.make
  rw [if_neg hop, if_neg hop', ho, hf, ht.1]
  cases hk : optab ⟨q.Op, q.From.Typ, q.To.Typ⟩ with
  | none => exact ⟨rfl, fun hn => by simp at hn⟩
  | some v =>
    dsimp only
    have h0 : Sim s { s with insn := some q', c0 := v.c0, c1 := v.c1, c2 := v.c2 }
        { ins.zero with insn := some q, c0 := v.c0, c1 := v.c1, c2 := v.c2 } := by
      unfold Sim; dsimp only
      refine ⟨rfl, rfl, ?_, rfl, rfl, ?_, ?_, ?_, ?_, q, q', rfl, rfl, h⟩ <;> simp [ins.zero]
    suffices hs : _ ∧ Sim s _ _ from ⟨hs.1, fun _ => hs.2⟩
    refine andThen_sim ?_ ?_ ?_
    · by_cases ha : v.addReg = true
      · rw [if_pos ha, if_pos ha]; exact (addRegToOp_sim s _ _ h0).1
      · rw [if_neg ha, if_neg ha]
    · by_cases ha : v.addReg = true
      · rw [if_pos ha, if_pos ha]; exact (addRegToOp_sim s _ _ h0).2
      · rw [if_neg ha, if_neg ha]; exact h0
    · intro c d hcd
      have hrex : Sim s (if v.rex = true then { c with rex := c.rex ||| rexW } else c)
          (if v.rex = true then { d with rex := d.rex ||| rexW } else d) := by
        by_cases hr : v.rex = true
        · rw [if_pos hr, if_pos hr]
          obtain ⟨h1, h2, h3, h4, h5, h6, h7, h8, h9, h10⟩ := hcd
          unfold Sim; dsimp only
          simp [h1, h2, h3, h4, h5, h6, h7, h8, h9, h10, Nat.lor_assoc]
        · rw [if_neg hr, if_neg hr]; exact hcd
      refine andThen_sim (makeMod_sim s _ _ v.mod hrex).1 (makeMod_sim s _ _ v.mod hrex).2 ?_
      intro c d hcd
      refine andThen_sim (makeImm_sim s c d _ _ (ARel.refl _) hcd).1
        (makeImm_sim s c d _ _ (ARel.refl _) hcd).2 ?_
      intro c d hcd
      exact makeImm_sim s c d _ _ ht hcd

theorem IRel.op {ci di : Option Instruction} (h : IRel ci di) :
    ci.map Instruction.Op = di.map Instruction.Op := by
  obtain ⟨q, q', hq, hq', ho, -⟩ := h
  rw [hq, hq']; simp [ho]

theorem Sim.shape_of_zero {c d : ins} (h : Sim ins.zero c d) : SameShape c d := by
  obtain ⟨h1, h2, h3, h4, h5, h6, h7, h8, h9, h10⟩ := h
  refine ⟨?_, h4, h5, ?_, ?_, ?_, ?_, h10.op⟩
  · rw [h3]; simp [ins.zero]
  · rw [h6]; simp [ins.zero]
  · rw [h7]; simp [ins.zero]
  · rw [h8]; simp only [ins.zero]; split_ifs with h0
    · exact h0.symm
    · rfl
  · rw [h9]; simp only [ins.zero]; split_ifs with h0
    · exact h0.symm
    · rfl

theorem Sim.shape_of_same {s c d : ins} (h : Sim s c d) (hs : SameShape s d) :
    SameShape c d ∧ c.codeblock = s.codeblock ∧ c.codeblockEnd = s.codeblockEnd := by
  obtain ⟨h1, h2, h3, h4, h5, h6, h7, h8, h9, h10⟩ := h
  obtain ⟨s1, s2, s3, s4, s5, s6, s7, s8⟩ := hs
  refine ⟨⟨?_, h4, h5, ?_, ?_, ?_, ?_, h10.op⟩, h1, h2⟩
  · rw [h3, s1]; exact Nat.or_self _
  · rw [h6, s4]; exact Bool.or_self _
  · rw [h7, s5]; exact Bool.or_self _
  · rw [h8, s6]; split_ifs <;> rfl
  · rw [h9, s7]; split_ifs <;> rfl

theorem addRegToOp_insn (c : ins) : (c.addRegToOp).1.insn = c.insn := by
  unfold ins.addRegToOp
  split
  · rfl
  · dsimp only
    split
    · split_ifs <;> rfl
    · rfl

theorem makeModReg_insn (c : ins) (bits : modBits) (r : Addr) :
    (c.makeModReg bits r).1.insn = c.insn := by
  unfold ins.makeModReg
  split
  · split
    · split_ifs <;> rfl
    · rfl
  · rfl
  · rfl

theorem indirectAddress_insn (c : ins) (r : Addr) : (c.indirectAddress r).1.insn = c.insn := by
  unfold ins.indirectAddress
  refine andThen_preserves (fun x => x.insn = c.insn) ?_ ?_
  · unfold ins.indirectDisp; split_ifs <;> rfl
  · intro x hx
    unfold ins.indirectRm
    split
    · split_ifs <;> exact hx
    · exact hx

theorem directAddress_insn (c : ins) (r : Addr) : (c.directAddress r).1.insn = c.insn := by
  unfold ins.directAddress
  split
  · split_ifs <;> rfl
  · rfl

theorem makeMod_insn (c : ins) (bits : modBits) : (c.makeMod bits).1.insn = c.insn := by
  unfold ins.makeMod
  by_cases hb : bits = .modNone
  · rw [if_pos hb]
  · rw [if_neg hb]
    split
    · rfl
    · rename_i p _
      by_cases h1 : p.r1.Typ = Ind
      · rw [if_pos h1]
      · rw [if_neg h1]
        refine andThen_preserves (fun x => x.insn = c.insn) (makeModReg_insn _ _ _) ?_
        intro x hx
        split_ifs
        · exact (indirectAddress_insn _ _).trans hx
        · exact (directAddress_insn _ _).trans hx

theorem makeImm_insn (c : ins) (r : Addr) : (c.makeImm r).1.insn = c.insn := by
  unfold ins.makeImm
  split_ifs <;> (try split) <;> rfl

theorem make_insn (optab : Optab) (c : ins) (p : Instruction) :
    (c.make optab p).1.insn = some p := by
  unfold ins.make
  by_cases hl : p.Op = LABEL
  · rw [if_pos hl]
  · rw [if_neg hl]
    split
    · rfl
    · rename_i v _
      refine andThen_preserves (fun x => x.insn = some p) ?_ ?_
      · by_cases ha : v.addReg = true
        · rw [if_pos ha]; exact addRegToOp_insn _
        · rw [if_neg ha]
      · intro x hx
        refine andThen_preserves (fun x => x.insn = some p) ?_ ?_
        · refine (makeMod_insn _ _).trans ?_
          by_cases hr : v.rex = true
          · rw [if_pos hr]; exact hx
          · rw [if_neg hr]; exact hx
        · intro x hx
          refine andThen_preserves (fun x => x.insn = some p) ?_ ?_
          · exact (makeImm_insn _ _).trans hx
          · intro x hx; exact (makeImm_insn _ _).trans hx

theorem remake_shape (optab : Optab) (s : ins) (q q' : Instruction) (h : QRel q q')
    (hok : (ins.zero.make optab q).2 = none) (hs : SameShape s (ins.zero.make optab q).1) :
    (s.make optab q').2 = none
      ∧ SameShape (s.make optab q').1 (ins.zero.make optab q).1
      ∧ (s.make optab q').1.codeblock = s.codeblock
      ∧ (s.make optab q').1.codeblockEnd = s.codeblockEnd := by
  by_cases hop : q.Op = LABEL
  · have hop' : q'.Op = LABEL := h.1.trans hop
    rw [make_label optab s q' hop']
    rw [make_label optab ins.zero q hop] at hs ⊢
    obtain ⟨s1, s2, s3, s4, s5, s6, s7, s8⟩ := hs
    refine ⟨rfl, ⟨s1, s2, s3, s4, s5, s6, s7, ?_⟩, rfl, rfl⟩
    simp [h.1]
  · obtain ⟨e, hsim⟩ := make_sim optab s q q' h hop
    obtain ⟨a, b, c⟩ := (hsim hok).shape_of_same hs
    exact ⟨e.trans hok, a, b, c⟩

theorem fresh_shape (optab : Optab) (q q' : Instruction) (h : QRel q q')
    (hok : (ins.zero.make optab q).2 = none) :
    (ins.zero.make optab q').2 = none
      ∧ SameShape (ins.zero.make optab q').1 (ins.zero.make optab q).1 := by
  by_cases hop : q.Op = LABEL
  · have hop' : q'.Op = LABEL := h.1.trans hop
    rw [make_label optab ins.zero q' hop', make_label optab ins.zero q hop]
    refine ⟨rfl, rfl, rfl, rfl, rfl, rfl, rfl, rfl, ?_⟩
    simp [h.1]
  · obtain ⟨e, hsim⟩ := make_sim optab ins.zero q q' h hop
    exact ⟨e.trans hok, (hsim hok).shape_of_zero⟩

theorem SameShape.symm {c c' : ins} (h : SameShape c c') : SameShape c' c := by
  obtain ⟨s1, s2, s3, s4, s5, s6, s7, s8⟩ := h
  exact ⟨s1.symm, s2.symm, s3.symm, s4.symm, s5.symm, s6.symm, s7.symm, s8.symm⟩

theorem SameShape.trans {a b c : ins} (h : SameShape a b) (h' : SameShape b c) :
    SameShape a c := by
  obtain ⟨s1, s2, s3, s4, s5, s6, s7, s8⟩ := h
  obtain ⟨t1, t2, t3, t4, t5, t6, t7, t8⟩ := h'
  exact ⟨s1.trans t1, s2.trans t2, s3.trans t3, s4.trans t4, s5.trans t5, s6.trans t6,
    s7.trans t7, s8.trans t8⟩

theorem ins.zero_wellFormed : ins.zero.wellFormed := by
  unfold ins.wellFormed ins.zero; simp

theorem Encodes.remake {optab : Optab} {q q' : Instruction} {c : ins}
    (h : Encodes optab q c) (hq : QRel q q') :
    (c.make optab q').2 = none ∧ Encodes optab q' (c.make optab q').1
      ∧ SameShape (c.make optab q').1 c
      ∧ (c.make optab q').1.codeblock = c.codeblock
      ∧ (c.make optab q').1.codeblockEnd = c.codeblockEnd := by
  obtain ⟨hw, hi, hok, hs⟩ := h
  obtain ⟨r1, r2, r3, r4⟩ := remake_shape optab c q q' hq hok hs
  obtain ⟨f1, f2⟩ := fresh_shape optab q q' hq hok
  exact ⟨r1, ⟨make_wellFormed optab c q' hw, make_insn optab c q', f1, r2.trans f2.symm⟩,
    r2.trans hs.symm, r3, r4⟩

theorem selectJump_signed (labels : Labels) (i : Nat) (x : Instruction)
    (h : x.To.Typ = Label) : (selectJump labels i x).To.Value.isSigned = true := by
  unfold selectJump
  rw [if_pos h]
  split_ifs <;> rfl

theorem selectJumps_signed (labels : Labels) (xs : List Instruction) (i : Nat) :
    ∀ j ∈ (selectJumps labels xs i).2, i ≤ j ∧
      ∀ q, (selectJumps labels xs i).1[j - i]? = some q → q.To.Value.isSigned = true := by
  induction xs generalizing i with
  | nil => intro j hj; simp [selectJumps] at hj
  | cons x xs ih =>
    intro j hj
    simp only [selectJumps] at hj ⊢
    have tail : j ∈ (selectJumps labels xs (i + 1)).2 → i ≤ j ∧
        ∀ q, (selectJump labels i x :: (selectJumps labels xs (i + 1)).1)[j - i]? = some q →
          q.To.Value.isSigned = true := by
      intro hj'
      obtain ⟨hle, hq⟩ := ih (i + 1) j hj'
      refine ⟨by omega, ?_⟩
      intro q
      have e : j - i = (j - (i + 1)) + 1 := by omega
      rw [e, List.getElem?_cons_succ]
      exact hq q
    by_cases hl : x.To.Typ = Label
    · rw [if_pos hl] at hj
      rcases List.mem_cons.mp hj with rfl | hj'
      · refine ⟨le_refl _, ?_⟩
        intro q
        rw [Nat.sub_self, List.getElem?_cons_zero]
        intro hq
        cases hq
        exact selectJump_signed labels _ x hl
      · exact tail hj'
    · rw [if_neg hl] at hj
      exact tail hj

theorem Encodes.of_make {optab : Optab} {q : Instruction}
    (h : (ins.zero.make optab q).2 = none) : Encodes optab q (ins.zero.make optab q).1 :=
  ⟨make_wellFormed optab _ q ins.zero_wellFormed, make_insn optab _ q, h,
    ⟨rfl, rfl, rfl, rfl, rfl, rfl, rfl, rfl⟩⟩

theorem layOutAll_spec (optab : Optab) (ps : List Instruction) (cs : List ins)
    (h : layOutAll optab ps = .ok cs) :
    cs.length = ps.length ∧
      ∀ (i : Nat) (q : Instruction) (c : ins),
        ps[i]? = some q → cs[i]? = some c → Encodes optab q c := by
  induction ps generalizing cs with
  | nil =>
    simp only [layOutAll] at h
    cases h
    refine ⟨rfl, ?_⟩
    intro i q c hq
    simp at hq
  | cons x xs ih =>
    simp only [layOutAll] at h
    split at h
    · cases h
    · cases h
    · rename_i c0 hmk
      split at h
      · rename_i cs0 hrest
        cases h
        obtain ⟨hlen, hall⟩ := ih cs0 hrest
        refine ⟨by simp [hlen], ?_⟩
        intro i q c hq hc
        cases i with
        | zero =>
          simp only [List.getElem?_cons_zero, Option.some.injEq] at hq hc
          subst hq hc
          have e2 : (ins.zero.make optab x).2 = none := by rw [hmk]
          have e1 : (ins.zero.make optab x).1 = c0 := by rw [hmk]
          rw [← e1]
          exact Encodes.of_make e2
        | succ i =>
          simp only [List.getElem?_cons_succ] at hq hc
          exact hall i q c hq hc
      · cases h

theorem writeTo_offsets (c : ins) (a b : Int) {σ : Type} (W : Writer σ) (w : σ) :
    ({ c with codeblock := a, codeblockEnd := b } : ins).writeTo W w = c.writeTo W w := rfl

theorem Encodes.offsets {optab : Optab} {q : Instruction} {c : ins} (h : Encodes optab q c)
    (a b : Int) : Encodes optab q ({ c with codeblock := a, codeblockEnd := b } : ins) := h

theorem emitted_offsets (c : ins) (a b : Int) :
    ({ c with codeblock := a, codeblockEnd := b } : ins).emitted = c.emitted := rfl

theorem assignOffsets_cons (c : ins) (rest : List ins) (k : Int) :
    assignOffsets (c :: rest) k =
      match panicOf (c.writeTo bufferWriter []).2.2 with
      | some e => .error (.panic e)
      | none =>
        match assignOffsets rest (k + c.emitted.length) with
        | .ok cs =>
          .ok ({ c with codeblock := k, codeblockEnd := k + c.emitted.length } :: cs)
        | .error f => .error f := rfl

theorem assignOffsets_spec (cs : List ins) (k : Int) (cs' : List ins)
    (h : assignOffsets cs k = .ok cs') :
    cs'.length = cs.length ∧
      ∀ (i : Nat) (c' : ins), cs'[i]? = some c' → ∃ c : ins, cs[i]? = some c ∧
        c' = { c with
                codeblock := k + (((cs.take i).map fun x => x.emitted.length).sum : Nat),
                codeblockEnd := k + (((cs.take i).map fun x => x.emitted.length).sum : Nat)
                  + (c.emitted.length : Nat) } := by
  induction cs generalizing k cs' with
  | nil =>
    simp only [assignOffsets] at h
    cases h
    refine ⟨rfl, ?_⟩
    intro i c' hc
    simp at hc
  | cons x xs ih =>
    rw [assignOffsets_cons] at h
    cases hpan : panicOf (x.writeTo bufferWriter []).2.2 with
    | some e => rw [hpan] at h; cases h
    | none =>
      rw [hpan] at h
      dsimp only at h
      split at h
      · rename_i cs0 hrest
        cases h
        obtain ⟨hlen, hall⟩ := ih _ cs0 hrest
        refine ⟨by simp [hlen], ?_⟩
        intro i c' hc'
        cases i with
        | zero =>
          simp only [List.getElem?_cons_zero, Option.some.injEq] at hc'
          subst hc'
          refine ⟨x, List.getElem?_cons_zero, ?_⟩
          simp
        | succ i =>
          simp only [List.getElem?_cons_succ] at hc'
          obtain ⟨c, hc, e⟩ := hall i c' hc'
          refine ⟨c, by simpa using hc, ?_⟩
          rw [e]
          simp only [List.take_succ_cons, List.map_cons, List.sum_cons, Nat.cast_add]
          congr 1 <;> omega
      · cases h

theorem wrapped_isSigned (t : AddrType) (val : Int) (v : Value)
    (h : (if t = Rel8 then some (Value.int8 (wrapSigned 8 val))
          else if t = Rel16 then some (Value.int16 (wrapSigned 16 val))
          else if t = Rel32 then some (Value.int32 (wrapSigned 32 val))
          else none) = some v) :
    (t = Rel8 ∨ t = Rel16 ∨ t = Rel32) ∧ v.isSigned = true := by
  split_ifs at h with h1 h2 h3
  · cases h; exact ⟨Or.inl h1, rfl⟩
  · cases h; exact ⟨Or.inr (Or.inl h2), rfl⟩
  · cases h; exact ⟨Or.inr (Or.inr h3), rfl⟩

theorem patchJump_spec (optab : Optab) (labels : Labels) (p : Program) (L : List ins)
    (j : Nat) (st' : Program × List ins) (h : patchJump optab labels (p, L) j = .ok st') :
    ∃ (q : Instruction) (c : ins) (v : Value), p[j]? = some q ∧ L[j]? = some c
      ∧ (q.To.Typ = Rel8 ∨ q.To.Typ = Rel16 ∨ q.To.Typ = Rel32) ∧ v.isSigned = true
      ∧ st' = (p.set j { q with To := { q.To with Value := v } },
               L.set j (c.make optab { q with To := { q.To with Value := v } }).1) := by
  unfold patchJump at h
  dsimp only at h
  split at h
  · cases h
  · rename_i q hq
    split at h
    · rename_i target c htarget hc
      split at h
      · cases h
      · rename_i v hv
        obtain ⟨ht, hsg⟩ := wrapped_isSigned _ _ _ hv
        split at h
        · cases h
        · cases h
          exact ⟨q, c, v, hq, hc, ht, hsg, rfl⟩
    · cases h

theorem patchJumps_spec (optab : Optab) (labels : Labels) (jumps : List Nat) (p : Program)
    (L : List ins) (st' : Program × List ins)
    (hs : ∀ j ∈ jumps, ∀ q : Instruction, p[j]? = some q → q.To.Value.isSigned = true)
    (hinv : ∀ (i : Nat) (q : Instruction) (c : ins),
      p[i]? = some q → L[i]? = some c → Encodes optab q c)
    (h : patchJumps optab labels jumps (p, L) = .ok st') :
    st'.1.length = p.length ∧ st'.2.length = L.length
    ∧ (∀ (i : Nat) (q : Instruction) (c : ins),
        st'.1[i]? = some q → st'.2[i]? = some c → Encodes optab q c)
    ∧ (∀ (i : Nat) (c c' : ins), L[i]? = some c → st'.2[i]? = some c' →
        SameShape c' c ∧ c'.codeblock = c.codeblock ∧ c'.codeblockEnd = c.codeblockEnd) := by
  induction jumps generalizing p L with
  | nil =>
    simp only [patchJumps] at h
    cases h
    refine ⟨rfl, rfl, hinv, ?_⟩
    intro i c c' hc hc'
    rw [hc] at hc'
    cases hc'
    exact ⟨⟨rfl, rfl, rfl, rfl, rfl, rfl, rfl, rfl⟩, rfl, rfl⟩
  | cons j js ih =>
    rw [patchJumps] at h
    split at h
    · rename_i st1 hst1
      obtain ⟨q, c, v, hq, hc, ht, hsg, rfl⟩ := patchJump_spec optab labels p L j st1 hst1
      have hqs : q.To.Value.isSigned = true := hs j (List.mem_cons_self _ _) q hq
      have hqr : QRel q { q with To := { q.To with Value := v } } :=
        ⟨rfl, rfl, rfl, rfl,
          Or.inr ⟨ht, isInteger_of_isSigned hqs, isInteger_of_isSigned hsg⟩⟩
      obtain ⟨-, henc, hsh, hcb, hce⟩ := (hinv j q c hq hc).remake hqr
      have hs1 : ∀ j' ∈ js, ∀ q' : Instruction,
          (p.set j { q with To := { q.To with Value := v } })[j']? = some q' →
            q'.To.Value.isSigned = true := by
        intro j' hj' q' hq'
        rw [List.getElem?_set] at hq'
        split_ifs at hq' with e1 e2
        · cases hq'; exact hsg
        · exact hs j' (List.mem_cons_of_mem _ hj') q' hq'
      have hinv1 : ∀ (i : Nat) (q' : Instruction) (c' : ins),
          (p.set j { q with To := { q.To with Value := v } })[i]? = some q' →
          (L.set j (c.make optab { q with To := { q.To with Value := v } }).1)[i]? = some c' →
            Encodes optab q' c' := by
        intro i q' c' hq' hc'
        rw [List.getElem?_set] at hq' hc'
        by_cases e : j = i
        · rw [if_pos e] at hq' hc'
          split_ifs at hq'
          split_ifs at hc'
          cases hq'; cases hc'
          exact henc
        · rw [if_neg e] at hq' hc'
          exact hinv i q' c' hq' hc'
      obtain ⟨l1, l2, i1, i2⟩ := ih _ _ hs1 hinv1 h
      refine ⟨by rw [l1, List.length_set], by rw [l2, List.length_set], i1, ?_⟩
      intro i c0 c2 hc0 hc2
      by_cases e : j = i
      · subst e
        rw [hc] at hc0
        cases hc0
        have hlt : j < L.length := by
          rcases Nat.lt_or_ge j L.length with hlt | hge
          · exact hlt
          · rw [List.getElem?_eq_none hge] at hc; cases hc
        have hmid : (L.set j (c.make optab { q with To := { q.To with Value := v } }).1)[j]?
            = some (c.make optab { q with To := { q.To with Value := v } }).1 := by
          rw [List.getElem?_set, if_pos rfl, if_pos hlt]
        obtain ⟨a1, a2, a3⟩ := i2 j _ c2 hmid hc2
        exact ⟨a1.trans hsh, a2.trans hcb, a3.trans hce⟩
      · have hmid : (L.set j (c.make optab { q with To := { q.To with Value := v } }).1)[i]?
            = some c0 := by
          rw [List.getElem?_set, if_neg e]; exact hc0
        exact i2 i c0 c2 hmid hc2
    · cases h

theorem writeTo_emitted (c : ins) (q : Instruction) (s : List Nat) (hw : c.wellFormed)
    (hi : c.insn = some q) :
    (c.writeTo bufferWriter s).1 = s ++ c.emitted ∧ (c.writeTo bufferWriter s).2.2 = none := by
  by_cases hop : q.Op = LABEL
  · unfold ins.emitted
    rw [writeTo_label c q bufferWriter s hi hop, writeTo_label c q bufferWriter [] hi hop]
    simp
  · obtain ⟨h1, h2⟩ := writeTo_buffer c q s hw hi hop
    obtain ⟨h3, -⟩ := writeTo_buffer c q [] hw hi hop
    unfold ins.emitted
    rw [h1, h3]
    exact ⟨by simp, h2⟩

theorem emitted_eq (c : ins) (q : Instruction) (hw : c.wellFormed) (hi : c.insn = some q) :
    c.emitted = if q.Op = LABEL then [] else c.serialized := by
  unfold ins.emitted
  by_cases hop : q.Op = LABEL
  · rw [if_pos hop, writeTo_label c q bufferWriter [] hi hop]
  · rw [if_neg hop, (writeTo_buffer c q [] hw hi hop).1]; simp

theorem serialized_length_shape {c c' : ins} (h : SameShape c c') :
    c.serialized.length = c'.serialized.length := by
  obtain ⟨s1, s2, s3, s4, s5, s6, s7, -⟩ := h
  unfold ins.serialized
  simp only [List.length_append, apply_ite List.length, littleEndian_length, List.length_cons,
    List.length_nil, s1, s2, s3, s4, s5, s6, s7]

theorem emitted_length_shape {c c' : ins} {q q' : Instruction} (h : SameShape c c')
    (hw : c.wellFormed) (hw' : c'.wellFormed) (hi : c.insn = some q) (hi' : c'.insn = some q') :
    c.emitted.length = c'.emitted.length := by
  have hop : q.Op = q'.Op := by
    have := h.2.2.2.2.2.2.2
    rw [hi, hi'] at this
    simpa using this
  rw [emitted_eq c q hw hi, emitted_eq c' q' hw' hi', hop]
  split_ifs
  · rfl
  · exact serialized_length_shape h

theorem writeAll_buffer (L : List ins) (s : List Nat) (n : Int)
    (hall : ∀ c ∈ L, c.wellFormed ∧ ∃ q, c.insn = some q) :
    (writeAll bufferWriter L s n).1 = s ++ (L.map ins.emitted).flatten
      ∧ (writeAll bufferWriter L s n).2.2 = none := by
  induction L generalizing s n with
  | nil => simp [writeAll]
  | cons c cs ih =>
    obtain ⟨hw, q, hq⟩ := hall c (List.mem_cons_self _ _)
    obtain ⟨h1, h2⟩ := writeTo_emitted c q s hw hq
    rw [writeAll]
    split
    · rename_i w n1 f heq
      rw [heq] at h2; cases h2
    · rename_i w n1 heq
      rw [heq] at h1
      dsimp only at h1
      subst h1
      obtain ⟨i1, i2⟩ := ih (s ++ c.emitted) (n + n1)
        fun c' hc' => hall c' (List.mem_cons_of_mem _ hc')
      rw [i1]
      exact ⟨by simp, i2⟩

theorem getElem?_of_lt {α : Type} (l : List α) (i : Nat) (h : i < l.length) :
    ∃ x, l[i]? = some x := ⟨l[i], List.getElem?_eq_getElem h⟩

theorem layOut_spec (optab : Optab) (p p' : Program) (laidOut : List ins)
    (h : p.layOut optab = (p', .ok laidOut)) :
    laidOut.length = p'.length
    ∧ (∀ (i : Nat) (q : Instruction) (c : ins),
        p'[i]? = some q → laidOut[i]? = some c → Encodes optab q c)
    ∧ ∀ (i : Nat) (c : ins), laidOut[i]? = some c →
        c.codeblock = ((((laidOut.map fun x => x.emitted.length).take i).sum : Nat) : Int)
        ∧ c.codeblockEnd = c.codeblock + ((c.emitted.length : Nat) : Int) := by
  unfold Program.layOut at h
  split at h
  · cases h
  · rename_i labels hlabels
    dsimp only at h
    split at h
    · cases h
    · rename_i L0 hL0
      split at h
      · cases h
      · rename_i L1 hL1
        split at h
        · cases h
        · rename_i st hst
          simp only [Prod.mk.injEq, Except.ok.injEq] at h
          obtain ⟨hp', hL⟩ := h
          obtain ⟨len0, enc0⟩ := layOutAll_spec optab _ L0 hL0
          obtain ⟨len1, off1⟩ := assignOffsets_spec L0 0 L1 hL1
          have enc1 : ∀ (i : Nat) (q : Instruction) (c : ins),
              (selectJumps labels p 0).1[i]? = some q → L1[i]? = some c → Encodes optab q c := by
            intro i q c hq hc
            obtain ⟨c0, hc0, e⟩ := off1 i c hc
            rw [e]
            exact (enc0 i q c0 hq hc0).offsets _ _
          have hs : ∀ j ∈ (selectJumps labels p 0).2, ∀ q : Instruction,
              (selectJumps labels p 0).1[j]? = some q → q.To.Value.isSigned = true := by
            intro j hj q hq
            exact (selectJumps_signed labels p 0 j hj).2 q (by simpa using hq)
          obtain ⟨lp, lL, enc, same⟩ := patchJumps_spec optab labels _ _ _ st hs enc1 hst
          rw [hp'] at lp enc
          rw [hL] at lL enc same
          have hlen : laidOut.length = p'.length := by rw [lL, len1, len0, lp]
          have getp : ∀ i : Nat, i < laidOut.length → ∃ q, p'[i]? = some q := by
            intro i hi
            exact getElem?_of_lt p' i (by omega)
          have getq : ∀ i : Nat, i < laidOut.length →
              ∃ q, (selectJumps labels p 0).1[i]? = some q := by
            intro i hi
            exact getElem?_of_lt _ i (by omega)
          -- the emitted lengths of the final records are those of the first encoding
          have hmap : (laidOut.map fun x => x.emitted.length)
              = (L0.map fun x => x.emitted.length) := by
            apply List.ext_getElem?
            intro i
            rw [List.getElem?_map, List.getElem?_map]
            by_cases hi : i < laidOut.length
            · have hi1 : i < L1.length := by omega
              have hi0 : i < L0.length := by omega
              obtain ⟨q', hq'⟩ := getp i hi
              obtain ⟨q, hq⟩ := getq i hi
              have e : laidOut[i]? = some laidOut[i] := List.getElem?_eq_getElem _
              have e1 : L1[i]? = some L1[i] := List.getElem?_eq_getElem _
              have e0 : L0[i]? = some L0[i] := List.getElem?_eq_getElem _
              obtain ⟨c0, hc0, e10⟩ := off1 i _ e1
              rw [e0] at hc0; cases hc0
              obtain ⟨sh, -, -⟩ := same i _ _ e1 e
              obtain ⟨w, ins', -, -⟩ := enc i q' _ hq' e
              obtain ⟨w1, ins1, -, -⟩ := enc1 i q _ hq e1
              rw [e, e0]
              simp only [Option.map_some', Option.some.injEq]
              rw [emitted_length_shape sh w w1 ins' ins1, e10]
              rfl
            · rw [List.getElem?_eq_none (by omega), List.getElem?_eq_none (by omega)]
          refine ⟨hlen, enc, ?_⟩
          intro i c hc
          have hi : i < laidOut.length := by
            rcases Nat.lt_or_ge i laidOut.length with hlt | hge
            · exact hlt
            · rw [List.getElem?_eq_none hge] at hc; cases hc
          have e1 : L1[i]? = some L1[i] := List.getElem?_eq_getElem (by omega)
          obtain ⟨sh, cb, ce⟩ := same i _ c e1 hc
          obtain ⟨c0, hc0, e10⟩ := off1 i _ e1
          obtain ⟨q', hq'⟩ := getp i hi
          obtain ⟨q, hq⟩ := getq i hi
          obtain ⟨w, ins', -, -⟩ := enc i q' c hq' hc
          obtain ⟨w1, ins1, -, -⟩ := enc1 i q _ hq e1
          have el : c.emitted.length = c0.emitted.length := by
            rw [emitted_length_shape sh w w1 ins' ins1, e10]; rfl
          rw [cb, ce, hmap, e10, el]
          simp [List.map_take]

theorem andThen_eq_none {r : ins × Option Failure} {k : ins → ins × Option Failure} {c : ins}
    (h : andThen r k = (c, none)) : r.2 = none ∧ k r.1 = (c, none) := by
  unfold andThen at h
  split at h
  · cases h
  · rename_i hn; exact ⟨hn, h⟩

theorem makeModReg_c1 (c : ins) (bits : modBits) (r : Addr) :
    (c.makeModReg bits r).1.c1 = c.c1 := by
  unfold ins.makeModReg
  split
  · split
    · split_ifs <;> rfl
    · rfl
  · rfl
  · rfl

theorem indirectAddress_c1 (c : ins) (r : Addr) : (c.indirectAddress r).1.c1 = c.c1 := by
  unfold ins.indirectAddress
  refine andThen_preserves (fun x => x.c1 = c.c1) ?_ ?_
  · unfold ins.indirectDisp; split_ifs <;> rfl
  · intro x hx
    unfold ins.indirectRm
    split
    · split_ifs <;> exact hx
    · exact hx

theorem directAddress_c1 (c : ins) (r : Addr) : (c.directAddress r).1.c1 = c.c1 := by
  unfold ins.directAddress
  split
  · split_ifs <;> rfl
  · rfl

theorem makeMod_c1 (c : ins) (bits : modBits) : (c.makeMod bits).1.c1 = c.c1 := by
  unfold ins.makeMod
  by_cases hb : bits = .modNone
  · rw [if_pos hb]
  · rw [if_neg hb]
    split
    · rfl
    · rename_i p _
      by_cases h1 : p.r1.Typ = Ind
      · rw [if_pos h1]
      · rw [if_neg h1]
        refine andThen_preserves (fun x => x.c1 = c.c1) (makeModReg_c1 _ _ _) ?_
        intro x hx
        split_ifs
        · exact (indirectAddress_c1 _ _).trans hx
        · exact (directAddress_c1 _ _).trans hx

theorem makeImm_c1 (c : ins) (r : Addr) : (c.makeImm r).1.c1 = c.c1 := by
  unfold ins.makeImm
  split_ifs <;> (try split) <;> rfl

/-- The steps of `make` after the add-register step keep the first opcode byte. -/
theorem make_tail_c1 (v : opVal) (p : Instruction) (c : ins) :
    (andThen ((if v.rex = true then { c with rex := c.rex ||| rexW } else c).makeMod v.mod)
      fun c => andThen (c.makeImm p.From) fun c => c.makeImm p.To).1.c1 = c.c1 := by
  refine andThen_preserves (fun x => x.c1 = c.c1) ?_ ?_
  · refine (makeMod_c1 _ _).trans ?_
    by_cases hr : v.rex = true
    · rw [if_pos hr]
    · rw [if_neg hr]
  · intro x hx
    refine andThen_preserves (fun x => x.c1 = c.c1) ((makeImm_c1 _ _).trans hx) ?_
    intro x hx
    exact (makeImm_c1 _ _).trans hx

theorem makeModReg_default (c : ins) (r : Addr) (reg : Int) (hv : r.Value = .register reg)
    (h0 : AX ≤ reg) (h31 : reg ≤ X15) :
    c.makeModReg .modDefault r =
      ({ c with rex := c.rex ||| (if (R8 ≤ reg ∧ reg ≤ R15) ∨ (X8 ≤ reg ∧ reg ≤ X15)
                                    then rexR else 0),
                modRMreg := (reg % 8).toNat }, none) := by
  unfold ins.makeModReg
  simp only [hv]
  simp only [AX, DI, R8, R15, X0, X7, X8, X15] at h0 h31 ⊢
  by_cases a : 0 ≤ reg ∧ reg ≤ 7
  · have e : uint8 (reg - 0) = (reg % 8).toNat := by unfold uint8; omega
    have n : ¬ ((8 ≤ reg ∧ reg ≤ 15) ∨ (24 ≤ reg ∧ reg ≤ 31)) := by omega
    rw [if_pos a, if_neg n, e, Nat.or_zero]
  · rw [if_neg a]
    by_cases b : 8 ≤ reg ∧ reg ≤ 15
    · have e : uint8 (reg - 8) = (reg % 8).toNat := by unfold uint8; omega
      rw [if_pos b, if_pos (Or.inl b), e]
    · rw [if_neg b]
      by_cases d : 16 ≤ reg ∧ reg ≤ 23
      · have e : uint8 (reg - 16) = (reg % 8).toNat := by unfold uint8; omega
        have n : ¬ ((8 ≤ reg ∧ reg ≤ 15) ∨ (24 ≤ reg ∧ reg ≤ 31)) := by omega
        rw [if_pos d, if_neg n, e, Nat.or_zero]
      · have f : 24 ≤ reg ∧ reg ≤ 31 := by omega
        have e : uint8 (reg - 24) = (reg % 8).toNat := by unfold uint8; omega
        rw [if_neg d, if_pos f, if_pos (Or.inr f), e]

theorem directAddress_register (c : ins) (r : Addr) (reg : Int)
    (hv : r.Value = .register reg) (h0 : AX ≤ reg) (h31 : reg ≤ X15) :
    c.directAddress r =
      ({ c with modRMmod := 0x3,
                rex := c.rex ||| (if (R8 ≤ reg ∧ reg ≤ R15) ∨ (X8 ≤ reg ∧ reg ≤ X15)
                                    then rexB else 0),
                modRMrm := (reg % 8).toNat }, none) := by
  unfold ins.directAddress
  simp only [hv]
  simp only [AX, R8, R15, X0, X7, X8, X15] at h0 h31 ⊢
  by_cases b : 8 ≤ reg ∧ reg ≤ 15
  · have e : uint8 (reg - 8) = (reg % 8).toNat := by unfold uint8; omega
    rw [if_pos b, if_pos (Or.inl b), e]
  · rw [if_neg b]
    by_cases d : 16 ≤ reg ∧ reg ≤ 23
    · have e : uint8 (reg - 16) = (reg % 8).toNat := by unfold uint8; omega
      have n : ¬ ((8 ≤ reg ∧ reg ≤ 15) ∨ (24 ≤ reg ∧ reg ≤ 31)) := by omega
      rw [if_pos d, if_neg n, e, Nat.or_zero]
    · rw [if_neg d]
      by_cases f : 24 ≤ reg ∧ reg ≤ 31
      · have e : uint8 (reg - 24) = (reg % 8).toNat := by unfold uint8; omega
        rw [if_pos f, if_pos (Or.inr f), e]
      · have e : uint8 reg = (reg % 8).toNat := by unfold uint8; omega
        have n : ¬ ((8 ≤ reg ∧ reg ≤ 15) ∨ (24 ≤ reg ∧ reg ≤ 31)) := by omega
        rw [if_neg f, if_neg n, e, Nat.or_zero]

theorem Register.Addr_Typ (r : Int) : (Register.Addr r).Typ = Reg ∨ (Register.Addr r).Typ = Xmm := by
  unfold Register.Addr
  dsimp only
  split_ifs
  · exact Or.inr rfl
  · exact Or.inl rfl

theorem makeImm_of_register (c : ins) (r : Int) : c.makeImm (Register.Addr r) = (c, none) := by
  unfold ins.makeImm
  rcases Register.Addr_Typ r with h | h <;> rw [h] <;> simp

theorem makeMod_default_registers (c : ins) (op : Op) (r1 r2 : Int)
    (h1 : AX ≤ r1 ∧ r1 ≤ X15) (h2 : AX ≤ r2 ∧ r2 ≤ X15)
    (hc : c.insn = some ⟨op, Register.Addr r1, Register.Addr r2⟩) :
    c.makeMod .modDefault =
      ({ c with modRM := true, modRMmod := 0x3,
                rex := c.rex
                  ||| (if (R8 ≤ r1 ∧ r1 ≤ R15) ∨ (X8 ≤ r1 ∧ r1 ≤ X15) then rexR else 0)
                  ||| (if (R8 ≤ r2 ∧ r2 ≤ R15) ∨ (X8 ≤ r2 ∧ r2 ≤ X15) then rexB else 0),
                modRMreg := (r1 % 8).toNat, modRMrm := (r2 % 8).toNat }, none) := by
  have t1 : (Register.Addr r1).Typ ≠ Ind := by
    rcases Register.Addr_Typ r1 with h | h <;> rw [h] <;> decide
  have t2 : (Register.Addr r2).Typ ≠ Ind := by
    rcases Register.Addr_Typ r2 with h | h <;> rw [h] <;> decide
  rw [makeMod_some c _ _ hc]
  have e1 : (⟨op, Register.Addr r1, Register.Addr r2⟩ : Instruction).r1 = Register.Addr r1 := by
    unfold Instruction.r1; rw [if_neg t1]
  have e2 : (⟨op, Register.Addr r1, Register.Addr r2⟩ : Instruction).r2 = Register.Addr r2 := by
    unfold Instruction.r2; rw [if_neg t1]
  rw [e1, e2, if_neg (by decide), if_neg t1,
    makeModReg_default _ (Register.Addr r1) r1 rfl h1.1 h1.2, andThen_none rfl]
  dsimp only
  rw [if_neg t2, directAddress_register _ (Register.Addr r2) r2 rfl h2.1 h2.2]

theorem rex_bits (w a b : Bool) :
    (((if w then rexW else 0) ||| (if a then rexR else 0) ||| (if b then rexB else 0))
        &&& rexR ≠ 0 ↔ a = true)
    ∧ (((if w then rexW else 0) ||| (if a then rexR else 0) ||| (if b then rexB else 0))
        &&& rexB ≠ 0 ↔ b = true)
    ∧ (((if w then rexW else 0) ||| (if a then rexR else 0) ||| (if b then rexB else 0))
        &&& rexW ≠ 0 ↔ w = true) := by
  cases w <;> cases a <;> cases b <;> decide

theorem indirectRm_register (c : ins) (r : Addr) (reg : Int) (hv : r.Value = .register reg) :
    (c.indirectRm r).2 = none ∧ (c.indirectRm r).1.modRMmod = c.modRMmod
      ∧ (c.indirectRm r).1.dispWidth = c.dispWidth ∧ (c.indirectRm r).1.disp = c.disp := by
  unfold ins.indirectRm
  simp only [hv]
  split_ifs <;> exact ⟨rfl, rfl, rfl, rfl⟩

theorem LaidOut.encodes {optab : Optab} {c : ins} (h : LaidOut optab c) :
    c.wellFormed ∧ ∃ q, c.insn = some q := by
  rcases h with ⟨q, hq⟩ | ⟨p, p', L, hl, hc⟩
  · have e : c = (ins.zero.make optab q).1 := by rw [hq]
    rw [e]
    exact ⟨make_wellFormed optab _ q ins.zero_wellFormed, q, make_insn optab _ q⟩
  · obtain ⟨hlen, enc, -⟩ := layOut_spec optab p p' L hl
    obtain ⟨i, hi, rfl⟩ := List.getElem_of_mem hc
    have e : L[i]? = some L[i] := List.getElem?_eq_getElem hi
    obtain ⟨q, e'⟩ := getElem?_of_lt p' i (by omega)
    obtain ⟨w, hq, -, -⟩ := enc i _ _ e' e
    exact ⟨w, _, hq⟩

theorem makeImm_not_immediate (c : ins) (r : Addr) (h : ¬ carriesImmediate r.Typ) :
    c.makeImm r = (c, none) := by
  unfold carriesImmediate at h
  unfold ins.makeImm
  rw [if_neg (by tauto), if_neg (by tauto), if_neg (by tauto), if_neg (by tauto)]

/-- What `makeImm` stores for an operand built by `Imm` or `Rel`. -/
theorem makeImm_constructed (c : ins) (a : Addr) (val : Value)
    (ha : Imm val = .ok a ∨ Rel val = .ok a) :
    ∃ imm : Nat, c.makeImm a = ({ c with immWidth := 8 * (val.width : Int), imm := imm }, none)
      ∧ ((∃ v, val = .uint8 v ∧ imm = v) ∨ (∃ v, val = .uint32 v ∧ imm = v)
        ∨ (∃ v, val = .uint64 v ∧ imm = v) ∨ (∃ v, val = .int8 v ∧ imm = uint64 v)
        ∨ (∃ v, val = .int32 v ∧ imm = uint64 v)) := by
  rcases ha with ha | ha
  · cases val <;> simp only [Imm, reduceCtorEq, Except.ok.injEq] at ha
    · subst ha; rename_i v
      exact ⟨v, rfl, Or.inl ⟨v, rfl, rfl⟩⟩
    · subst ha; rename_i v
      exact ⟨v, rfl, Or.inr (Or.inl ⟨v, rfl, rfl⟩)⟩
    · subst ha; rename_i v
      exact ⟨v, rfl, Or.inr (Or.inr (Or.inl ⟨v, rfl, rfl⟩))⟩
  · cases val <;> simp only [Rel, reduceCtorEq, Except.ok.injEq] at ha
    · subst ha; rename_i v
      exact ⟨uint64 v, rfl, Or.inr (Or.inr (Or.inr (Or.inl ⟨v, rfl, rfl⟩)))⟩
    · subst ha; rename_i v
      exact ⟨uint64 v, rfl, Or.inr (Or.inr (Or.inr (Or.inr ⟨v, rfl, rfl⟩)))⟩

theorem Value.width_pos_of_constructed (a : Addr) (val : Value)
    (ha : Imm val = .ok a ∨ Rel val = .ok a) :
    val.width = 1 ∨ val.width = 4 ∨ val.width = 8 := by
  rcases ha with ha | ha
  · cases val <;> simp only [Imm, reduceCtorEq] at ha <;> simp [Value.width]
  · cases val <;> simp only [Rel, reduceCtorEq] at ha <;> simp [Value.width]

theorem toNat_div_mod (v k : Nat) : ((v : Int) / (k : Int) % 256).toNat = v / k % 256 := by
  have : ((v : Int) / (k : Int) % 256) = ((v / k % 256 : Nat) : Int) := by push_cast; rfl
  rw [this]; exact Int.toNat_natCast _

/-- The bytes the encoder emits for the stored immediate are the little-endian
representation of the payload, and decoding them gives the payload back. -/
theorem littleEndian_repr (val : Value) (imm : Nat) (hr : val.inRange)
    (h : (∃ v, val = .uint8 v ∧ imm = v) ∨ (∃ v, val = .uint32 v ∧ imm = v)
        ∨ (∃ v, val = .uint64 v ∧ imm = v) ∨ (∃ v, val = .int8 v ∧ imm = uint64 v)
        ∨ (∃ v, val = .int32 v ∧ imm = uint64 v)) :
    littleEndian val.width imm = val.littleEndianRepr
      ∧ val.decode val.littleEndianRepr = val := by
  rcases h with ⟨v, rfl, rfl⟩ | ⟨v, rfl, rfl⟩ | ⟨v, rfl, rfl⟩ | ⟨v, rfl, rfl⟩ | ⟨v, rfl, rfl⟩
  · simp only [Value.inRange] at hr
    simp only [Value.littleEndianRepr, Value.width, Value.toInt, Value.decode, littleEndian,
      List.range_succ, List.range_zero, List.nil_append, List.map_cons, List.map_nil,
      decodeLittleEndian, List.cons_append, Nat.div_div_eq_div_mul, Nat.reduceMul,
      Int.reducePow, Nat.reducePow]
    have k0 := toNat_div_mod imm 1
    simp only [Nat.cast_one] at k0
    rw [k0]
    simp only [Nat.div_one, true_and, Value.uint8.injEq]
    omega
  · simp only [Value.inRange] at hr
    simp only [Value.littleEndianRepr, Value.width, Value.toInt, Value.decode, littleEndian,
      List.range_succ, List.range_zero, List.nil_append, List.map_cons, List.map_nil,
      decodeLittleEndian, List.cons_append, Nat.div_div_eq_div_mul, Nat.reduceMul,
      Int.reducePow, Nat.reducePow]
    have k0 := toNat_div_mod imm 1
    have k1 := toNat_div_mod imm 256
    have k2 := toNat_div_mod imm 65536
    have k3 := toNat_div_mod imm 16777216
    simp only [Nat.cast_ofNat, Nat.cast_one] at k0 k1 k2 k3
    rw [k0, k1, k2, k3]
    simp only [Nat.div_one, true_and, Value.uint32.injEq]
    omega
  · simp only [Value.inRange] at hr
    simp only [Value.littleEndianRepr, Value.width, Value.toInt, Value.decode, littleEndian,
      List.range_succ, List.range_zero, List.nil_append, List.map_cons, List.map_nil,
      decodeLittleEndian, List.cons_append, Nat.div_div_eq_div_mul, Nat.reduceMul,
      Int.reducePow, Nat.reducePow]
    have k0 := toNat_div_mod imm 1
    have k1 := toNat_div_mod imm 256
    have k2 := toNat_div_mod imm 65536
    have k3 := toNat_div_mod imm 16777216
    have k4 := toNat_div_mod imm 4294967296
    have k5 := toNat_div_mod imm 1099511627776
    have k6 := toNat_div_mod imm 281474976710656
    have k7 := toNat_div_mod imm 72057594037927936
    simp only [Nat.cast_ofNat, Nat.cast_one] at k0 k1 k2 k3 k4 k5 k6 k7
    rw [k0, k1, k2, k3, k4, k5, k6, k7]
    simp only [Nat.div_one, true_and, Value.uint64.injEq]
    omega
  · simp only [Value.inRange] at hr
    simp only [Value.littleEndianRepr, Value.width, Value.toInt, Value.decode, littleEndian,
      List.range_succ, List.range_zero, List.nil_append, List.map_cons, List.map_nil,
      decodeLittleEndian, List.cons_append, Nat.div_div_eq_div_mul, uint64, wrapSigned,
      Nat.reduceMul, Int.reducePow, Nat.reducePow, Nat.reduceSub, List.cons.injEq, and_true,
      Value.int8.injEq]
    constructor <;> omega
  · simp only [Value.inRange] at hr
    simp only [Value.littleEndianRepr, Value.width, Value.toInt, Value.decode, littleEndian,
      List.range_succ, List.range_zero, List.nil_append, List.map_cons, List.map_nil,
      decodeLittleEndian, List.cons_append, Nat.div_div_eq_div_mul, uint64, wrapSigned,
      Nat.reduceMul, Int.reducePow, Nat.reducePow, Nat.reduceSub, List.cons.injEq, and_true,
      Value.int32.injEq]
    refine ⟨⟨?_, ?_, ?_, ?_⟩, ?_⟩ <;> omega

theorem Value.littleEndianRepr_length (val : Value) :
    val.littleEndianRepr.length = val.width := by
  simp [Value.littleEndianRepr]

theorem makeImm_modRM (c : ins) (r : Addr) :
    (c.makeImm r).1.rex = c.rex ∧ (c.makeImm r).1.modRM = c.modRM
    ∧ (c.makeImm r).1.modRMmod = c.modRMmod ∧ (c.makeImm r).1.modRMreg = c.modRMreg
    ∧ (c.makeImm r).1.modRMrm = c.modRMrm ∧ (c.makeImm r).1.sib = c.sib := by
  unfold ins.makeImm
  split_ifs <;> (try split) <;> exact ⟨rfl, rfl, rfl, rfl, rfl, rfl⟩

theorem addRegToOp_modRM (c : ins) :
    (c.addRegToOp).1.rex = c.rex ∧ (c.addRegToOp).1.sib = c.sib
    ∧ (c.addRegToOp).1.modRM = c.modRM := by
  unfold ins.addRegToOp
  split
  · exact ⟨rfl, rfl, rfl⟩
  · dsimp only
    split
    · split_ifs <;> exact ⟨rfl, rfl, rfl⟩
    · exact ⟨rfl, rfl, rfl⟩

/-- A successful `make` on a zero record: the REX bits and the ModR/M and SIB fields of
the result are those `makeMod` leaves, on a record that has no REX bit but possibly
REX.W, no ModR/M byte and no SIB byte. -/
theorem make_modRM (optab : Optab) (p : Instruction) (v : opVal) (hop : p.Op ≠ LABEL)
    (hkey : optab ⟨p.Op, p.From.Typ, p.To.Typ⟩ = some v)
    (hok : (ins.zero.make optab p).2 = none) :
    ∃ x : ins, x.insn = some p ∧ x.rex = (if v.rex = true then rexW else 0)
      ∧ x.sib = false ∧ x.modRM = false
      ∧ (x.makeMod v.mod).2 = none
      ∧ (ins.zero.make optab p).1.rex = (x.makeMod v.mod).1.rex
      ∧ (ins.zero.make optab p).1.modRM = (x.makeMod v.mod).1.modRM
      ∧ (ins.zero.make optab p).1.modRMmod = (x.makeMod v.mod).1.modRMmod
      ∧ (ins.zero.make optab p).1.modRMreg = (x.makeMod v.mod).1.modRMreg
      ∧ (ins.zero.make optab p).1.modRMrm = (x.makeMod v.mod).1.modRMrm
      ∧ (ins.zero.make optab p).1.sib = (x.makeMod v.mod).1.sib := by
  have hmk : ins.zero.make optab p = ((ins.zero.make optab p).1, none) := Prod.ext rfl hok
  generalize (ins.zero.make optab p).1 = c at hmk ⊢
  unfold ins.make at hmk
  rw [if_neg hop, hkey] at hmk
  dsimp only at hmk
  obtain ⟨h1, hmk⟩ := andThen_eq_none hmk
  obtain ⟨h2, hmk⟩ := andThen_eq_none hmk
  obtain ⟨h3, hmk⟩ := andThen_eq_none hmk
  generalize hx1 : (if v.addReg = true then
      ({ ins.zero with insn := some p, c0 := v.c0, c1 := v.c1, c2 := v.c2 } : ins).addRegToOp
    else (({ ins.zero with insn := some p, c0 := v.c0, c1 := v.c1, c2 := v.c2 } : ins), none)).1
      = x1 at h2 hmk
  have hx1i : x1.insn = some p ∧ x1.rex = 0 ∧ x1.sib = false ∧ x1.modRM = false := by
    rw [← hx1]
    by_cases ha : v.addReg = true
    · rw [if_pos ha]
      have := addRegToOp_modRM
        ({ ins.zero with insn := some p, c0 := v.c0, c1 := v.c1, c2 := v.c2 } : ins)
      exact ⟨addRegToOp_insn _, this.1, this.2.1, this.2.2⟩
    · rw [if_neg ha]; exact ⟨rfl, rfl, rfl, rfl⟩
  refine ⟨if v.rex = true then { x1 with rex := x1.rex ||| rexW } else x1, ?_, ?_, ?_, ?_, h2, ?_⟩
  · by_cases hr : v.rex = true
    · rw [if_pos hr]; exact hx1i.1
    · rw [if_neg hr]; exact hx1i.1
  · by_cases hr : v.rex = true
    · rw [if_pos hr, if_pos hr]; dsimp only; rw [hx1i.2.1]; rfl
    · rw [if_neg hr, if_neg hr]; exact hx1i.2.1
  · by_cases hr : v.rex = true
    · rw [if_pos hr]; exact hx1i.2.2.1
    · rw [if_neg hr]; exact hx1i.2.2.1
  · by_cases hr : v.rex = true
    · rw [if_pos hr]; exact hx1i.2.2.2
    · rw [if_neg hr]; exact hx1i.2.2.2
  · have hc : c = ((((if v.rex = true then { x1 with rex := x1.rex ||| rexW } else x1).makeMod
        v.mod).1.makeImm p.From).1.makeImm p.To).1 := by rw [hmk]
    rw [hc]
    have a := makeImm_modRM (((if v.rex = true then { x1 with rex := x1.rex ||| rexW }
      else x1).makeMod v.mod).1.makeImm p.From).1 p.To
    have b := makeImm_modRM ((if v.rex = true then { x1 with rex := x1.rex ||| rexW }
      else x1).makeMod v.mod).1 p.From
    exact ⟨a.1.trans b.1, a.2.1.trans b.2.1, a.2.2.1.trans b.2.2.1,
      a.2.2.2.1.trans b.2.2.2.1, a.2.2.2.2.1.trans b.2.2.2.2.1,
      a.2.2.2.2.2.trans b.2.2.2.2.2⟩

theorem indirectDisp_modRM (c : ins) (r : Addr) :
    (c.indirectDisp r).1.rex = c.rex ∧ (c.indirectDisp r).1.sib = c.sib
    ∧ (c.indirectDisp r).1.modRM = c.modRM
    ∧ (r.Disp ≤ 0xffffffff → (c.indirectDisp r).2 = none) := by
  unfold ins.indirectDisp
  split_ifs with h1 h2 h3
  · exact ⟨rfl, rfl, rfl, fun _ => rfl⟩
  · exact ⟨rfl, rfl, rfl, fun _ => rfl⟩
  · exact ⟨rfl, rfl, rfl, fun _ => rfl⟩
  · exact ⟨rfl, rfl, rfl, fun h => absurd h h3⟩

/-- The rm step of `indirectAddress` for a general register whose low three bits are not
`100`. -/
theorem indirectRm_low (c : ins) (r : Addr) (reg : Int) (hv : r.Value = .register reg)
    (hreg : AX ≤ reg ∧ reg ≤ R15) (hlow : reg % 8 ≠ 0b100) :
    (c.indirectRm r).2 = none ∧ (c.indirectRm r).1.sib = c.sib
    ∧ (c.indirectRm r).1.modRM = c.modRM
    ∧ (c.indirectRm r).1.modRMrm = (reg % 8).toNat
    ∧ (c.indirectRm r).1.rex = c.rex ||| (if R8 ≤ reg then rexB else 0) := by
  unfold ins.indirectRm
  simp only [hv]
  simp only [AX, R8, R15, X0, X7] at hreg ⊢
  by_cases h8 : 8 ≤ reg
  · have t : 8 ≤ reg ∧ reg ≤ 15 ∧ reg - 8 ≠ 0x4 := by omega
    rw [if_pos t, if_pos h8]
    refine ⟨rfl, rfl, rfl, ?_, rfl⟩
    show uint8 (reg - 8) = (reg % 8).toNat
    unfold uint8; omega
  · have t : ¬ (8 ≤ reg ∧ reg ≤ 15 ∧ reg - 8 ≠ 0x4) := by omega
    have t2 : ¬ (16 ≤ reg ∧ reg ≤ 23 ∧ reg - 16 ≠ 0x4) := by omega
    have t3 : reg ≠ 0x4 := by omega
    rw [if_neg t, if_neg t2, if_pos t3, if_neg h8]
    refine ⟨rfl, rfl, rfl, ?_, (Nat.or_zero _).symm⟩
    show uint8 reg = (reg % 8).toNat
    unfold uint8; omega

theorem indirectAddress_low (c : ins) (r : Addr) (reg : Int) (hv : r.Value = .register reg)
    (hreg : AX ≤ reg ∧ reg ≤ R15) (hlow : reg % 8 ≠ 0b100) :
    (r.Disp ≤ 0xffffffff → (c.indirectAddress r).2 = none)
    ∧ ((c.indirectAddress r).2 = none →
      (c.indirectAddress r).1.sib = c.sib
      ∧ (c.indirectAddress r).1.modRM = c.modRM
      ∧ (c.indirectAddress r).1.modRMrm = (reg % 8).toNat
      ∧ (c.indirectAddress r).1.rex = c.rex ||| (if R8 ≤ reg then rexB else 0)) := by
  have hd := indirectDisp_modRM c r
  have hr := indirectRm_low (c.indirectDisp r).1 r reg hv hreg hlow
  unfold ins.indirectAddress
  constructor
  · intro h
    rw [andThen_none (hd.2.2.2 h)]
    exact hr.1
  · intro hok
    cases hs : (c.indirectDisp r).2 with
    | some f => rw [andThen_some hs] at hok; cases hok
    | none =>
      rw [andThen_none hs]
      exact ⟨hr.2.1.trans hd.2.1, hr.2.2.1.trans hd.2.2.1, hr.2.2.2.1,
        hr.2.2.2.2.trans (by rw [hd.1])⟩

theorem makeModReg_modRM (c : ins) (bits : modBits) (r : Addr) :
    (c.makeModReg bits r).1.sib = c.sib ∧ (c.makeModReg bits r).1.modRM = c.modRM
    ∧ (c.makeModReg bits r).1.modRMrm = c.modRMrm
    ∧ ((c.makeModReg bits r).1.rex = c.rex ∨ (c.makeModReg bits r).1.rex = c.rex ||| rexR) := by
  unfold ins.makeModReg
  split
  · split
    · split_ifs <;> first
        | exact ⟨rfl, rfl, rfl, Or.inl rfl⟩
        | exact ⟨rfl, rfl, rfl, Or.inr rfl⟩
    · exact ⟨rfl, rfl, rfl, Or.inl rfl⟩
  · exact ⟨rfl, rfl, rfl, Or.inl rfl⟩
  · exact ⟨rfl, rfl, rfl, Or.inl rfl⟩

/-- The step `makeMod` with an indirect operand whose base is a general register with
low three bits other than `100`. -/
theorem makeMod_indirect_low (c : ins) (p : Instruction) (bits : modBits) (reg : Int)
    (hc : c.insn = some p) (hb : bits ≠ .modNone) (hind : p.r2.Typ = Ind)
    (hv : p.r2.Value = .register reg) (hreg : AX ≤ reg ∧ reg ≤ R15)
    (hlow : reg % 8 ≠ 0b100) (hok : (c.makeMod bits).2 = none) :
    (c.makeMod bits).1.modRM = true ∧ (c.makeMod bits).1.sib = c.sib
    ∧ (c.makeMod bits).1.modRMrm = (reg % 8).toNat
    ∧ ((c.makeMod bits).1.rex = c.rex ||| (if R8 ≤ reg then rexB else 0)
      ∨ (c.makeMod bits).1.rex = c.rex ||| rexR ||| (if R8 ≤ reg then rexB else 0)) := by
  rw [makeMod_some c bits p hc, if_neg hb] at hok ⊢
  by_cases h1 : p.r1.Typ = Ind
  · rw [if_pos h1] at hok; cases hok
  · rw [if_neg h1] at hok ⊢
    have hm := makeModReg_modRM ({ c with modRM := true } : ins) bits p.r1
    cases hs : (({ c with modRM := true } : ins).makeModReg bits p.r1).2 with
    | some f => rw [andThen_some hs] at hok; cases hok
    | none =>
      rw [andThen_none hs] at hok ⊢
      rw [if_pos hind] at hok ⊢
      have hi := (indirectAddress_low
        (({ c with modRM := true } : ins).makeModReg bits p.r1).1 p.r2 reg hv hreg hlow).2 hok
      refine ⟨hi.2.1.trans hm.2.1, hi.1.trans hm.1, hi.2.2.1, ?_⟩
      rcases hm.2.2.2 with h | h
      · exact Or.inl (hi.2.2.2.trans (by rw [h]))
      · exact Or.inr (hi.2.2.2.trans (by rw [h]))

theorem makeModReg_fixed (c : ins) (bits : modBits) (r : Addr) (hn : bits ≠ .modNone)
    (hd : bits ≠ .modDefault) :
    c.makeModReg bits r = ({ c with modRMreg := bits.fixed % 256 }, none) := by
  cases bits <;> first
    | exact absurd rfl hn
    | exact absurd rfl hd
    | rfl

/-- The step `makeMod` under a `Fixed-k` policy when the operand that may be indirect is
a direct register. -/
theorem makeMod_fixed_direct (c : ins) (p : Instruction) (bits : modBits) (reg : Int)
    (hc : c.insn = some p) (hn : bits ≠ .modNone) (hd : bits ≠ .modDefault)
    (hk : p.r2.Typ ≠ Ind) (hv : p.r2.Value = .register reg)
    (hreg : AX ≤ reg ∧ reg ≤ X15) :
    c.makeMod bits =
      ({ c with modRM := true, modRMreg := bits.fixed % 256, modRMmod := 0x3,
                rex := c.rex ||| (if (R8 ≤ reg ∧ reg ≤ R15) ∨ (X8 ≤ reg ∧ reg ≤ X15)
                                    then rexB else 0),
                modRMrm := (reg % 8).toNat }, none) := by
  have h1 : p.r1.Typ ≠ Ind := by
    unfold Instruction.r1
    unfold Instruction.r2 at hk
    by_cases hf : p.From.Typ = Ind
    · rw [if_pos hf] at hk; exact absurd hf hk
    · rw [if_neg hf]; exact hf
  rw [makeMod_some c bits p hc, if_neg hn, if_neg h1, makeModReg_fixed _ bits _ hn hd,
    andThen_none rfl]
  dsimp only
  rw [if_neg hk, directAddress_register _ p.r2 reg hv hreg.1 hreg.2]

theorem modRM_byte_fields (k r : Nat) (hk : k ≤ 8) (hr : r < 8) :
    ((0x3 <<< 6) % 256 ||| ((k % 256) <<< 3) % 256 ||| r) / 64 = 0b11
    ∧ ((0x3 <<< 6) % 256 ||| ((k % 256) <<< 3) % 256 ||| r) / 8 % 8 = k % 8
    ∧ ((0x3 <<< 6) % 256 ||| ((k % 256) <<< 3) % 256 ||| r) % 8 = r := by
  interval_cases k <;> interval_cases r <;> decide

theorem modBits.fixed_le (bits : modBits) : bits.fixed ≤ 8 := by
  cases bits <;> decide

theorem opNameTable_names_nodup : (opNameTable.map Prod.snd).Nodup := by
  decide

theorem opNameEntry_index (n : Nat) (h : n < 59) :
    opNameEntry (n : Int) = (opNameTable.map Prod.snd)[n]? := by
  interval_cases n <;> rfl

theorem opNameEntry_toNat (op : Int) (h0 : 0 ≤ op) (h1 : op < 59) :
    opNameEntry op = (opNameTable.map Prod.snd)[op.toNat]? := by
  have := opNameEntry_index op.toNat (by omega)
  rwa [Int.toNat_of_nonneg h0] at this

theorem opNameEntry_some (op : Int) (h0 : 0 ≤ op) (h1 : op < 59) :
    ∃ name, opNameEntry op = some name := by
  have hlen : (opNameTable.map Prod.snd).length = 59 := rfl
  rw [opNameEntry_toNat op h0 h1]
  exact getElem?_of_lt _ _ (by rw [hlen]; omega)

theorem opName_injective (a b : Int) (a0 : 0 ≤ a) (a1 : a < 59) (b0 : 0 ≤ b) (b1 : b < 59)
    (hab : a ≠ b) : opName a ≠ opName b := by
  have hlen : (opNameTable.map Prod.snd).length = 59 := rfl
  intro heq
  obtain ⟨x, hx⟩ := getElem?_of_lt (opNameTable.map Prod.snd) a.toNat (by rw [hlen]; omega)
  obtain ⟨y, hy⟩ := getElem?_of_lt (opNameTable.map Prod.snd) b.toNat (by rw [hlen]; omega)
  unfold opName at heq
  rw [opNameEntry_toNat a a0 a1, opNameEntry_toNat b b0 b1, hx, hy] at heq
  simp only [Option.getD_some] at heq
  subst heq
  have hnd := opNameTable_names_nodup
  rw [List.nodup_iff_getElem?_ne_getElem?] at hnd
  rcases Nat.lt_trichotomy a.toNat b.toNat with h | h | h
  · exact hnd a.toNat b.toNat h (by rw [hlen]; omega) (hx.trans hy.symm)
  · exact hab (by omega)
  · exact hnd b.toNat a.toNat h (by rw [hlen]; omega) (hy.trans hx.symm)

theorem opName_length (op : Int) (h0 : 0 ≤ op) (h1 : op < 59) : (opName op).length ≤ 5 := by
  have key : ∀ n : Nat, n < 59 → (opName (n : Int)).length ≤ 5 := by
    intro n hn
    interval_cases n <;> decide
  have := key op.toNat (by omega)
  rwa [Int.toNat_of_nonneg h0] at this

theorem sliceFrom_namePad (k : Nat) (hk : k ≤ 6) :
    (sliceFrom namePad k).length = 6 - k ∧ ∀ ch ∈ (sliceFrom namePad k).data, ch = ' ' := by
  interval_cases k <;> decide

theorem printText_some (c : ins) (p : Instruction) (hc : c.insn = some p) :
    c.printText =
      match p.From.printText c.codeblockEnd with
      | .error e => .error e
      | .ok from_ =>
        match p.To.printText c.codeblockEnd with
        | .error e => .error e
        | .ok to_ =>
          .ok (opName p.Op
            ++ (if (opName p.Op).length < namePad.length
                then sliceFrom namePad (opName p.Op).length else "")
            ++ from_ ++ "," ++ to_) := by
  cases c
  cases hc
  rfl

theorem printText_padded (c : ins) (p : Instruction) (f t : String) (hc : c.insn = some p)
    (h0 : 0 ≤ p.Op) (h1 : p.Op < 59)
    (hf : p.From.printText c.codeblockEnd = .ok f)
    (ht : p.To.printText c.codeblockEnd = .ok t) :
    ∃ pad : String, c.printText = .ok (opName p.Op ++ pad ++ f ++ "," ++ t)
      ∧ (opName p.Op ++ pad).length = 6 ∧ ∀ ch ∈ pad.data, ch = ' ' := by
  have hl := opName_length p.Op h0 h1
  have hs := sliceFrom_namePad (opName p.Op).length (by omega)
  refine ⟨sliceFrom namePad (opName p.Op).length, ?_, ?_, hs.2⟩
  · rw [printText_some c p hc, hf, ht]
    dsimp only
    rw [if_pos (show (opName p.Op).length < namePad.length from
      Nat.lt_of_le_of_lt hl (by decide))]
  · rw [String.length_append, hs.1]
    omega

theorem labelNames_cons (x : Instruction) (rest : List Instruction) :
    labelNames (x :: rest)
      = if x.Op = LABEL then x.From.Name :: labelNames rest else labelNames rest := by
  unfold labelNames
  by_cases h : x.Op = LABEL
  · rw [if_pos h, List.filter_cons_of_pos (by simpa using h), List.map_cons]
  · rw [if_neg h, List.filter_cons_of_neg (by simpa using h)]

theorem labelNames_append (xs ys : List Instruction) :
    labelNames (xs ++ ys) = labelNames xs ++ labelNames ys := by
  unfold labelNames
  rw [List.filter_append, List.map_append]

theorem lookup_cons_eq_none (labels : Labels) (name n : String) (i : Nat) :
    List.lookup n ((name, i) :: labels) = none ↔ n ≠ name ∧ List.lookup n labels = none := by
  rw [List.lookup_cons]
  by_cases h : n = name
  · subst h
    simp
  · have : (n == name) = false := by simpa using h
    rw [this]
    simp [h]

/-- The first loop fails when a label name repeats or is already in the map. -/
theorem collectLabels_fails (ps : List Instruction) (i : Nat) (labels : Labels)
    (h : ¬ (labelNames ps).Nodup ∨ ∃ n ∈ labelNames ps, List.lookup n labels ≠ none) :
    ∃ j name previous,
      collectLabels ps i labels = .error (.error (.labelRedefined j name previous)) := by
  induction ps generalizing i labels with
  | nil =>
    rcases h with h | ⟨n, hn, _⟩
    · exact absurd List.nodup_nil h
    · cases hn
  | cons x rest ih =>
    unfold collectLabels
    rw [labelNames_cons] at h
    by_cases hop : x.Op = LABEL
    · rw [if_pos hop] at h ⊢
      cases hl : List.lookup x.From.Name labels with
      | some previous => exact ⟨i, x.From.Name, previous, rfl⟩
      | none =>
        dsimp only
        apply ih
        rcases h with h | ⟨n, hn, hne⟩
        · rw [List.nodup_cons, not_and_or, not_not] at h
          rcases h with h | h
          · refine Or.inr ⟨x.From.Name, h, ?_⟩
            rw [Ne, lookup_cons_eq_none]
            exact fun c => c.1 rfl
          · exact Or.inl h
        · rcases List.mem_cons.mp hn with hn | hn
          · subst hn; exact absurd hl hne
          · refine Or.inr ⟨n, hn, ?_⟩
            rw [Ne, lookup_cons_eq_none]
            exact fun c => hne c.2
    · rw [if_neg hop] at h ⊢
      exact ih (i + 1) labels h

/-- The first loop succeeds when the label names are pairwise distinct and none is in
the map yet. -/
theorem collectLabels_succeeds (ps : List Instruction) (i : Nat) (labels : Labels)
    (hn : (labelNames ps).Nodup) (hl : ∀ n ∈ labelNames ps, List.lookup n labels = none) :
    ∃ result, collectLabels ps i labels = .ok result := by
  induction ps generalizing i labels with
  | nil => exact ⟨labels, rfl⟩
  | cons x rest ih =>
    unfold collectLabels
    rw [labelNames_cons] at hn hl
    by_cases hop : x.Op = LABEL
    · rw [if_pos hop] at hn hl ⊢
      rw [hl x.From.Name (List.mem_cons_self _ _)]
      dsimp only
      rw [List.nodup_cons] at hn
      apply ih _ _ hn.2
      intro n hmem
      rw [lookup_cons_eq_none]
      refine ⟨?_, hl n (List.mem_cons_of_mem _ hmem)⟩
      intro heq
      subst heq
      exact hn.1 hmem
    · rw [if_neg hop] at hn hl ⊢
      exact ih _ _ hn hl

theorem layOut_of_collect_error (optab : Optab) (p : Program) (f : Failure)
    (h : collectLabels p 0 [] = .error f) : p.layOut optab = (p, .error f) := by
  unfold Program.layOut
  rw [h]

theorem WriteTo_of_layOut_error {σ : Type} (optab : Optab) (p p' : Program) (f : Failure)
    (W : Writer σ) (w : σ) (h : p.layOut optab = (p', .error f)) :
    p.WriteTo optab W w = (p', w, 0, some f) := by
  unfold Program.WriteTo
  rw [h]

theorem Bytes_of_layOut_error (optab : Optab) (p p' : Program) (f : Failure)
    (h : p.layOut optab = (p', .error f)) : p.Bytes optab = (p', .error f) := by
  unfold Program.Bytes
  rw [WriteTo_of_layOut_error optab p p' f bufferWriter [] h]

theorem PrintText_of_layOut_error (optab : Optab) (p p' : Program) (f : Failure)
    (h : p.layOut optab = (p', .error f)) : p.PrintText optab = (p', .error f) := by
  unfold Program.PrintText
  rw [h]

theorem selectJump_frame (labels : Labels) (i : Nat) (x : Instruction) :
    (selectJump labels i x).Op = x.Op ∧ (selectJump labels i x).From = x.From
    ∧ (selectJump labels i x).To.Name = x.To.Name
    ∧ (selectJump labels i x).To.Disp = x.To.Disp
    ∧ (x.To.Typ ≠ Label → selectJump labels i x = x)
    ∧ (x.To.Typ = Label →
        (selectJump labels i x).To.Typ = Rel8 ∨ (selectJump labels i x).To.Typ = Rel16
        ∨ (selectJump labels i x).To.Typ = Rel32) := by
  unfold selectJump
  by_cases hl : x.To.Typ = Label
  · rw [if_pos hl]
    by_cases hc : x.Op = CALL
    · rw [if_pos hc]
      exact ⟨rfl, rfl, rfl, rfl, fun h => absurd hl h, fun _ => Or.inr (Or.inr rfl)⟩
    · rw [if_neg hc]
      by_cases hd : (i : Int) - (labels.get x.To.Name : Int) < shortJumpLimit
      · rw [if_pos hd]
        exact ⟨rfl, rfl, rfl, rfl, fun h => absurd hl h, fun _ => Or.inl rfl⟩
      · rw [if_neg hd]
        exact ⟨rfl, rfl, rfl, rfl, fun h => absurd hl h, fun _ => Or.inr (Or.inl rfl)⟩
  · rw [if_neg hl]
    exact ⟨rfl, rfl, rfl, rfl, fun _ => rfl, fun h => absurd h hl⟩

theorem selectJumps_getElem (labels : Labels) (ps : List Instruction) (k i : Nat) :
    (selectJumps labels ps k).1[i]? = (ps[i]?).map (selectJump labels (k + i)) := by
  induction ps generalizing k i with
  | nil => simp [selectJumps]
  | cons x rest ih =>
    simp only [selectJumps]
    cases i with
    | zero => simp
    | succ n =>
      rw [List.getElem?_cons_succ, List.getElem?_cons_succ, ih (k + 1) n]
      have e : k + 1 + n = k + (n + 1) := by omega
      rw [e]

theorem selectJumps_length (labels : Labels) (ps : List Instruction) (k : Nat) :
    (selectJumps labels ps k).1.length = ps.length := by
  induction ps generalizing k with
  | nil => simp [selectJumps]
  | cons x rest ih => simp [selectJumps, ih]

theorem selectJumps_jumps (labels : Labels) (ps : List Instruction) (k : Nat) :
    ∀ j ∈ (selectJumps labels ps k).2,
      k ≤ j ∧ ∃ x, ps[j - k]? = some x ∧ x.To.Typ = Label := by
  induction ps generalizing k with
  | nil => intro j hj; simp [selectJumps] at hj
  | cons x rest ih =>
    intro j hj
    simp only [selectJumps] at hj
    have tail : j ∈ (selectJumps labels rest (k + 1)).2 →
        k ≤ j ∧ ∃ y, (x :: rest)[j - k]? = some y ∧ y.To.Typ = Label := by
      intro hj'
      obtain ⟨hle, y, hy, hl⟩ := ih (k + 1) j hj'
      refine ⟨by omega, y, ?_, hl⟩
      have e : j - k = (j - (k + 1)) + 1 := by omega
      rw [e, List.getElem?_cons_succ]
      exact hy
    by_cases hl : x.To.Typ = Label
    · rw [if_pos hl] at hj
      rcases List.mem_cons.mp hj with rfl | hj'
      · exact ⟨le_refl _, x, by simp, hl⟩
      · exact tail hj'
    · rw [if_neg hl] at hj
      exact tail hj

/-- The third loop fails when the key of one of the instructions, not a `LABEL`, is
absent from the table; the failure is an error naming an instruction, or the panic of
a `make`. -/
theorem layOutAll_fails (optab : Optab) (ps : List Instruction) (y : Instruction)
    (hy : y ∈ ps) (hop : y.Op ≠ LABEL)
    (hkey : optab ⟨y.Op, y.From.Typ, y.To.Typ⟩ = none) :
    ∃ f, layOutAll optab ps = .error f
      ∧ ((∃ q err, q ∈ ps ∧ f = .error (.atInstruction q err)
            ∧ (ins.zero.make optab q).2 = some (.error err))
        ∨ ∃ q e, q ∈ ps ∧ f = .panic e ∧ (ins.zero.make optab q).2 = some (.panic e)) := by
  induction ps with
  | nil => cases hy
  | cons x rest ih =>
    unfold layOutAll
    cases hm : ins.zero.make optab x with
    | mk c r =>
      cases r with
      | some f =>
        cases f with
        | error err =>
          exact ⟨_, rfl, Or.inl ⟨x, err, List.mem_cons_self _ _, rfl, by rw [hm]⟩⟩
        | panic e =>
          exact ⟨_, rfl, Or.inr ⟨x, e, List.mem_cons_self _ _, rfl, by rw [hm]⟩⟩
      | none =>
        dsimp only
        rcases List.mem_cons.mp hy with h | h
        · subst h
          have : (ins.zero.make optab y).2 ≠ none := by
            unfold ins.make
            rw [if_neg hop, hkey]
            exact fun c => by cases c
          rw [hm] at this
          exact absurd rfl this
        · obtain ⟨f, hf, hc⟩ := ih h
          rw [hf]
          refine ⟨f, rfl, ?_⟩
          rcases hc with ⟨q, err, hq, e1, e2⟩ | ⟨q, e, hq, e1, e2⟩
          · exact Or.inl ⟨q, err, List.mem_cons_of_mem _ hq, e1, e2⟩
          · exact Or.inr ⟨q, e, List.mem_cons_of_mem _ hq, e1, e2⟩

theorem collectLabels_error (ps : List Instruction) (i : Nat) (labels : Labels) (f : Failure)
    (h : collectLabels ps i labels = .error f) : ∃ err, f = .error err := by
  induction ps generalizing i labels with
  | nil => cases h
  | cons x rest ih =>
    unfold collectLabels at h
    by_cases hop : x.Op = LABEL
    · rw [if_pos hop] at h
      cases hl : List.lookup x.From.Name labels with
      | some previous =>
        rw [hl] at h
        cases h
        exact ⟨_, rfl⟩
      | none =>
        rw [hl] at h
        exact ih _ _ h
    · rw [if_neg hop] at h
      exact ih _ _ h

/-- The third loop stops at the first instruction whose `make` returns an error. -/
theorem layOutAll_first_error (optab : Optab) (ps : List Instruction) (i : Nat)
    (y : Instruction) (err : Error) (hy : ps[i]? = some y)
    (hbefore : ∀ (j : Nat) (q : Instruction), j < i → ps[j]? = some q →
      (ins.zero.make optab q).2 = none)
    (herr : (ins.zero.make optab y).2 = some (.error err)) :
    layOutAll optab ps = .error (.error (.atInstruction y err)) := by
  induction ps generalizing i with
  | nil => simp at hy
  | cons x rest ih =>
    unfold layOutAll
    cases i with
    | zero =>
      simp only [List.getElem?_cons_zero, Option.some.injEq] at hy
      subst hy
      cases hm : ins.zero.make optab x with
      | mk c r =>
        rw [hm] at herr
        cases herr
        rfl
    | succ n =>
      have h0 := hbefore 0 x (by omega) (by simp)
      cases hm : ins.zero.make optab x with
      | mk c r =>
        rw [hm] at h0
        cases h0
        dsimp only
        rw [ih n (by simpa using hy)
          (fun j q hj hq => hbefore (j + 1) q (by omega) (by simpa using hq))]

theorem layOut_of_layOutAll_error (optab : Optab) (p : Program) (labels : Labels)
    (f : Failure) (hl : collectLabels p 0 [] = .ok labels)
    (h : layOutAll optab (selectJumps labels p 0).1 = .error f) :
    p.layOut optab = ((selectJumps labels p 0).1, .error f) := by
  unfold Program.layOut
  rw [hl]
  dsimp only
  rw [h]

theorem patchJump_frame (optab : Optab) (labels : Labels) (p : Program) (L : List ins)
    (j : Nat) (st' : Program × List ins) (h : patchJump optab labels (p, L) j = .ok st') :
    st'.1.length = p.length
    ∧ ∀ (i : Nat) (y y' : Instruction), p[i]? = some y → st'.1[i]? = some y' →
        (i ≠ j → y' = y) ∧ SameButValue y y' := by
  obtain ⟨q, c, v, hq, _, _, _, hst⟩ := patchJump_spec optab labels p L j st' h
  subst hst
  refine ⟨by simp, ?_⟩
  intro i y y' hy hy'
  dsimp only at hy'
  by_cases hij : i = j
  · subst hij
    rw [hq] at hy
    cases hy
    have hlt : i < p.length := by
      rcases Nat.lt_or_ge i p.length with h | h
      · exact h
      · rw [List.getElem?_eq_none h] at hq; cases hq
    rw [List.getElem?_set_self hlt] at hy'
    cases hy'
    exact ⟨fun h => absurd rfl h, rfl, rfl, rfl, rfl, rfl⟩
  · rw [List.getElem?_set_ne (fun h => hij h.symm)] at hy'
    rw [hy] at hy'
    cases hy'
    exact ⟨fun _ => rfl, rfl, rfl, rfl, rfl, rfl⟩

theorem patchJumps_frame (optab : Optab) (labels : Labels) (jumps : List Nat) (p : Program)
    (L : List ins) (st' : Program × List ins)
    (h : patchJumps optab labels jumps (p, L) = .ok st') :
    st'.1.length = p.length
    ∧ ∀ (i : Nat) (y y' : Instruction), p[i]? = some y → st'.1[i]? = some y' →
        (i ∉ jumps → y' = y) ∧ SameButValue y y' := by
  induction jumps generalizing p L with
  | nil =>
    simp only [patchJumps] at h
    cases h
    refine ⟨rfl, ?_⟩
    intro i y y' hy hy'
    dsimp only at hy'
    rw [hy] at hy'
    cases hy'
    exact ⟨fun _ => rfl, rfl, rfl, rfl, rfl, rfl⟩
  | cons j js ih =>
    rw [patchJumps] at h
    cases h1 : patchJump optab labels (p, L) j with
    | error f => rw [h1] at h; cases h
    | ok st1 =>
      rw [h1] at h
      dsimp only at h
      obtain ⟨l1, f1⟩ := patchJump_frame optab labels p L j st1 h1
      obtain ⟨l2, f2⟩ := ih st1.1 st1.2 h
      refine ⟨l2.trans l1, ?_⟩
      intro i y y' hy hy'
      have hlt : i < st1.1.length := by
        rw [l1]
        rcases Nat.lt_or_ge i p.length with h | h
        · exact h
        · rw [List.getElem?_eq_none h] at hy; cases hy
      obtain ⟨y1, hy1⟩ := getElem?_of_lt st1.1 i hlt
      obtain ⟨a1, b1⟩ := f1 i y y1 hy hy1
      obtain ⟨a2, b2⟩ := f2 i y1 y' hy1 hy'
      refine ⟨?_, b2.1.trans b1.1, b2.2.1.trans b1.2.1, b2.2.2.1.trans b1.2.2.1,
        b2.2.2.2.1.trans b1.2.2.2.1, b2.2.2.2.2.trans b1.2.2.2.2⟩
      intro hmem
      rw [List.mem_cons, not_or] at hmem
      rw [a2 hmem.2, a1 hmem.1]

/-- The program `layOut` leaves: the input when the label catalog fails, else the output
of the second loop, possibly with jump payloads patched by the fifth loop. -/
theorem layOut_fst_cases (optab : Optab) (p : Program) :
    ((∃ f, collectLabels p 0 [] = .error f) ∧ (p.layOut optab).1 = p)
    ∨ ∃ labels, collectLabels p 0 [] = .ok labels
        ∧ ((p.layOut optab).1 = (selectJumps labels p 0).1
          ∨ ∃ L st, patchJumps optab labels (selectJumps labels p 0).2
                ((selectJumps labels p 0).1, L) = .ok st
              ∧ (p.layOut optab).1 = st.1) := by
  unfold Program.layOut
  cases hl : collectLabels p 0 [] with
  | error f => exact Or.inl ⟨⟨f, rfl⟩, rfl⟩
  | ok labels =>
    refine Or.inr ⟨labels, rfl, ?_⟩
    dsimp only
    cases h1 : layOutAll optab (selectJumps labels p 0).1 with
    | error f => exact Or.inl rfl
    | ok L0 =>
      dsimp only
      cases h2 : assignOffsets L0 0 with
      | error f => exact Or.inl rfl
      | ok L1 =>
        dsimp only
        cases h3 : patchJumps optab labels (selectJumps labels p 0).2
            ((selectJumps labels p 0).1, L1) with
        | error f => exact Or.inl rfl
        | ok st => exact Or.inr ⟨L1, st, h3, rfl⟩

/-- What `layOut` does to the program, whether it succeeds or fails. -/
theorem layOut_frame (optab : Optab) (p : Program) :
    (p.layOut optab).1.length = p.length
    ∧ (∀ (i : Nat) (x y : Instruction), p[i]? = some x → (p.layOut optab).1[i]? = some y →
        y.Op = x.Op ∧ y.From = x.From ∧ y.To.Name = x.To.Name ∧ y.To.Disp = x.To.Disp
        ∧ (x.To.Typ ≠ Label → y.To = x.To)
        ∧ (x.To.Typ = Label → (labelNames p).Nodup →
            y.To.Typ = Rel8 ∨ y.To.Typ = Rel16 ∨ y.To.Typ = Rel32))
    ∧ (¬ (labelNames p).Nodup → (p.layOut optab).1 = p) := by
  rcases layOut_fst_cases optab p with ⟨⟨f, hf⟩, he⟩ | ⟨labels, hl, hc⟩
  · have hnd : ¬ (labelNames p).Nodup := by
      intro hn
      obtain ⟨r, hr⟩ := collectLabels_succeeds p 0 [] hn (fun n _ => rfl)
      rw [hr] at hf
      cases hf
    rw [he]
    refine ⟨rfl, ?_, fun _ => rfl⟩
    intro i x y hx hy
    rw [hx] at hy
    cases hy
    exact ⟨rfl, rfl, rfl, rfl, fun _ => rfl, fun _ hn => absurd hn hnd⟩
  · have hnd : (labelNames p).Nodup := by
      by_contra hn
      obtain ⟨j, name, previous, hr⟩ := collectLabels_fails p 0 [] (Or.inl hn)
      rw [hr] at hl
      cases hl
    have sel : ∀ (i : Nat) (x : Instruction), p[i]? = some x →
        (selectJumps labels p 0).1[i]? = some (selectJump labels i x) := by
      intro i x hx
      rw [selectJumps_getElem, hx, Nat.zero_add]
      rfl
    rcases hc with he | ⟨L, st, hst, he⟩
    · rw [he]
      refine ⟨selectJumps_length labels p 0, ?_, fun hn => absurd hnd hn⟩
      intro i x y hx hy
      rw [sel i x hx] at hy
      cases hy
      have h := selectJump_frame labels i x
      exact ⟨h.1, h.2.1, h.2.2.1, h.2.2.2.1, fun hne => by rw [h.2.2.2.2.1 hne],
        fun hlab _ => h.2.2.2.2.2 hlab⟩
    · rw [he]
      obtain ⟨hlen, hfr⟩ := patchJumps_frame optab labels _ _ L st hst
      refine ⟨hlen.trans (selectJumps_length labels p 0), ?_, fun hn => absurd hnd hn⟩
      intro i x y hx hy
      obtain ⟨a, b⟩ := hfr i (selectJump labels i x) y (sel i x hx) hy
      have h := selectJump_frame labels i x
      refine ⟨b.1.trans h.1, b.2.1.trans h.2.1, b.2.2.2.1.trans h.2.2.1,
        b.2.2.2.2.trans h.2.2.2.1, ?_, ?_⟩
      · intro hne
        have hnot : i ∉ (selectJumps labels p 0).2 := by
          intro hmem
          obtain ⟨_, x', hx', hlab⟩ := selectJumps_jumps labels p 0 i hmem
          rw [Nat.sub_zero, hx] at hx'
          cases hx'
          exact hne hlab
        rw [a hnot, h.2.2.2.2.1 hne]
      · intro hlab _
        rw [b.2.2.1]
        exact h.2.2.2.2.2 hlab

theorem andThen_rel (R : ins → ins → Prop) {r r' : ins × Option Failure}
    {k k' : ins → ins × Option Failure} (h2 : r.2 = r'.2) (hs : R r.1 r'.1)
    (hk : ∀ c d, R c d → (k c).2 = (k' d).2 ∧ R (k c).1 (k' d).1) :
    (andThen r k).2 = (andThen r' k').2 ∧ R (andThen r k).1 (andThen r' k').1 := by
  cases h : r'.2 with
  | none =>
    rw [andThen_none (h2.trans h), andThen_none h]
    exact hk _ _ hs
  | some f =>
    rw [andThen_some (h2.trans h), andThen_some h]
    exact ⟨rfl, hs⟩

theorem indirectRm_sim2 (s c d : ins) (r : Addr) (h : Sim2 s c d) :
    Sim2 s (c.indirectRm r).1 (d.indirectRm r).1 := by
  obtain ⟨h1, h2, h3, h4, h5, h6, h7, h8⟩ := h
  unfold ins.indirectRm
  split
  · split_ifs <;> unfold Sim2 <;> dsimp only <;>
      refine ⟨?_, ?_, ?_, ?_, ?_, ?_, ?_, ?_⟩ <;> first | assumption | exact Or.inl rfl
  · exact ⟨h1, h2, h3, h4, h5, h6, h7, h8⟩

theorem indirectDisp_sim2 (s c d : ins) (r : Addr) (h : Sim2 s c d) :
    Sim2 s (c.indirectDisp r).1 (d.indirectDisp r).1 := by
  obtain ⟨h1, h2, h3, h4, h5, h6, h7, h8⟩ := h
  unfold ins.indirectDisp
  split_ifs <;> unfold Sim2 <;> dsimp only <;>
    refine ⟨?_, ?_, ?_, ?_, ?_, ?_, ?_, ?_⟩ <;> first | assumption | exact Or.inl rfl

theorem directAddress_sim2 (s c d : ins) (r : Addr) (h : Sim2 s c d) :
    Sim2 s (c.directAddress r).1 (d.directAddress r).1 := by
  obtain ⟨h1, h2, h3, h4, h5, h6, h7, h8⟩ := h
  unfold ins.directAddress
  split
  · split_ifs <;> unfold Sim2 <;> dsimp only <;>
      refine ⟨?_, ?_, ?_, ?_, ?_, ?_, ?_, ?_⟩ <;> first | assumption | exact Or.inl rfl
  · unfold Sim2; dsimp only
    refine ⟨?_, ?_, ?_, ?_, ?_, ?_, ?_, ?_⟩ <;> first | assumption | exact Or.inl rfl

theorem makeModReg_sim2 (s c d : ins) (bits : modBits) (r : Addr) (h : Sim2 s c d) :
    Sim2 s (c.makeModReg bits r).1 (d.makeModReg bits r).1 := by
  obtain ⟨h1, h2, h3, h4, h5, h6, h7, h8⟩ := h
  unfold ins.makeModReg
  split
  · split
    · split_ifs <;> unfold Sim2 <;> dsimp only <;>
        refine ⟨?_, ?_, ?_, ?_, ?_, ?_, ?_, ?_⟩ <;> first | assumption | exact Or.inl rfl
    · exact ⟨h1, h2, h3, h4, h5, h6, h7, h8⟩
  · exact ⟨h1, h2, h3, h4, h5, h6, h7, h8⟩
  · unfold Sim2; dsimp only
    refine ⟨?_, ?_, ?_, ?_, ?_, ?_, ?_, ?_⟩ <;> first | assumption | exact Or.inl rfl

theorem makeImm_sim2 (s c d : ins) (r r' : Addr) (h : Sim2 s c d) :
    Sim2 s (c.makeImm r').1 (d.makeImm r).1 := by
  have key : ∀ (x : ins) (a : Addr),
      (x.makeImm a).1.c2 = x.c2 ∧ (x.makeImm a).1.modRMmod = x.modRMmod
      ∧ (x.makeImm a).1.modRMreg = x.modRMreg ∧ (x.makeImm a).1.modRMrm = x.modRMrm
      ∧ (x.makeImm a).1.sibScale = x.sibScale ∧ (x.makeImm a).1.sibIndex = x.sibIndex
      ∧ (x.makeImm a).1.sibBase = x.sibBase ∧ (x.makeImm a).1.disp = x.disp := by
    intro x a
    unfold ins.makeImm
    split_ifs <;> (try split) <;> exact ⟨rfl, rfl, rfl, rfl, rfl, rfl, rfl, rfl⟩
  obtain ⟨c1, c2, c3, c4, c5, c6, c7, c8⟩ := key c r'
  obtain ⟨d1, d2, d3, d4, d5, d6, d7, d8⟩ := key d r
  unfold Sim2
  rw [c1, c2, c3, c4, c5, c6, c7, c8, d1, d2, d3, d4, d5, d6, d7, d8]
  exact h

theorem addRegToOp_sim2 (s c d : ins) (h : Sim2 s c d) :
    Sim2 s (c.addRegToOp).1 (d.addRegToOp).1 := by
  have key : ∀ x : ins,
      (x.addRegToOp).1.c2 = x.c2 ∧ (x.addRegToOp).1.modRMmod = x.modRMmod
      ∧ (x.addRegToOp).1.modRMreg = x.modRMreg ∧ (x.addRegToOp).1.modRMrm = x.modRMrm
      ∧ (x.addRegToOp).1.sibScale = x.sibScale ∧ (x.addRegToOp).1.sibIndex = x.sibIndex
      ∧ (x.addRegToOp).1.sibBase = x.sibBase ∧ (x.addRegToOp).1.disp = x.disp := by
    intro x
    unfold ins.addRegToOp
    split
    · exact ⟨rfl, rfl, rfl, rfl, rfl, rfl, rfl, rfl⟩
    · dsimp only
      split
      · split_ifs <;> exact ⟨rfl, rfl, rfl, rfl, rfl, rfl, rfl, rfl⟩
      · exact ⟨rfl, rfl, rfl, rfl, rfl, rfl, rfl, rfl⟩
  obtain ⟨c1, c2, c3, c4, c5, c6, c7, c8⟩ := key c
  obtain ⟨d1, d2, d3, d4, d5, d6, d7, d8⟩ := key d
  unfold Sim2
  rw [c1, c2, c3, c4, c5, c6, c7, c8, d1, d2, d3, d4, d5, d6, d7, d8]
  exact h

theorem indirectAddress_sim2 (s c d : ins) (r r' : Addr) (hd : r'.Disp = r.Disp)
    (hv : r'.Value = r.Value) (h : Sim s c d ∧ Sim2 s c d) :
    (c.indirectAddress r').2 = (d.indirectAddress r).2
      ∧ Sim s (c.indirectAddress r').1 (d.indirectAddress r).1
      ∧ Sim2 s (c.indirectAddress r').1 (d.indirectAddress r).1 := by
  have e1 : ∀ x : ins, x.indirectDisp r' = x.indirectDisp r := by
    intro x; unfold ins.indirectDisp; rw [hd]
  have e2 : ∀ x : ins, x.indirectRm r' = x.indirectRm r := by
    intro x; unfold ins.indirectRm; rw [hv]
  unfold ins.indirectAddress
  refine andThen_rel (fun c d => Sim s c d ∧ Sim2 s c d)
    (indirectDisp_sim s c d r r' hd h.1).1
    ⟨(indirectDisp_sim s c d r r' hd h.1).2, ?_⟩ ?_
  · rw [e1 c]; exact indirectDisp_sim2 s c d r h.2
  · intro c d hcd
    refine ⟨(indirectRm_sim s c d r r' hv hcd.1).1, (indirectRm_sim s c d r r' hv hcd.1).2, ?_⟩
    rw [e2 c]; exact indirectRm_sim2 s c d r hcd.2

theorem directAddress_sim2_rel (s c d : ins) (r r' : Addr) (hr : ARel r r')
    (h : Sim2 s c d) : Sim2 s (c.directAddress r').1 (d.directAddress r).1 := by
  obtain ⟨_, _, hv | ⟨_, hs, hs'⟩⟩ := hr
  · have e : ∀ x : ins, x.directAddress r' = x.directAddress r := by
      intro x; unfold ins.directAddress; rw [hv]
    rw [e c]; exact directAddress_sim2 s c d r h
  · have e : ∀ (x : ins) (r₀ : Addr), r₀.Value.isInteger = true →
        x.directAddress r₀ = ({ x with modRMmod := 0x3 }, none) := by
      intro x r₀ h₀; unfold ins.directAddress
      split
      · rename_i reg hreg; exact absurd hreg (isInteger_not_register h₀ reg)
      · rfl
    rw [e c r' hs', e d r hs]
    obtain ⟨h1, h2, h3, h4, h5, h6, h7, h8⟩ := h
    exact ⟨h1, Or.inl rfl, h3, h4, h5, h6, h7, h8⟩

theorem makeModReg_sim2_rel (s c d : ins) (bits : modBits) (r r' : Addr) (hr : ARel r r')
    (h : Sim2 s c d) : Sim2 s (c.makeModReg bits r').1 (d.makeModReg bits r).1 := by
  obtain ⟨_, _, hv | ⟨_, hs, hs'⟩⟩ := hr
  · have e : ∀ x : ins, x.makeModReg bits r' = x.makeModReg bits r := by
      intro x; unfold ins.makeModReg; rw [hv]
    rw [e c]; exact makeModReg_sim2 s c d bits r h
  · have e : ∀ (x : ins) (r₀ r₁ : Addr), r₀.Value.isInteger = true →
        r₁.Value.isInteger = true → (x.makeModReg bits r₀) = (x.makeModReg bits r₁) := by
      intro x r₀ r₁ h₀ h₁; unfold ins.makeModReg
      split
      · split
        · rename_i reg hreg; exact absurd hreg (isInteger_not_register h₀ reg)
        · split
          · rename_i reg hreg; exact absurd hreg (isInteger_not_register h₁ reg)
          · rfl
      · rfl
      · rfl
    rw [e c r' r hs' hs]; exact makeModReg_sim2 s c d bits r h

theorem makeMod_sim2 (s c d : ins) (bits : modBits) (h : Sim s c d ∧ Sim2 s c d) :
    (c.makeMod bits).2 = (d.makeMod bits).2
      ∧ Sim s (c.makeMod bits).1 (d.makeMod bits).1
      ∧ Sim2 s (c.makeMod bits).1 (d.makeMod bits).1 := by
  have hsim := makeMod_sim s c d bits h.1
  refine ⟨hsim.1, hsim.2, ?_⟩
  obtain ⟨q, q', hq, hq', hqr⟩ := id h.1.2.2.2.2.2.2.2.2.2
  have h' : Sim s { c with modRM := true } { d with modRM := true } := by
    obtain ⟨h1, h2, h3, h4, h5, h6, h7, h8, h9, h10⟩ := h.1
    unfold Sim; dsimp only
    simp [h1, h2, h3, h4, h5, h6, h7, h8, h9, h10]
  have h2' : Sim2 s { c with modRM := true } { d with modRM := true } := h.2
  have a1 := hqr.r1
  have a2 := hqr.r2
  rw [makeMod_some c bits q' hq', makeMod_some d bits q hq, a1.1, a2.1]
  by_cases hb : bits = .modNone
  · rw [if_pos hb, if_pos hb]; exact h.2
  · rw [if_neg hb, if_neg hb]
    by_cases h1 : q.r1.Typ = Ind
    · rw [if_pos h1, if_pos h1]; exact h2'
    · rw [if_neg h1, if_neg h1]
      refine (andThen_rel (fun c d => Sim s c d ∧ Sim2 s c d)
        (makeModReg_sim s _ _ bits _ _ a1 h').1
        ⟨(makeModReg_sim s _ _ bits _ _ a1 h').2,
          makeModReg_sim2_rel s _ _ bits _ _ a1 h2'⟩ ?_).2.2
      intro c d hcd
      by_cases h2 : q.r2.Typ = Ind
      · rw [if_pos h2, if_pos h2]
        exact indirectAddress_sim2 s c d _ _ a2.2.1 (a2.value_of_ind h2) hcd
      · rw [if_neg h2, if_neg h2]
        exact ⟨(directAddress_sim s c d _ _ a2 hcd.1).1, (directAddress_sim s c d _ _ a2 hcd.1).2,
          directAddress_sim2_rel s c d _ _ a2 hcd.2⟩

theorem make_sim2 (optab : Optab) (s : ins) (q q' : Instruction) (h : QRel q q')
    (hop : q.Op ≠ LABEL) (hok : (ins.zero.make optab q).2 = none) :
    Sim2 s (s.make optab q').1 (ins.zero.make optab q).1 := by
  obtain ⟨ho, hf, ht⟩ := id h
  have hop' : q'.Op ≠ LABEL := by rw [ho]; exact hop
  unfold ins.make at hok ⊢
  rw [if_neg hop] at hok
  rw [if_neg hop, if_neg hop', ho, hf, ht.1]
  cases hk : optab ⟨q.Op, q.From.Typ, q.To.Typ⟩ with
  | none => rw [hk] at hok; cases hok
  | some v =>
    dsimp only
    have h0 : Sim s { s with insn := some q', c0 := v.c0, c1 := v.c1, c2 := v.c2 }
        { ins.zero with insn := some q, c0 := v.c0, c1 := v.c1, c2 := v.c2 } := by
      unfold Sim; dsimp only
      refine ⟨rfl, rfl, ?_, rfl, rfl, ?_, ?_, ?_, ?_, q, q', rfl, rfl, h⟩ <;> simp [ins.zero]
    have h02 : Sim2 s { s with insn := some q', c0 := v.c0, c1 := v.c1, c2 := v.c2 }
        { ins.zero with insn := some q, c0 := v.c0, c1 := v.c1, c2 := v.c2 } :=
      ⟨Or.inl rfl, Or.inr ⟨rfl, rfl⟩, Or.inr ⟨rfl, rfl⟩, Or.inr ⟨rfl, rfl⟩,
        Or.inr ⟨rfl, rfl⟩, Or.inr ⟨rfl, rfl⟩, Or.inr ⟨rfl, rfl⟩, Or.inr ⟨rfl, rfl⟩⟩
    refine (andThen_rel (fun c d => Sim s c d ∧ Sim2 s c d) ?_ ?_ ?_).2.2
    · by_cases ha : v.addReg = true
      · rw [if_pos ha, if_pos ha]; exact (addRegToOp_sim s _ _ h0).1
      · rw [if_neg ha, if_neg ha]
    · by_cases ha : v.addReg = true
      · rw [if_pos ha, if_pos ha]
        exact ⟨(addRegToOp_sim s _ _ h0).2, addRegToOp_sim2 s _ _ h02⟩
      · rw [if_neg ha, if_neg ha]; exact ⟨h0, h02⟩
    · intro c d hcd
      have hrex : Sim s (if v.rex = true then { c with rex := c.rex ||| rexW } else c)
          (if v.rex = true then { d with rex := d.rex ||| rexW } else d)
          ∧ Sim2 s (if v.rex = true then { c with rex := c.rex ||| rexW } else c)
          (if v.rex = true then { d with rex := d.rex ||| rexW } else d) := by
        by_cases hr : v.rex = true
        · rw [if_pos hr, if_pos hr]
          refine ⟨?_, hcd.2⟩
          obtain ⟨h1, h2, h3, h4, h5, h6, h7, h8, h9, h10⟩ := hcd.1
          unfold Sim; dsimp only
          simp [h1, h2, h3, h4, h5, h6, h7, h8, h9, h10, Nat.lor_assoc]
        · rw [if_neg hr, if_neg hr]; exact hcd
      refine andThen_rel (fun c d => Sim s c d ∧ Sim2 s c d)
        (makeMod_sim2 s _ _ v.mod hrex).1 (makeMod_sim2 s _ _ v.mod hrex).2 ?_
      intro c d hcd
      refine andThen_rel (fun c d => Sim s c d ∧ Sim2 s c d)
        (makeImm_sim s c d _ _ (ARel.refl _) hcd.1).1
        ⟨(makeImm_sim s c d _ _ (ARel.refl _) hcd.1).2, makeImm_sim2 s c d _ _ hcd.2⟩ ?_
      intro c d hcd
      exact ⟨(makeImm_sim s c d _ _ ht hcd.1).1, (makeImm_sim s c d _ _ ht hcd.1).2,
        makeImm_sim2 s c d _ _ hcd.2⟩

theorem ins_ext {c d : ins} (h1 : c.insn = d.insn) (h2 : c.codeblock = d.codeblock)
    (h3 : c.codeblockEnd = d.codeblockEnd) (h4 : c.rex = d.rex) (h5 : c.c0 = d.c0)
    (h6 : c.c1 = d.c1) (h7 : c.c2 = d.c2) (h8 : c.modRM = d.modRM)
    (h9 : c.modRMmod = d.modRMmod) (h10 : c.modRMreg = d.modRMreg)
    (h11 : c.modRMrm = d.modRMrm) (h12 : c.sib = d.sib) (h13 : c.sibScale = d.sibScale)
    (h14 : c.sibIndex = d.sibIndex) (h15 : c.sibBase = d.sibBase)
    (h16 : c.dispWidth = d.dispWidth) (h17 : c.disp = d.disp)
    (h18 : c.immWidth = d.immWidth) (h19 : c.imm = d.imm) : c = d := by
  cases c
  cases d
  simp_all

theorem FieldSim.eq_of_same {fs fc fd : Nat} (h : FieldSim fs fc fd) (hs : fs = fd) :
    fc = fd := by
  rcases h with h | ⟨h, _⟩
  · exact h
  · exact h.trans hs

theorem FieldSim.eq_of_zero {fc fd : Nat} (h : FieldSim 0 fc fd) : fc = fd := by
  rcases h with h | ⟨h, h0⟩
  · exact h
  · exact h.trans h0.symm

theorem makeImm_rel_imm (c c' : ins) (r : Addr)
    (hk : r.Typ = Rel8 ∨ r.Typ = Rel16 ∨ r.Typ = Rel32) (hok : (c.makeImm r).2 = none) :
    (c.makeImm r).1.imm = (c'.makeImm r).1.imm := by
  unfold ins.makeImm at hok ⊢
  rcases hk with hk | hk | hk
  · rw [if_pos (Or.inr hk)] at hok ⊢
    rw [if_pos (Or.inr hk)]
    cases hv : r.valueUint64 with
    | ok v => rfl
    | error e => rw [hv] at hok; cases hok
  · have n1 : ¬ (r.Typ = Imm8 ∨ r.Typ = Rel8) := by rw [hk]; decide
    rw [if_neg n1, if_pos (Or.inr hk)] at hok ⊢
    rw [if_neg n1, if_pos (Or.inr hk)]
    cases hv : r.valueUint64 with
    | ok v => rfl
    | error e => rw [hv] at hok; cases hok
  · have n1 : ¬ (r.Typ = Imm8 ∨ r.Typ = Rel8) := by rw [hk]; decide
    have n2 : ¬ (r.Typ = Imm16 ∨ r.Typ = Rel16) := by rw [hk]; decide
    rw [if_neg n1, if_neg n2, if_pos (Or.inr hk)] at hok ⊢
    rw [if_neg n1, if_neg n2, if_pos (Or.inr hk)]
    cases hv : r.valueUint64 with
    | ok v => rfl
    | error e => rw [hv] at hok; cases hok

/-- The last step of a successful `make` is `makeImm` on the destination. -/
theorem make_last_step (optab : Optab) (s : ins) (p : Instruction) (hop : p.Op ≠ LABEL)
    (hok : (s.make optab p).2 = none) :
    ∃ x : ins, (s.make optab p).1 = (x.makeImm p.To).1 ∧ (x.makeImm p.To).2 = none := by
  have hmk : s.make optab p = ((s.make optab p).1, none) := Prod.ext rfl hok
  generalize (s.make optab p).1 = c at hmk ⊢
  unfold ins.make at hmk
  rw [if_neg hop] at hmk
  cases hk : optab ⟨p.Op, p.From.Typ, p.To.Typ⟩ with
  | none => rw [hk] at hmk; cases hmk
  | some v =>
    rw [hk] at hmk
    dsimp only at hmk
    obtain ⟨_, hmk⟩ := andThen_eq_none hmk
    obtain ⟨_, hmk⟩ := andThen_eq_none hmk
    obtain ⟨_, hmk⟩ := andThen_eq_none hmk
    exact ⟨_, by rw [hmk], by rw [hmk]⟩

/-- Encoding again, on a record that holds the encoding of `q` up to the offsets, the
instruction `q` with another integer in its relative destination gives the record a
fresh encoding of the changed instruction gives, up to the offsets. -/
theorem remake_exact (optab : Optab) (q : Instruction) (v : Value) (c : ins)
    (hc : Exact optab q c) (ht : q.To.Typ = Rel8 ∨ q.To.Typ = Rel16 ∨ q.To.Typ = Rel32)
    (hq : q.To.Value.isInteger = true) (hv : v.isInteger = true) :
    Exact optab { q with To := { q.To with Value := v } }
      (c.make optab { q with To := { q.To with Value := v } }).1 := by
  obtain ⟨hok, a, b, rfl⟩ := hc
  have hqr : QRel q { q with To := { q.To with Value := v } } :=
    ⟨rfl, rfl, rfl, rfl, Or.inr ⟨ht, hq, hv⟩⟩
  by_cases hop : q.Op = LABEL
  · have hop' : ({ q with To := { q.To with Value := v } } : Instruction).Op = LABEL := hop
    have e1 := make_label optab
      ({ (ins.zero.make optab q).1 with codeblock := a, codeblockEnd := b } : ins) _ hop'
    have e2 := make_label optab ins.zero _ hop'
    have e3 := make_label optab ins.zero q hop
    unfold Exact
    rw [e1, e2, e3]
    exact ⟨rfl, a, b, rfl⟩
  · have hop' : ({ q with To := { q.To with Value := v } } : Instruction).Op ≠ LABEL := hop
    obtain ⟨f1, f2⟩ := fresh_shape optab q _ hqr hok
    refine ⟨f1, a, b, ?_⟩
    have s1 := make_sim optab
      ({ (ins.zero.make optab q).1 with codeblock := a, codeblockEnd := b } : ins) q _ hqr hop
    have r1 : (({ (ins.zero.make optab q).1 with codeblock := a, codeblockEnd := b } : ins).make
        optab { q with To := { q.To with Value := v } }).2 = none := s1.1.trans hok
    have sim1 := s1.2 hok
    have sim2 := make_sim2 optab
      ({ (ins.zero.make optab q).1 with codeblock := a, codeblockEnd := b } : ins) q _ hqr hop
      hok
    have z2 := make_sim2 optab ins.zero q _ hqr hop hok
    obtain ⟨sh, cb, ce⟩ := sim1.shape_of_same
      (⟨rfl, rfl, rfl, rfl, rfl, rfl, rfl, rfl⟩ :
        SameShape ({ (ins.zero.make optab q).1 with codeblock := a, codeblockEnd := b } : ins)
          (ins.zero.make optab q).1)
    obtain ⟨x, hx, hxok⟩ := make_last_step optab _ _ hop' r1
    obtain ⟨y, hy, hyok⟩ := make_last_step optab ins.zero _ hop' f1
    have himm := makeImm_rel_imm x y _ (show ({ q.To with Value := v } : Addr).Typ = Rel8
      ∨ ({ q.To with Value := v } : Addr).Typ = Rel16
      ∨ ({ q.To with Value := v } : Addr).Typ = Rel32 from ht) hxok
    obtain ⟨g1, g2, g3, g4, g5, g6, g7, g8⟩ := sim2
    obtain ⟨k1, k2, k3, k4, k5, k6, k7, k8⟩ := z2
    obtain ⟨t1, t2, t3, t4, t5, t6, t7, _⟩ := sh
    obtain ⟨u1, u2, u3, u4, u5, u6, u7, _⟩ := f2
    apply ins_ext
    · rw [make_insn, make_insn]
    · exact cb
    · exact ce
    · exact t1.trans u1.symm
    · exact t2.trans u2.symm
    · exact t3.trans u3.symm
    · exact (g1.eq_of_same rfl).trans k1.eq_of_zero.symm
    · exact t4.trans u4.symm
    · exact (g2.eq_of_same rfl).trans k2.eq_of_zero.symm
    · exact (g3.eq_of_same rfl).trans k3.eq_of_zero.symm
    · exact (g4.eq_of_same rfl).trans k4.eq_of_zero.symm
    · exact t5.trans u5.symm
    · exact (g5.eq_of_same rfl).trans k5.eq_of_zero.symm
    · exact (g6.eq_of_same rfl).trans k6.eq_of_zero.symm
    · exact (g7.eq_of_same rfl).trans k7.eq_of_zero.symm
    · exact t6.trans u6.symm
    · exact (g8.eq_of_same rfl).trans k8.eq_of_zero.symm
    · exact t7.trans u7.symm
    · rw [hx, hy]; exact himm

theorem Exact.with_offsets {optab : Optab} {q : Instruction} {c : ins} (h : Exact optab q c)
    (a b : Int) : Exact optab q ({ c with codeblock := a, codeblockEnd := b } : ins) := by
  obtain ⟨hok, a0, b0, rfl⟩ := h
  exact ⟨hok, a, b, rfl⟩

theorem Exact.emitted {optab : Optab} {q : Instruction} {c : ins} (h : Exact optab q c) :
    c.emitted = (ins.zero.make optab q).1.emitted := by
  obtain ⟨_, a, b, rfl⟩ := h
  rfl

theorem Exact.of_fresh {optab : Optab} {q : Instruction}
    (h : (ins.zero.make optab q).2 = none) : Exact optab q (ins.zero.make optab q).1 :=
  ⟨h, (ins.zero.make optab q).1.codeblock, (ins.zero.make optab q).1.codeblockEnd, rfl⟩

theorem layOutAll_exact (optab : Optab) (ps : List Instruction) (cs : List ins)
    (h : layOutAll optab ps = .ok cs) :
    ∀ (i : Nat) (q : Instruction) (c : ins),
      ps[i]? = some q → cs[i]? = some c → Exact optab q c := by
  induction ps generalizing cs with
  | nil =>
    simp only [layOutAll] at h
    cases h
    intro i q c hq
    simp at hq
  | cons x xs ih =>
    simp only [layOutAll] at h
    split at h
    · cases h
    · cases h
    · rename_i c0 hmk
      split at h
      · rename_i cs0 hrest
        cases h
        have hall := ih cs0 hrest
        intro i q c hq hc
        cases i with
        | zero =>
          simp only [List.getElem?_cons_zero, Option.some.injEq] at hq hc
          subst hq hc
          have e2 : (ins.zero.make optab x).2 = none := by rw [hmk]
          have e1 : (ins.zero.make optab x).1 = c0 := by rw [hmk]
          rw [← e1]
          exact Exact.of_fresh e2
        | succ i =>
          simp only [List.getElem?_cons_succ] at hq hc
          exact hall i q c hq hc
      · cases h

theorem patchJumps_exact (optab : Optab) (labels : Labels) (jumps : List Nat) (p : Program)
    (L : List ins) (st' : Program × List ins)
    (hs : ∀ j ∈ jumps, ∀ q : Instruction, p[j]? = some q → q.To.Value.isSigned = true)
    (hex : ∀ (i : Nat) (q : Instruction) (c : ins),
      p[i]? = some q → L[i]? = some c → Exact optab q c)
    (h : patchJumps optab labels jumps (p, L) = .ok st') :
    ∀ (i : Nat) (q : Instruction) (c : ins),
      st'.1[i]? = some q → st'.2[i]? = some c → Exact optab q c := by
  induction jumps generalizing p L with
  | nil =>
    simp only [patchJumps] at h
    cases h
    exact hex
  | cons j js ih =>
    rw [patchJumps] at h
    cases h1 : patchJump optab labels (p, L) j with
    | error f => rw [h1] at h; cases h
    | ok st1 =>
      rw [h1] at h
      dsimp only at h
      obtain ⟨q, c, v, hq, hc, ht, hsg, rfl⟩ := patchJump_spec optab labels p L j st1 h1
      have hqs : q.To.Value.isSigned = true := hs j (List.mem_cons_self _ _) q hq
      have hre := remake_exact optab q v c (hex j q c hq hc) ht
        (isInteger_of_isSigned hqs) (isInteger_of_isSigned hsg)
      have hs1 : ∀ j' ∈ js, ∀ q' : Instruction,
          (p.set j { q with To := { q.To with Value := v } })[j']? = some q' →
            q'.To.Value.isSigned = true := by
        intro j' hj' q' hq'
        rw [List.getElem?_set] at hq'
        split_ifs at hq' with e1 e2
        · cases hq'; exact hsg
        · exact hs j' (List.mem_cons_of_mem _ hj') q' hq'
      have hex1 : ∀ (i : Nat) (q' : Instruction) (c' : ins),
          (p.set j { q with To := { q.To with Value := v } })[i]? = some q' →
          (L.set j (c.make optab { q with To := { q.To with Value := v } }).1)[i]? = some c' →
            Exact optab q' c' := by
        intro i q' c' hq' hc'
        rw [List.getElem?_set] at hq' hc'
        by_cases e : j = i
        · rw [if_pos e] at hq' hc'
          split_ifs at hq'
          split_ifs at hc'
          cases hq'; cases hc'
          exact hre
        · rw [if_neg e] at hq' hc'
          exact hex i q' c' hq' hc'
      exact ih _ _ hs1 hex1 h

/-- Every record of a successful layout is the fresh encoding of the instruction the
program holds at its index after the call, up to the offsets. -/
theorem layOut_exact (optab : Optab) (p p' : Program) (laidOut : List ins)
    (h : p.layOut optab = (p', .ok laidOut)) :
    ∀ (i : Nat) (q : Instruction) (c : ins),
      p'[i]? = some q → laidOut[i]? = some c → Exact optab q c := by
  unfold Program.layOut at h
  cases hl : collectLabels p 0 [] with
  | error f => rw [hl] at h; cases h
  | ok labels =>
    rw [hl] at h
    dsimp only at h
    cases h0 : layOutAll optab (selectJumps labels p 0).1 with
    | error f => rw [h0] at h; cases h
    | ok L0 =>
      rw [h0] at h
      dsimp only at h
      cases h1 : assignOffsets L0 0 with
      | error f => rw [h1] at h; cases h
      | ok L1 =>
        rw [h1] at h
        dsimp only at h
        cases h2 : patchJumps optab labels (selectJumps labels p 0).2
            ((selectJumps labels p 0).1, L1) with
        | error f => rw [h2] at h; cases h
        | ok st =>
          rw [h2] at h
          simp only [Prod.mk.injEq, Except.ok.injEq] at h
          obtain ⟨hp', hL⟩ := h
          have ex0 := layOutAll_exact optab _ L0 h0
          obtain ⟨-, off1⟩ := assignOffsets_spec L0 0 L1 h1
          have ex1 : ∀ (i : Nat) (q : Instruction) (c : ins),
              (selectJumps labels p 0).1[i]? = some q → L1[i]? = some c → Exact optab q c := by
            intro i q c hq hc
            obtain ⟨c0, hc0, e⟩ := off1 i c hc
            rw [e]
            exact (ex0 i q c0 hq hc0).with_offsets _ _
          have hs : ∀ j ∈ (selectJumps labels p 0).2, ∀ q : Instruction,
              (selectJumps labels p 0).1[j]? = some q → q.To.Value.isSigned = true := by
            intro j hj q hq
            exact (selectJumps_signed labels p 0 j hj).2 q (by simpa using hq)
          have := patchJumps_exact optab labels _ _ _ st hs ex1 h2
          rw [hp', hL] at this
          exact this

theorem collectLabels_congr (ps ps' : List Instruction) (i : Nat) (labels : Labels)
    (h : ps'.map Instruction.labelKey = ps.map Instruction.labelKey) :
    collectLabels ps' i labels = collectLabels ps i labels := by
  induction ps generalizing ps' i labels with
  | nil =>
    cases ps' with
    | nil => rfl
    | cons y ys => simp at h
  | cons x xs ih =>
    cases ps' with
    | nil => simp at h
    | cons y ys =>
      simp only [List.map_cons, List.cons.injEq, Instruction.labelKey, Prod.mk.injEq] at h
      obtain ⟨⟨ho, hn⟩, hrest⟩ := h
      unfold collectLabels
      rw [ho, hn]
      by_cases hop : x.Op = LABEL
      · rw [if_pos hop, if_pos hop]
        cases List.lookup x.From.Name labels with
        | some previous => rfl
        | none => exact ih ys _ _ hrest
      · rw [if_neg hop, if_neg hop]
        exact ih ys _ _ hrest

theorem selectJumps_noLabel (labels : Labels) (ps : List Instruction) (k : Nat)
    (h : ∀ x ∈ ps, x.To.Typ ≠ Label) : selectJumps labels ps k = (ps, []) := by
  induction ps generalizing k with
  | nil => rfl
  | cons x rest ih =>
    have hx := h x (List.mem_cons_self _ _)
    have e : selectJump labels k x = x := (selectJump_frame labels k x).2.2.2.2.1 hx
    simp only [selectJumps]
    rw [ih (k + 1) (fun y hy => h y (List.mem_cons_of_mem _ hy)), e, if_neg hx]

theorem layOutAll_ok (optab : Optab) (ps : List Instruction)
    (h : ∀ x ∈ ps, (ins.zero.make optab x).2 = none) :
    layOutAll optab ps = .ok (ps.map fun x => (ins.zero.make optab x).1) := by
  induction ps with
  | nil => rfl
  | cons x rest ih =>
    have hx := h x (List.mem_cons_self _ _)
    unfold layOutAll
    cases hm : ins.zero.make optab x with
    | mk c r =>
      rw [hm] at hx
      cases hx
      dsimp only
      rw [ih (fun y hy => h y (List.mem_cons_of_mem _ hy))]
      simp [hm]

theorem assignOffsets_ok (cs : List ins) (k : Int)
    (h : ∀ c ∈ cs, c.wellFormed ∧ ∃ q, c.insn = some q) :
    ∃ cs', assignOffsets cs k = .ok cs' := by
  induction cs generalizing k with
  | nil => exact ⟨[], rfl⟩
  | cons c rest ih =>
    obtain ⟨hw, q, hq⟩ := h c (List.mem_cons_self _ _)
    rw [assignOffsets_cons]
    rw [(writeTo_emitted c q [] hw hq).2]
    obtain ⟨cs', hcs⟩ := ih (k + c.emitted.length)
      (fun y hy => h y (List.mem_cons_of_mem _ hy))
    simp only [panicOf]
    rw [hcs]
    exact ⟨_, rfl⟩

theorem Bytes_of_layOut_ok (optab : Optab) (p p' : Program) (L : List ins)
    (h : p.layOut optab = (p', .ok L)) :
    p.Bytes optab = (p', .ok (L.map ins.emitted).flatten) := by
  obtain ⟨hlen, enc, -⟩ := layOut_spec optab p p' L h
  have hall : ∀ c ∈ L, c.wellFormed ∧ ∃ q, c.insn = some q := by
    intro c hc
    obtain ⟨i, hi, rfl⟩ := List.getElem_of_mem hc
    have e : L[i]? = some L[i] := List.getElem?_eq_getElem hi
    obtain ⟨q, e'⟩ := getElem?_of_lt p' i (by omega)
    obtain ⟨w, hq, -, -⟩ := enc i _ _ e' e
    exact ⟨w, _, hq⟩
  obtain ⟨w1, w2⟩ := writeAll_buffer L [] 0 hall
  unfold Program.Bytes Program.WriteTo
  rw [h]
  dsimp only
  generalize writeAll bufferWriter L [] 0 = r at w1 w2
  obtain ⟨buf, n, f⟩ := r
  dsimp only at w1 w2
  subst w2
  rw [w1]
  simp

theorem Bytes_fst (optab : Optab) (p : Program) :
    (p.Bytes optab).1 = (p.layOut optab).1 := by
  unfold Program.Bytes Program.WriteTo
  cases h : p.layOut optab with
  | mk p' r =>
    cases r with
    | error f => rfl
    | ok L =>
      dsimp only
      generalize writeAll bufferWriter L [] 0 = r
      obtain ⟨buf, n, f⟩ := r
      cases f <;> rfl

theorem PrintText_fst (optab : Optab) (p : Program) :
    (p.PrintText optab).1 = (p.layOut optab).1 := by
  unfold Program.PrintText
  cases h : p.layOut optab with
  | mk p' r =>
    cases r with
    | error f => rfl
    | ok L =>
      dsimp only
      cases printLines p' L 0 <;> rfl

theorem layOut_of_Bytes_ok (optab : Optab) (p : Program) (b : List Nat)
    (h : (p.Bytes optab).2 = .ok b) :
    ∃ L, p.layOut optab = ((p.layOut optab).1, .ok L) ∧ b = (L.map ins.emitted).flatten := by
  cases hl : p.layOut optab with
  | mk p' r =>
    cases r with
    | error f =>
      rw [Bytes_of_layOut_error optab p p' f hl] at h
      cases h
    | ok L =>
      rw [Bytes_of_layOut_ok optab p p' L hl] at h
      cases h
      exact ⟨L, rfl, rfl⟩

/-- Layout of the program a successful layout has left succeeds and leaves it as it
is. -/
theorem layOut_again (optab : Optab) (p p1 : Program) (L1 : List ins)
    (h : p.layOut optab = (p1, .ok L1)) : ∃ L2, p1.layOut optab = (p1, .ok L2) := by
  obtain ⟨hlen, hfr, -⟩ := layOut_frame optab p
  rw [h] at hlen hfr
  dsimp only at hlen hfr
  have hnd : (labelNames p).Nodup := by
    by_contra hn
    obtain ⟨j, name, previous, hr⟩ := collectLabels_fails p 0 [] (Or.inl hn)
    rw [layOut_of_collect_error optab p _ hr] at h
    cases h
  obtain ⟨labels, hl⟩ := collectLabels_succeeds p 0 [] hnd (fun n _ => rfl)
  have hmap : p1.map Instruction.labelKey = p.map Instruction.labelKey := by
    apply List.ext_getElem?
    intro i
    rw [List.getElem?_map, List.getElem?_map]
    by_cases hi : i < p.length
    · obtain ⟨x, hx⟩ := getElem?_of_lt p i hi
      obtain ⟨y, hy⟩ := getElem?_of_lt p1 i (by omega)
      obtain ⟨ho, hf, -⟩ := hfr i x y hx hy
      rw [hx, hy]
      simp only [Option.map_some', Instruction.labelKey, ho, hf]
    · rw [List.getElem?_eq_none (by omega), List.getElem?_eq_none (by omega)]
  have hl1 : collectLabels p1 0 [] = .ok labels := by
    rw [collectLabels_congr p p1 0 [] hmap, hl]
  have hno : ∀ y ∈ p1, y.To.Typ ≠ Label := by
    intro y hy
    obtain ⟨i, hi, rfl⟩ := List.getElem_of_mem hy
    have e : p1[i]? = some p1[i] := List.getElem?_eq_getElem hi
    obtain ⟨x, hx⟩ := getElem?_of_lt p i (by omega)
    obtain ⟨-, -, -, -, hne, hlab⟩ := hfr i x _ hx e
    by_cases hxl : x.To.Typ = Label
    · rcases hlab hxl hnd with h8 | h16 | h32
      · rw [h8]; decide
      · rw [h16]; decide
      · rw [h32]; decide
    · rw [hne hxl]; exact hxl
  obtain ⟨hlenL, -, -⟩ := layOut_spec optab p p1 L1 h
  have hex := layOut_exact optab p p1 L1 h
  have hok : ∀ y ∈ p1, (ins.zero.make optab y).2 = none := by
    intro y hy
    obtain ⟨i, hi, rfl⟩ := List.getElem_of_mem hy
    have e : p1[i]? = some p1[i] := List.getElem?_eq_getElem hi
    obtain ⟨c, hc⟩ := getElem?_of_lt L1 i (by omega)
    exact (hex i _ c e hc).1
  have hall := layOutAll_ok optab p1 hok
  obtain ⟨L2, hL2⟩ := assignOffsets_ok (p1.map fun x => (ins.zero.make optab x).1) 0 (by
    intro c hc
    obtain ⟨y, -, rfl⟩ := List.mem_map.mp hc
    exact ⟨make_wellFormed optab _ y ins.zero_wellFormed, y, make_insn optab _ y⟩)
  refine ⟨L2, ?_⟩
  unfold Program.layOut
  rw [hl1]
  dsimp only
  rw [selectJumps_noLabel labels p1 0 hno]
  dsimp only
  rw [hall]
  dsimp only
  rw [hL2]
  rfl

/-- Two successful layouts that leave the same program emit the same bytes. -/
theorem emitted_of_exact (optab : Optab) (p1 : Program) (L1 L2 : List ins)
    (h1 : L1.length = p1.length) (h2 : L2.length = p1.length)
    (e1 : ∀ (i : Nat) (q : Instruction) (c : ins),
      p1[i]? = some q → L1[i]? = some c → Exact optab q c)
    (e2 : ∀ (i : Nat) (q : Instruction) (c : ins),
      p1[i]? = some q → L2[i]? = some c → Exact optab q c) :
    L2.map ins.emitted = L1.map ins.emitted := by
  apply List.ext_getElem?
  intro i
  rw [List.getElem?_map, List.getElem?_map]
  by_cases hi : i < p1.length
  · obtain ⟨q, hq⟩ := getElem?_of_lt p1 i hi
    obtain ⟨c1, hc1⟩ := getElem?_of_lt L1 i (by omega)
    obtain ⟨c2, hc2⟩ := getElem?_of_lt L2 i (by omega)
    rw [hc1, hc2]
    simp only [Option.map_some', Option.some.injEq]
    rw [(e1 i q c1 hq hc1).emitted, (e2 i q c2 hq hc2).emitted]
  · rw [List.getElem?_eq_none (by omega), List.getElem?_eq_none (by omega)]

theorem Bytes_again (optab : Optab) (p : Program) (b : List Nat)
    (h : (p.Bytes optab).2 = .ok b) :
    (p.layOut optab).1.Bytes optab = ((p.layOut optab).1, .ok b) := by
  obtain ⟨L1, hl1, hb⟩ := layOut_of_Bytes_ok optab p b h
  obtain ⟨L2, hl2⟩ := layOut_again optab p _ L1 hl1
  rw [Bytes_of_layOut_ok optab _ _ L2 hl2, hb]
  obtain ⟨len1, -, -⟩ := layOut_spec optab p _ L1 hl1
  obtain ⟨len2, -, -⟩ := layOut_spec optab _ _ L2 hl2
  rw [emitted_of_exact optab _ L1 L2 len1 len2 (layOut_exact optab p _ L1 hl1)
    (layOut_exact optab _ _ L2 hl2)]

/-- The steps of `make` after the add-register step, for two direct register operands
under the Default policy, on a record that has no REX bit yet. -/
theorem make_tail_default_registers (v : opVal) (op : Op) (r1 r2 : Int) (c : ins)
    (h1 : AX ≤ r1 ∧ r1 ≤ X15) (h2 : AX ≤ r2 ∧ r2 ≤ X15)
    (hc : c.insn = some ⟨op, Register.Addr r1, Register.Addr r2⟩) (hrex : c.rex = 0) :
    (andThen ((if v.rex = true then { c with rex := c.rex ||| rexW } else c).makeMod
        .modDefault) fun c =>
      andThen (c.makeImm (Register.Addr r1)) fun c => c.makeImm (Register.Addr r2))
    = ({ c with
          modRM := true, modRMmod := 0x3,
          rex := (if v.rex = true then rexW else 0)
            ||| (if (R8 ≤ r1 ∧ r1 ≤ R15) ∨ (X8 ≤ r1 ∧ r1 ≤ X15) then rexR else 0)
            ||| (if (R8 ≤ r2 ∧ r2 ≤ R15) ∨ (X8 ≤ r2 ∧ r2 ≤ X15) then rexB else 0),
          modRMreg := (r1 % 8).toNat, modRMrm := (r2 % 8).toNat }, none) := by
  by_cases hr : v.rex = true
  · rw [if_pos hr, if_pos hr,
      makeMod_default_registers ({ c with rex := c.rex ||| rexW } : ins) op r1 r2 h1 h2 hc,
      andThen_none rfl]
    dsimp only
    rw [makeImm_of_register, andThen_none rfl, makeImm_of_register, hrex]
    simp only [Nat.zero_or]
  · rw [if_neg hr, if_neg hr, makeMod_default_registers _ op r1 r2 h1 h2 hc,
      andThen_none rfl]
    dsimp only
    rw [makeImm_of_register, andThen_none rfl, makeImm_of_register, hrex]

/-- What `make` on a zero record does with two direct register operands under a Default
recipe: it fails in the add-register step, or it yields the record of the recipe with
the ModR/M fields of the two registers. -/
theorem make_default_registers (optab : Optab) (op : Op) (r1 r2 : Int) (v : opVal)
    (h1 : AX ≤ r1 ∧ r1 ≤ X15) (h2 : AX ≤ r2 ∧ r2 ≤ X15) (hop : op ≠ LABEL)
    (hkey : optab ⟨op, (Register.Addr r1).Typ, (Register.Addr r2).Typ⟩ = some v)
    (hmod : v.mod = .modDefault) :
    ((v.addReg = true
        ∧ ¬ (AX ≤ (if (Register.Addr r2).Typ = Reg then r2 else r1)
              ∧ (if (Register.Addr r2).Typ = Reg then r2 else r1) ≤ DI))
      ∧ ∃ err, (ins.zero.make optab ⟨op, Register.Addr r1, Register.Addr r2⟩).2
          = some (.error err))
    ∨ ((v.addReg = true →
          AX ≤ (if (Register.Addr r2).Typ = Reg then r2 else r1)
          ∧ (if (Register.Addr r2).Typ = Reg then r2 else r1) ≤ DI)
      ∧ ∃ c1 : Nat, ins.zero.make optab ⟨op, Register.Addr r1, Register.Addr r2⟩ =
        ({ ins.zero with
            insn := some ⟨op, Register.Addr r1, Register.Addr r2⟩,
            c0 := v.c0, c1 := c1, c2 := v.c2,
            modRM := true, modRMmod := 0x3,
            rex := (if v.rex = true then rexW else 0)
              ||| (if (R8 ≤ r1 ∧ r1 ≤ R15) ∨ (X8 ≤ r1 ∧ r1 ≤ X15) then rexR else 0)
              ||| (if (R8 ≤ r2 ∧ r2 ≤ R15) ∨ (X8 ≤ r2 ∧ r2 ≤ X15) then rexB else 0),
            modRMreg := (r1 % 8).toNat, modRMrm := (r2 % 8).toNat }, none)) := by
  have hval : (if (Register.Addr r2).Typ = Reg then Register.Addr r2
      else Register.Addr r1).Value
      = .register (if (Register.Addr r2).Typ = Reg then r2 else r1) := by
    split_ifs <;> rfl
  have hrange : AX ≤ (if (Register.Addr r2).Typ = Reg then r2 else r1)
      ∧ (if (Register.Addr r2).Typ = Reg then r2 else r1) ≤ X15 := by
    split_ifs
    · exact h2
    · exact h1
  generalize (if (Register.Addr r2).Typ = Reg then r2 else r1) = rr at hval hrange ⊢
  unfold ins.make
  rw [if_neg hop]
  dsimp only
  rw [hkey]
  dsimp only
  rw [hmod]
  by_cases hadd : v.addReg = true
  · rw [if_pos hadd, addRegToOp_some _ ⟨op, Register.Addr r1, Register.Addr r2⟩ rfl]
    dsimp only
    rw [hval]
    dsimp only
    simp only [AX, DI, R8, R15, X0, X15] at hrange ⊢
    by_cases a : 8 ≤ rr ∧ rr ≤ 15
    · rw [if_pos a, andThen_some rfl]
      exact Or.inl ⟨⟨hadd, by omega⟩, _, rfl⟩
    · rw [if_neg a]
      by_cases b : 16 ≤ rr ∧ rr ≤ 31
      · rw [if_pos b, andThen_some rfl]
        exact Or.inl ⟨⟨hadd, by omega⟩, _, rfl⟩
      · rw [if_neg b, andThen_none rfl]
        exact Or.inr ⟨fun _ => by omega,
          ⟨_, make_tail_default_registers v op r1 r2 _ h1 h2 rfl rfl⟩⟩
  · rw [if_neg hadd, andThen_none rfl]
    exact Or.inr ⟨fun h => absurd h hadd,
      ⟨_, make_tail_default_registers v op r1 r2 _ h1 h2 rfl rfl⟩⟩

/-! ## Theorems for the claims -/

/-- C1 (code defect). `layOut` picks `Rel8` for a jump whose label is fewer than 17
instructions back, and for every forward jump, and then stores `int8(val)`: on
`backwardJump` the target starts at 0 and the jump ends at 132, yet the operand is
`int8 124` and not `-132`; on `forwardJump` the target starts at 132 and the jump
ends at 2, yet the operand is `int8 (-126)` and not `130`. -/
theorem C1_short_jump_displacement_wraps :
    offsetsOf (Program.layOut scenarioOptab backwardJump).2 0 14 = some (some 0, some 132)
    ∧ (Program.layOut scenarioOptab backwardJump).1[14]?.map Instruction.To
        = some ⟨Rel8, .int8 124, 0, "loop"⟩
    ∧ offsetsOf (Program.layOut scenarioOptab forwardJump).2 14 0 = some (some 132, some 2)
    ∧ (Program.layOut scenarioOptab forwardJump).1[0]?.map Instruction.To
        = some ⟨Rel8, .int8 (-126), 0, "done"⟩ := by
  decide

/-- C2 (code defect). `ins.writeTo` adds the operand width in bits (8, 16, 32, 64) to
its count: for `PUSHQ $0x9d42` five bytes reach the sink, `Bytes` returns those five
bytes, and `WriteTo` returns the count 33. -/
theorem C2_WriteTo_count_in_bits :
    (Program.WriteTo scenarioOptab pushImm32 bufferWriter []).2
        = ([0x68, 0x42, 0x9d, 0x00, 0x00], 33, none)
    ∧ (Program.Bytes scenarioOptab pushImm32).2.toOption.map List.length = some 5 := by
  decide

/-- C3 (code defect). A jump to a label that no `LABEL` defines lays out without error:
the map read `labels[name]` yields 0, so `JHI nowhere` becomes a `Rel8` jump to the
start of instruction 0 and `Bytes` returns `77 fe`. -/
theorem C3_undefined_label_lays_out :
    (Program.layOut scenarioOptab jumpNowhere).2.toOption.map List.length = some 1
    ∧ (Program.Bytes scenarioOptab jumpNowhere).2.toOption = some [0x77, 0xfe]
    ∧ (Program.WriteTo scenarioOptab jumpNowhere bufferWriter []).2.2.2 = none := by
  decide

/-- C4. When `layOut` succeeds, `WriteTo` emits the bytes of the laid out records in
order, and for every index `i` the start offset recorded for instruction `i` is the
number of bytes emitted for instructions `0..i-1` and its end offset is that start plus
the number of bytes emitted for instruction `i`, a `LABEL` emitting none; the bytes are
those of the records after back-patching. -/
theorem C4_offsets_match_emitted_bytes (optab : Optab) (p p' : Program) (laidOut : List ins)
    (h : p.layOut optab = (p', .ok laidOut)) :
    (p.WriteTo optab bufferWriter []).2.1 = (laidOut.map ins.emitted).flatten
    ∧ (p.WriteTo optab bufferWriter []).2.2.2 = none
    ∧ ∀ (i : Nat) (c : ins), laidOut[i]? = some c →
        c.codeblock = ((((laidOut.take i).map ins.emitted).flatten.length : Nat) : Int)
        ∧ c.codeblockEnd = c.codeblock + ((c.emitted.length : Nat) : Int)
        ∧ (∀ q, c.insn = some q → q.Op = LABEL → c.emitted = []) := by
  obtain ⟨hlen, enc, off⟩ := layOut_spec optab p p' laidOut h
  have hall : ∀ c ∈ laidOut, c.wellFormed ∧ ∃ q, c.insn = some q := by
    intro c hc
    obtain ⟨i, hi, rfl⟩ := List.getElem_of_mem hc
    have e : laidOut[i]? = some laidOut[i] := List.getElem?_eq_getElem hi
    obtain ⟨q, e'⟩ := getElem?_of_lt p' i (by omega)
    obtain ⟨w, hq, -, -⟩ := enc i _ _ e' e
    exact ⟨w, _, hq⟩
  have hw : p.WriteTo optab bufferWriter [] = (p', writeAll bufferWriter laidOut [] 0) := by
    unfold Program.WriteTo
    rw [h]
  obtain ⟨w1, w2⟩ := writeAll_buffer laidOut [] 0 hall
  refine ⟨by rw [hw]; simpa using w1, by rw [hw]; exact w2, ?_⟩
  intro i c hc
  obtain ⟨o1, o2⟩ := off i c hc
  refine ⟨?_, o2, ?_⟩
  · rw [o1, List.length_flatten, List.map_take, List.map_take, List.map_map]
    rfl
  · intro q hq hop
    unfold ins.emitted
    rw [writeTo_label c q bufferWriter [] hq hop]

/-- Witness for C4: `loopProgram` lays out; the jump starts at 3 and ends at 5. -/
theorem C4_witness :
    (Program.layOut scenarioOptab loopProgram).2.toOption.map (List.map ins.codeblockEnd)
        = some [0, 3, 5]
    ∧ (Program.WriteTo scenarioOptab loopProgram bufferWriter []).2.1
        = [0x48, 0x01, 0xeb, 0x77, 0xfb] :=
  ⟨by decide,
   ((C4_offsets_match_emitted_bytes scenarioOptab loopProgram
      (Program.layOut scenarioOptab loopProgram).1
      ((Program.layOut scenarioOptab loopProgram).2.toOption.getD []) (by rfl)).1).trans
      (by decide)⟩

/-- C5. For every laid-out record, written to a `bytes.Buffer` holding `s`: if its
instruction is not a `LABEL`, the buffer afterwards holds `s` followed by, in this
order, the REX byte `0x48|rex` iff `rex != 0`, `c0` iff `c0 != 0`, `c1`, `c2` iff
`c1 == 0x0F`, the ModR/M byte iff one is present, the SIB byte iff one is present, the
displacement in little-endian at its width iff the width is non-zero, the immediate in
little-endian at its width iff the width is non-zero, and no error is returned; a
`LABEL` record writes no bytes. -/
theorem C5_writeTo_serialization (optab : Optab) (c : ins) (h : LaidOut optab c)
    (s : List Nat) :
    ∃ q, c.insn = some q
      ∧ (q.Op ≠ LABEL →
          (c.writeTo bufferWriter s).1 = s ++ c.serialized
          ∧ (c.writeTo bufferWriter s).2.2 = none)
      ∧ (q.Op = LABEL → c.writeTo bufferWriter s = (s, 0, none)) := by
  obtain ⟨w, q, hq⟩ := h.encodes
  exact ⟨q, hq, fun hop => writeTo_buffer c q s w hq hop,
    fun hop => writeTo_label c q bufferWriter s hq hop⟩

/-- Witness for C5: `MOVQ 8+(SP), BX` is written as REX `48`, opcode `8b`, ModR/M `5c`,
SIB `24`, displacement `08`. -/
theorem C5_witness :
    (ins.zero.make scenarioOptab movqSP8).1.serialized = [0x48, 0x8b, 0x5c, 0x24, 0x08]
    ∧ ∃ q, (ins.zero.make scenarioOptab movqSP8).1.insn = some q
      ∧ (q.Op ≠ LABEL →
          ((ins.zero.make scenarioOptab movqSP8).1.writeTo bufferWriter []).1
            = [] ++ (ins.zero.make scenarioOptab movqSP8).1.serialized
          ∧ ((ins.zero.make scenarioOptab movqSP8).1.writeTo bufferWriter []).2.2 = none)
      ∧ (q.Op = LABEL →
          (ins.zero.make scenarioOptab movqSP8).1.writeTo bufferWriter [] = ([], 0, none)) :=
  ⟨by decide,
   C5_writeTo_serialization scenarioOptab (ins.zero.make scenarioOptab movqSP8).1
     (Or.inl ⟨movqSP8, by rfl⟩) []⟩

/-- C6: under a recipe with the Default mod policy, with two direct register operands
(`From = r1.Addr()`, `To = r2.Addr()`, any two of the 32 registers). The step `makeMod`,
on any record pointing to the instruction, returns no error and sets mod = 11b,
reg = ordinal(r1) mod 8, rm = ordinal(r2) mod 8, ORs REX.R in iff `r1` is in `R8..R15` or
`X8..X15` and REX.B iff `r2` is, and leaves SIB and displacement alone. Whenever `make`
on a zero record returns no failure, the record has a ModR/M byte with those fields,
REX.R and REX.B set exactly in those cases, no SIB and no displacement. `make` returns
no failure when the recipe does not add the register to the opcode; when it does,
`make` returns no failure exactly when the register that step reads (the destination if
its kind is `Reg`, the source otherwise) is in `AX..DI`. -/
theorem C6_default_direct_registers (optab : Optab) (op : Op) (r1 r2 : Int) (v : opVal)
    (h1 : AX ≤ r1 ∧ r1 ≤ X15) (h2 : AX ≤ r2 ∧ r2 ≤ X15) (hop : op ≠ LABEL)
    (hkey : optab ⟨op, (Register.Addr r1).Typ, (Register.Addr r2).Typ⟩ = some v)
    (hmod : v.mod = .modDefault) :
    (∀ c : ins, c.insn = some ⟨op, Register.Addr r1, Register.Addr r2⟩ →
      (c.makeMod v.mod).2 = none
      ∧ (c.makeMod v.mod).1.modRM = true
      ∧ (c.makeMod v.mod).1.modRMmod = 0b11
      ∧ (c.makeMod v.mod).1.modRMreg = (r1 % 8).toNat
      ∧ (c.makeMod v.mod).1.modRMrm = (r2 % 8).toNat
      ∧ (c.makeMod v.mod).1.rex = c.rex
          ||| (if (R8 ≤ r1 ∧ r1 ≤ R15) ∨ (X8 ≤ r1 ∧ r1 ≤ X15) then rexR else 0)
          ||| (if (R8 ≤ r2 ∧ r2 ≤ R15) ∨ (X8 ≤ r2 ∧ r2 ≤ X15) then rexB else 0)
      ∧ (c.makeMod v.mod).1.sib = c.sib
      ∧ (c.makeMod v.mod).1.dispWidth = c.dispWidth)
    ∧ ((ins.zero.make optab ⟨op, Register.Addr r1, Register.Addr r2⟩).2 = none →
      (ins.zero.make optab ⟨op, Register.Addr r1, Register.Addr r2⟩).1.modRM = true
      ∧ (ins.zero.make optab ⟨op, Register.Addr r1, Register.Addr r2⟩).1.modRMmod = 0b11
      ∧ (ins.zero.make optab ⟨op, Register.Addr r1, Register.Addr r2⟩).1.modRMreg
          = (r1 % 8).toNat
      ∧ (ins.zero.make optab ⟨op, Register.Addr r1, Register.Addr r2⟩).1.modRMrm
          = (r2 % 8).toNat
      ∧ ((ins.zero.make optab ⟨op, Register.Addr r1, Register.Addr r2⟩).1.rex &&& rexR ≠ 0
          ↔ (R8 ≤ r1 ∧ r1 ≤ R15) ∨ (X8 ≤ r1 ∧ r1 ≤ X15))
      ∧ ((ins.zero.make optab ⟨op, Register.Addr r1, Register.Addr r2⟩).1.rex &&& rexB ≠ 0
          ↔ (R8 ≤ r2 ∧ r2 ≤ R15) ∨ (X8 ≤ r2 ∧ r2 ≤ X15))
      ∧ (ins.zero.make optab ⟨op, Register.Addr r1, Register.Addr r2⟩).1.sib = false
      ∧ (ins.zero.make optab ⟨op, Register.Addr r1, Register.Addr r2⟩).1.dispWidth = 0)
    ∧ (v.addReg = false →
      (ins.zero.make optab ⟨op, Register.Addr r1, Register.Addr r2⟩).2 = none)
    ∧ (v.addReg = true →
      ((ins.zero.make optab ⟨op, Register.Addr r1, Register.Addr r2⟩).2 = none
        ↔ AX ≤ (if (Register.Addr r2).Typ = Reg then r2 else r1)
          ∧ (if (Register.Addr r2).Typ = Reg then r2 else r1) ≤ DI)) := by
  refine ⟨?_, ?_, ?_, ?_⟩
  · intro c hc
    rw [hmod, makeMod_default_registers c op r1 r2 h1 h2 hc]
    exact ⟨rfl, rfl, rfl, rfl, rfl, rfl, rfl, rfl⟩
  · intro hok
    rcases make_default_registers optab op r1 r2 v h1 h2 hop hkey hmod with
      ⟨-, err, herr⟩ | ⟨-, c1, hmk⟩
    · rw [herr] at hok; cases hok
    · rw [hmk]
      have hb := rex_bits v.rex (decide ((R8 ≤ r1 ∧ r1 ≤ R15) ∨ (X8 ≤ r1 ∧ r1 ≤ X15)))
        (decide ((R8 ≤ r2 ∧ r2 ≤ R15) ∨ (X8 ≤ r2 ∧ r2 ≤ X15)))
      simp only [decide_eq_true_eq] at hb
      exact ⟨rfl, rfl, rfl, rfl, hb.1, hb.2.1, rfl, rfl⟩
  · intro haf
    rcases make_default_registers optab op r1 r2 v h1 h2 hop hkey hmod with
      ⟨⟨hadd, -⟩, -⟩ | ⟨-, c1, hmk⟩
    · rw [haf] at hadd; cases hadd
    · rw [hmk]
  · intro hat
    rcases make_default_registers optab op r1 r2 v h1 h2 hop hkey hmod with
      ⟨⟨-, hnot⟩, err, herr⟩ | ⟨himp, c1, hmk⟩
    · constructor
      · intro hok; rw [herr] at hok; cases hok
      · intro hr; exact absurd hr hnot
    · constructor
      · intro _; exact himp hat
      · intro _; rw [hmk]

/-- Witness for C6: `ADDQ BP,BX` gives ModR/M fields 11/101/011 (byte `eb`) and
`ADDSD X0,X1` gives 11/000/001 (byte `c1`). Under a Default recipe that also adds the
register to the opcode, `ADDQ BP,BX` has the same fields (bytes `48 04 eb`) and
`ADDQ BP,R9` fails. -/
theorem C6_witness :
    ((ins.zero.make scenarioOptab ⟨ADDQ, Register.Addr BP, Register.Addr BX⟩).2 = none
      ∧ (ins.zero.make scenarioOptab ⟨ADDQ, Register.Addr BP, Register.Addr BX⟩).1.modRMmod = 3
      ∧ (ins.zero.make scenarioOptab ⟨ADDQ, Register.Addr BP, Register.Addr BX⟩).1.modRMreg = 5
      ∧ (ins.zero.make scenarioOptab ⟨ADDQ, Register.Addr BP, Register.Addr BX⟩).1.modRMrm = 3)
    ∧ (ins.zero.make scenarioOptab ⟨ADDQ, Register.Addr BP, Register.Addr BX⟩).1.emitted
        = [0x48, 0x01, 0xeb]
    ∧ (ins.zero.make scenarioOptab ⟨ADDSD, Register.Addr X0, Register.Addr X1⟩).1.emitted
        = [0xf2, 0x0f, 0x58, 0xc1]
    ∧ ((ins.zero.make addRegDefaultOptab ⟨ADDQ, Register.Addr BP, Register.Addr BX⟩).2 = none
      ∧ (ins.zero.make addRegDefaultOptab ⟨ADDQ, Register.Addr BP, Register.Addr BX⟩).1.modRMreg
          = 5
      ∧ (ins.zero.make addRegDefaultOptab ⟨ADDQ, Register.Addr BP, Register.Addr BX⟩).1.modRMrm
          = 3)
    ∧ (ins.zero.make addRegDefaultOptab ⟨ADDQ, Register.Addr BP, Register.Addr BX⟩).1.emitted
        = [0x48, 0x04, 0xeb]
    ∧ ¬ (ins.zero.make addRegDefaultOptab ⟨ADDQ, Register.Addr BP, Register.Addr R9⟩).2
        = none :=
  ⟨have h := C6_default_direct_registers scenarioOptab ADDQ BP BX
      ⟨0, 0x01, 0, true, false, .modDefault⟩ (by decide) (by decide) (by decide) (by decide)
      rfl
   ⟨h.2.2.1 rfl, (h.2.1 (h.2.2.1 rfl)).2.1, (h.2.1 (h.2.2.1 rfl)).2.2.1,
     (h.2.1 (h.2.2.1 rfl)).2.2.2.1⟩, by decide, by decide,
   have h := C6_default_direct_registers addRegDefaultOptab ADDQ BP BX
      ⟨0, 0x01, 0, true, true, .modDefault⟩ (by decide) (by decide) (by decide) (by decide)
      rfl
   ⟨(h.2.2.2 rfl).mpr (by decide), (h.2.1 ((h.2.2.2 rfl).mpr (by decide))).2.2.1,
     (h.2.1 ((h.2.2.2 rfl).mpr (by decide))).2.2.2.1⟩, by decide,
   fun hok => absurd (((C6_default_direct_registers addRegDefaultOptab ADDQ BP R9
      ⟨0, 0x01, 0, true, true, .modDefault⟩ (by decide) (by decide) (by decide) (by decide)
      rfl).2.2.2 rfl).mp hok) (by decide)⟩

/-- C7 (code defect). For the base register `R12` the case `reg != 0x4` of
`indirectAddress` is taken before the SIB code is reached: `MOVQ 8+(R12), BX`
encodes without error with rm = 12, no SIB byte and REX.B clear, as `48 8b 5c 08`. -/
theorem C7_R12_base_gets_no_SIB :
    (ins.zero.make scenarioOptab movqR12).2 = none
    ∧ (ins.zero.make scenarioOptab movqR12).1.sib = false
    ∧ (ins.zero.make scenarioOptab movqR12).1.modRMrm = 12
    ∧ (ins.zero.make scenarioOptab movqR12).1.rex &&& rexB = 0
    ∧ (ins.zero.make scenarioOptab movqR12).1.emitted = [0x48, 0x8b, 0x5c, 0x08] := by
  decide

/-- C8. For an indirect operand `reg.Ind(d)` encoded into a record that has no
displacement yet: `d = 0` gives mod = 00 and no displacement bytes; `1 ≤ d ≤ 0xFF` gives
mod = 01 and the one displacement byte `d`; `0x100 ≤ d ≤ 0xFFFFFFFF` gives mod = 10 and
the four little-endian bytes of `d`; `d > 0xFFFFFFFF` makes the encoding return an
error. -/
theorem C8_indirect_displacement (c : ins) (reg : Int) (d : Nat) (hc : c.dispWidth = 0) :
    (d = 0 →
      (c.indirectAddress (Register.Ind reg d)).2 = none
      ∧ (c.indirectAddress (Register.Ind reg d)).1.modRMmod = 0b00
      ∧ (c.indirectAddress (Register.Ind reg d)).1.dispBytes = [])
    ∧ (1 ≤ d → d ≤ 0xFF →
      (c.indirectAddress (Register.Ind reg d)).2 = none
      ∧ (c.indirectAddress (Register.Ind reg d)).1.modRMmod = 0b01
      ∧ (c.indirectAddress (Register.Ind reg d)).1.dispBytes = [d])
    ∧ (0x100 ≤ d → d ≤ 0xFFFFFFFF →
      (c.indirectAddress (Register.Ind reg d)).2 = none
      ∧ (c.indirectAddress (Register.Ind reg d)).1.modRMmod = 0b10
      ∧ (c.indirectAddress (Register.Ind reg d)).1.dispBytes
          = [d % 256, d / 256 % 256, d / 65536 % 256, d / 16777216 % 256])
    ∧ (0xFFFFFFFF < d →
      (c.indirectAddress (Register.Ind reg d)).2 = some (.error (.dispWithSIB d))) := by
  have hd : (Register.Ind reg d).Disp = d := rfl
  refine ⟨?_, ?_, ?_, ?_⟩
  · intro h0
    have e : c.indirectDisp (Register.Ind reg d) = ({ c with modRMmod := 0 }, none) := by
      unfold ins.indirectDisp; rw [hd, if_pos h0]
    obtain ⟨a, b, w, _⟩ :=
      indirectRm_register { c with modRMmod := 0 } (Register.Ind reg d) reg rfl
    unfold ins.indirectAddress
    rw [e, andThen_none rfl]
    refine ⟨a, b, ?_⟩
    unfold ins.dispBytes
    rw [w]
    dsimp only
    rw [hc]
    rfl
  · intro h1 h2
    have e : c.indirectDisp (Register.Ind reg d)
        = ({ c with modRMmod := 0x01, dispWidth := 8, disp := d }, none) := by
      unfold ins.indirectDisp
      rw [hd, if_neg (by omega), if_pos (by omega)]
    obtain ⟨a, b, w, v⟩ :=
      indirectRm_register { c with modRMmod := 0x01, dispWidth := 8, disp := d }
        (Register.Ind reg d) reg rfl
    unfold ins.indirectAddress
    rw [e, andThen_none rfl]
    refine ⟨a, b, ?_⟩
    unfold ins.dispBytes
    rw [w, v]
    dsimp only
    rw [if_pos (by decide), writeBytes_buffer [] 8 d (Or.inl rfl)]
    have : d % 256 = d := Nat.mod_eq_of_lt (by omega)
    simp [littleEndian, this]
  · intro h1 h2
    have e : c.indirectDisp (Register.Ind reg d)
        = ({ c with modRMmod := 0x02, dispWidth := 32, disp := d }, none) := by
      unfold ins.indirectDisp
      rw [hd, if_neg (by omega), if_neg (by omega), if_pos (by omega)]
    obtain ⟨a, b, w, v⟩ :=
      indirectRm_register { c with modRMmod := 0x02, dispWidth := 32, disp := d }
        (Register.Ind reg d) reg rfl
    unfold ins.indirectAddress
    rw [e, andThen_none rfl]
    refine ⟨a, b, ?_⟩
    unfold ins.dispBytes
    rw [w, v]
    dsimp only
    rw [if_pos (by decide), writeBytes_buffer [] 32 d (Or.inr (Or.inr (Or.inl rfl)))]
    simp only [littleEndian, List.nil_append, Nat.div_div_eq_div_mul]
  · intro h
    have e : c.indirectDisp (Register.Ind reg d) = (c, some (.error (.dispWithSIB d))) := by
      unfold ins.indirectDisp
      rw [hd, if_neg (by omega), if_neg (by omega), if_neg (by omega)]
    unfold ins.indirectAddress
    rw [e, andThen_some rfl]

/-- Witness for C8: on a zero record, `8+(SP)` gives mod = 01 and the displacement
byte `08`. -/
theorem C8_witness :
    ins.zero.dispWidth = 0
    ∧ (ins.zero.indirectAddress (Register.Ind SP 8)).2 = none
    ∧ (ins.zero.indirectAddress (Register.Ind SP 8)).1.modRMmod = 0b01
    ∧ (ins.zero.indirectAddress (Register.Ind SP 8)).1.dispBytes = [8] :=
  ⟨rfl, (C8_indirect_displacement ins.zero SP 8 rfl).2.1 (by decide) (by decide)⟩

/-- C9. For a recipe that sets add-register-to-opcode, with `r` the destination if its
kind is `Reg` and the source otherwise: a register payload in `AX..DI` makes the first
opcode byte `(recipe c1 + ordinal) mod 256`; a register payload in `R8..R15` or
`X0..X15`, or a payload that is not a register, makes `make` return an error. -/
theorem C9_add_register_to_opcode (optab : Optab) (c : ins) (p : Instruction) (v : opVal)
    (hop : p.Op ≠ LABEL) (hkey : optab ⟨p.Op, p.From.Typ, p.To.Typ⟩ = some v)
    (hadd : v.addReg = true) :
    (∀ reg : Int, (if p.To.Typ = Reg then p.To else p.From).Value = .register reg →
        AX ≤ reg → reg ≤ DI → (c.make optab p).1.c1 = (v.c1 + reg.toNat) % 256)
    ∧ (∀ reg : Int, (if p.To.Typ = Reg then p.To else p.From).Value = .register reg →
        R8 ≤ reg → reg ≤ X15 →
          (c.make optab p).2 = some (.error .r8Unsupported)
          ∨ (c.make optab p).2 = some (.error .xmmUnsupported))
    ∧ ((∀ reg : Int, (if p.To.Typ = Reg then p.To else p.From).Value ≠ .register reg) →
        (c.make optab p).2 = some (.error .addressMustBeRegister)) := by
  have hmk : c.make optab p =
      andThen ({ c with insn := some p, c0 := v.c0, c1 := v.c1, c2 := v.c2 } : ins).addRegToOp
        fun c => andThen
          ((if v.rex = true then { c with rex := c.rex ||| rexW } else c).makeMod v.mod)
          fun c => andThen (c.makeImm p.From) fun c => c.makeImm p.To := by
    unfold ins.make
    rw [if_neg hop, hkey]
    dsimp only
    rw [if_pos hadd]
  rw [hmk, addRegToOp_some _ p rfl]
  refine ⟨?_, ?_, ?_⟩
  · intro reg hv h0 h7
    rw [hv]
    simp only [AX, DI, R8, R15, X0, X15] at h0 h7 ⊢
    have n1 : ¬ (8 ≤ reg ∧ reg ≤ 15) := by omega
    have n2 : ¬ (16 ≤ reg ∧ reg ≤ 31) := by omega
    rw [if_neg n1, if_neg n2, andThen_none rfl, make_tail_c1]
    have : uint8 (reg - 0) = reg.toNat := by unfold uint8; omega
    rw [this]
  · intro reg hv h8 h31
    rw [hv]
    simp only [R8, R15, X0, X15] at h8 h31 ⊢
    by_cases hr : 8 ≤ reg ∧ reg ≤ 15
    · rw [if_pos hr, andThen_some rfl]; exact Or.inl rfl
    · have hx : 16 ≤ reg ∧ reg ≤ 31 := by omega
      rw [if_neg hr, if_pos hx, andThen_some rfl]; exact Or.inr rfl
  · intro hv
    split
    · rename_i reg hreg; exact absurd hreg (hv reg)
    · rw [andThen_some rfl]

/-- Witness for C9: `PUSHQ BX` gives opcode byte `53`, `POPQ AX` gives `58`,
`MOVQ $imm64, BP` gives `bd`. -/
theorem C9_witness :
    (ins.zero.make scenarioOptab ⟨PUSHQ, Register.Addr BX, Addr.zero⟩).1.c1 = 0x53
    ∧ (ins.zero.make scenarioOptab ⟨POPQ, Addr.zero, Register.Addr AX⟩).1.c1 = 0x58
    ∧ (ins.zero.make scenarioOptab movqImm64).1.c1 = 0xbd
    ∧ (ins.zero.make scenarioOptab ⟨PUSHQ, Register.Addr R9, Addr.zero⟩).2
        = some (.error .r8Unsupported) :=
  ⟨(C9_add_register_to_opcode scenarioOptab ins.zero ⟨PUSHQ, Register.Addr BX, Addr.zero⟩
      ⟨0, 0x50, 0, false, true, .modNone⟩ (by decide) (by decide) rfl).1 BX (by decide)
      (by decide) (by decide),
   (C9_add_register_to_opcode scenarioOptab ins.zero ⟨POPQ, Addr.zero, Register.Addr AX⟩
      ⟨0, 0x58, 0, false, true, .modNone⟩ (by decide) (by decide) rfl).1 AX (by decide)
      (by decide) (by decide),
   (C9_add_register_to_opcode scenarioOptab ins.zero movqImm64
      ⟨0, 0xb8, 0, true, true, .modNone⟩ (by decide) (by decide) rfl).1 BP (by decide)
      (by decide) (by decide),
   by decide⟩

/-- C10. For an instruction that encodes without error and whose only
immediate-carrying operand is `Imm(v)` (`v` a uint8, uint32 or uint64) or `Rel(v)` (`v`
an int8 or int32): the emitted bytes end with the little-endian representation of `v`
at the width of `v` (two's complement for `Rel`), and decoding those bytes at that
width gives `v` back. -/
theorem C10_immediate_little_endian (optab : Optab) (p : Instruction) (c : ins) (a : Addr)
    (val : Value) (hmk : ins.zero.make optab p = (c, none)) (hop : p.Op ≠ LABEL)
    (ha : Imm val = .ok a ∨ Rel val = .ok a) (hr : val.inRange)
    (hpos : (p.From = a ∧ ¬ carriesImmediate p.To.Typ)
      ∨ (p.To = a ∧ ¬ carriesImmediate p.From.Typ)) :
    ∃ pre, c.emitted = pre ++ val.littleEndianRepr
      ∧ val.littleEndianRepr.length = val.width
      ∧ val.decode val.littleEndianRepr = val := by
  have hw : c.wellFormed := by
    have := make_wellFormed optab ins.zero p ins.zero_wellFormed
    rw [hmk] at this; exact this
  have hi : c.insn = some p := by
    have := make_insn optab ins.zero p
    rw [hmk] at this; exact this
  -- the two `makeImm` steps at the end of `make`
  have htail : ∃ c2 : ins, (c2.makeImm p.From).2 = none
      ∧ (c2.makeImm p.From).1.makeImm p.To = (c, none) := by
    unfold ins.make at hmk
    rw [if_neg hop] at hmk
    split at hmk
    · cases hmk
    · obtain ⟨-, hmk⟩ := andThen_eq_none hmk
      obtain ⟨-, hmk⟩ := andThen_eq_none hmk
      obtain ⟨h3, hmk⟩ := andThen_eq_none hmk
      exact ⟨_, h3, hmk⟩
  obtain ⟨c2, h3, h4⟩ := htail
  have hfields : ∃ imm : Nat, c.immWidth = 8 * (val.width : Int) ∧ c.imm = imm
      ∧ ((∃ v, val = .uint8 v ∧ imm = v) ∨ (∃ v, val = .uint32 v ∧ imm = v)
        ∨ (∃ v, val = .uint64 v ∧ imm = v) ∨ (∃ v, val = .int8 v ∧ imm = uint64 v)
        ∨ (∃ v, val = .int32 v ∧ imm = uint64 v)) := by
    rcases hpos with ⟨hf, hn⟩ | ⟨ht, hn⟩
    · obtain ⟨imm, e, hv⟩ := makeImm_constructed c2 a val ha
      rw [hf, e] at h4
      rw [makeImm_not_immediate _ _ hn] at h4
      cases h4
      exact ⟨imm, rfl, rfl, hv⟩
    · rw [makeImm_not_immediate _ _ hn] at h4
      obtain ⟨imm, e, hv⟩ := makeImm_constructed c2 a val ha
      rw [ht, e] at h4
      cases h4
      exact ⟨imm, rfl, rfl, hv⟩
  obtain ⟨imm, hwd, himm, hv⟩ := hfields
  obtain ⟨hle, hdec⟩ := littleEndian_repr val imm hr hv
  have hpos' := Value.width_pos_of_constructed a val ha
  have hne : c.immWidth ≠ 0 := by rw [hwd]; omega
  have hn : (c.immWidth / 8).toNat = val.width := by rw [hwd]; omega
  rw [emitted_eq c p hw hi, if_neg hop]
  unfold ins.serialized
  rw [if_pos hne, hn, himm, hle]
  exact ⟨_, rfl, Value.littleEndianRepr_length val, hdec⟩

/-- Witness for C10: `CALL Rel(int32(-0x113))` is emitted as `e8 ed fe ff ff`; its last
four bytes are the two's complement little-endian bytes of `-0x113`. -/
theorem C10_witness :
    (ins.zero.make scenarioOptab callRel32).1.emitted = [0xe8, 0xed, 0xfe, 0xff, 0xff]
    ∧ (Value.int32 (-0x113)).littleEndianRepr = [0xed, 0xfe, 0xff, 0xff]
    ∧ ∃ pre, (ins.zero.make scenarioOptab callRel32).1.emitted
          = pre ++ (Value.int32 (-0x113)).littleEndianRepr
        ∧ (Value.int32 (-0x113)).littleEndianRepr.length = (Value.int32 (-0x113)).width
        ∧ (Value.int32 (-0x113)).decode (Value.int32 (-0x113)).littleEndianRepr
            = Value.int32 (-0x113) :=
  ⟨by decide, by decide,
   C10_immediate_little_endian scenarioOptab callRel32
     (ins.zero.make scenarioOptab callRel32).1 ⟨Rel32, .int32 (-0x113), 0, ""⟩
     (.int32 (-0x113)) (by rfl) (by decide) (Or.inr rfl) (by decide)
     (Or.inr ⟨rfl, by decide⟩)⟩

/-- C11: an instruction with a `Rel8`, `Rel16` or `Rel32` destination carrying an integer
that encodes without failure into a fresh record can be encoded again on that record,
whatever offsets layout has stored in it meanwhile, with the payload replaced by any
other integer: the second `make` does not fail and the record emits as many bytes as
before. A fresh encoding of the changed instruction has that length too. -/
theorem C11_reencoding_keeps_length (optab : Optab) (p : Instruction) (v : Value)
    (a b : Int)
    (hk : p.To.Typ = Rel8 ∨ p.To.Typ = Rel16 ∨ p.To.Typ = Rel32)
    (hp : p.To.Value.isInteger = true) (hv : v.isInteger = true)
    (hok : (ins.zero.make optab p).2 = none) :
    (({ (ins.zero.make optab p).1 with codeblock := a, codeblockEnd := b } : ins).make optab
        { p with To := { p.To with Value := v } }).2 = none
      ∧ (({ (ins.zero.make optab p).1 with codeblock := a, codeblockEnd := b } : ins).make
          optab { p with To := { p.To with Value := v } }).1.emitted.length
        = (ins.zero.make optab p).1.emitted.length
      ∧ (ins.zero.make optab { p with To := { p.To with Value := v } }).1.emitted.length
        = (ins.zero.make optab p).1.emitted.length := by
  have hq : QRel p { p with To := { p.To with Value := v } } :=
    ⟨rfl, rfl, rfl, rfl, Or.inr ⟨hk, hp, hv⟩⟩
  have h0 : Encodes optab p (ins.zero.make optab p).1 := Encodes.of_make hok
  have h1 : Encodes optab p
      ({ (ins.zero.make optab p).1 with codeblock := a, codeblockEnd := b } : ins) :=
    ⟨h0.1, h0.2.1, hok, h0.2.2.2⟩
  obtain ⟨r1, r2, r3, _, _⟩ := h1.remake hq
  obtain ⟨f1, f2⟩ := fresh_shape optab p _ hq hok
  refine ⟨r1, ?_, ?_⟩
  · have e1 := emitted_length_shape r3 r2.1 h1.1 r2.2.1 h1.2.1
    have e2 : ({ (ins.zero.make optab p).1 with codeblock := a, codeblockEnd := b } : ins).emitted.length
        = (ins.zero.make optab p).1.emitted.length :=
      emitted_length_shape h1.2.2.2 h1.1 h0.1 h1.2.1 h0.2.1
    exact e1.trans e2
  · exact emitted_length_shape f2 (make_wellFormed optab _ _ ins.zero_wellFormed) h0.1
      (make_insn optab _ _) h0.2.1

/-- Witness for C11: the `JHI` of `i64tests` with its `int8` payload `0x40` replaced by
the `int8` payload `-3`, the record holding the offsets 30 and 32. -/
theorem C11_witness :
    (({ (ins.zero.make scenarioOptab ⟨JHI, Addr.zero, ⟨Rel8, .int8 0x40, 0, ""⟩⟩).1 with
          codeblock := 30, codeblockEnd := 32 } : ins).make scenarioOptab
        { (⟨JHI, Addr.zero, ⟨Rel8, .int8 0x40, 0, ""⟩⟩ : Instruction) with
          To := { (⟨Rel8, .int8 0x40, 0, ""⟩ : Addr) with Value := .int8 (-3) } }).2 = none
      ∧ (({ (ins.zero.make scenarioOptab ⟨JHI, Addr.zero, ⟨Rel8, .int8 0x40, 0, ""⟩⟩).1 with
          codeblock := 30, codeblockEnd := 32 } : ins).make scenarioOptab
        { (⟨JHI, Addr.zero, ⟨Rel8, .int8 0x40, 0, ""⟩⟩ : Instruction) with
          To := { (⟨Rel8, .int8 0x40, 0, ""⟩ : Addr) with Value := .int8 (-3) } }).1.emitted.length
        = (ins.zero.make scenarioOptab ⟨JHI, Addr.zero, ⟨Rel8, .int8 0x40, 0, ""⟩⟩).1.emitted.length
      ∧ (ins.zero.make scenarioOptab
          { (⟨JHI, Addr.zero, ⟨Rel8, .int8 0x40, 0, ""⟩⟩ : Instruction) with
          To := { (⟨Rel8, .int8 0x40, 0, ""⟩ : Addr) with Value := .int8 (-3) } }).1.emitted.length
        = (ins.zero.make scenarioOptab ⟨JHI, Addr.zero, ⟨Rel8, .int8 0x40, 0, ""⟩⟩).1.emitted.length :=
  C11_reencoding_keeps_length scenarioOptab ⟨JHI, Addr.zero, ⟨Rel8, .int8 0x40, 0, ""⟩⟩
    (.int8 (-3)) 30 32 (Or.inl rfl) rfl rfl (by rfl)

/-- C12: when two `LABEL` pseudo-ops of a program carry the same name in `From.Name`,
whatever the other instructions and the opcode table are, `layOut` returns the error of
the label catalog, and so do `Bytes`, `WriteTo` (count 0, sink untouched) and
`PrintText`; the program is left as it was. When the names of the `LABEL` pseudo-ops
are pairwise distinct, the label catalog loop does not fail. -/
theorem C12_duplicate_label_fails (optab : Optab) (p : Program) :
    ((∃ (xs ys zs : List Instruction) (a b : Instruction),
        p = xs ++ a :: (ys ++ b :: zs) ∧ a.Op = LABEL ∧ b.Op = LABEL
        ∧ a.From.Name = b.From.Name) →
      ∃ j name previous,
        p.layOut optab = (p, .error (.error (.labelRedefined j name previous)))
        ∧ p.Bytes optab = (p, .error (.error (.labelRedefined j name previous)))
        ∧ (∀ (σ : Type) (W : Writer σ) (w : σ),
            p.WriteTo optab W w = (p, w, 0, some (.error (.labelRedefined j name previous))))
        ∧ p.PrintText optab = (p, .error (.error (.labelRedefined j name previous))))
    ∧ ((labelNames p).Nodup → ∃ labels, collectLabels p 0 [] = .ok labels) := by
  constructor
  · rintro ⟨xs, ys, zs, a, b, hp, ha, hb, hab⟩
    have hdup : ¬ (labelNames p).Nodup := by
      rw [hp, labelNames_append, labelNames_cons, if_pos ha, labelNames_append,
        labelNames_cons, if_pos hb, hab]
      intro hn
      have h1 := (List.nodup_append.mp hn).2.1
      rw [List.nodup_cons] at h1
      exact h1.1 (List.mem_append_right _ (List.mem_cons_self _ _))
    obtain ⟨j, name, previous, hc⟩ := collectLabels_fails p 0 [] (Or.inl hdup)
    have hl := layOut_of_collect_error optab p _ hc
    exact ⟨j, name, previous, hl, Bytes_of_layOut_error optab p p _ hl,
      fun σ W w => WriteTo_of_layOut_error optab p p _ W w hl,
      PrintText_of_layOut_error optab p p _ hl⟩
  · intro hn
    exact collectLabels_succeeds p 0 [] hn (fun n _ => rfl)

/-- Witness for C12: `a:`, `a:`, `JHI a` fails with the error of the label catalog, and
the names of the labels of `loopProgram` are distinct. -/
theorem C12_witness :
    (∃ j name previous,
        duplicateLabel.layOut scenarioOptab
          = (duplicateLabel, .error (.error (.labelRedefined j name previous)))
        ∧ duplicateLabel.Bytes scenarioOptab
          = (duplicateLabel, .error (.error (.labelRedefined j name previous)))
        ∧ (∀ (σ : Type) (W : Writer σ) (w : σ),
            duplicateLabel.WriteTo scenarioOptab W w
              = (duplicateLabel, w, 0, some (.error (.labelRedefined j name previous))))
        ∧ duplicateLabel.PrintText scenarioOptab
          = (duplicateLabel, .error (.error (.labelRedefined j name previous))))
    ∧ ∃ labels, collectLabels loopProgram 0 [] = .ok labels :=
  ⟨(C12_duplicate_label_fails scenarioOptab duplicateLabel).1
      ⟨[], [], [⟨JHI, Addr.zero, LabelAddr "a"⟩], ⟨LABEL, LabelAddr "a", Addr.zero⟩,
        ⟨LABEL, LabelAddr "a", Addr.zero⟩, rfl, rfl, rfl, rfl⟩,
   (C12_duplicate_label_fails scenarioOptab loopProgram).2 (by decide)⟩

/-- C13: a program holds, at index `i`, an instruction that is no `LABEL` and whose key,
as `make` looks it up, is absent from the opcode table: the mnemonic, the kind of the
source, and the kind of the destination after the second loop of layout, which has
replaced a `Label` destination by `Rel8`, `Rel16` or `Rel32` (every other instruction
is looked up under its own key). Then `layOut` fails, `Bytes` returns that failure and
no bytes, and `WriteTo` returns the count 0 and that failure and leaves the sink as it
was, whatever sink it is. The failure is an error (of the label catalog, or naming an
instruction that `make` rejects), unless `make` panics on an instruction; it is the
error "unknown combination" for the instruction at `i` when the label catalog succeeds
and `make` returns no failure for the instructions before `i`. -/
theorem C13_absent_key_fails (optab : Optab) (p : Program) (i : Nat) (x : Instruction)
    (hx : p[i]? = some x) (hop : x.Op ≠ LABEL)
    (hkey : ∀ labels, collectLabels p 0 [] = .ok labels →
      optab ⟨x.Op, x.From.Typ, (selectJump labels i x).To.Typ⟩ = none) :
    ∃ (p' : Program) (f : Failure),
      p.layOut optab = (p', .error f)
      ∧ p.Bytes optab = (p', .error f)
      ∧ (∀ (σ : Type) (W : Writer σ) (w : σ), p.WriteTo optab W w = (p', w, 0, some f))
      ∧ ((∃ err, f = .error err)
        ∨ ∃ q e, f = .panic e ∧ (ins.zero.make optab q).2 = some (.panic e))
      ∧ (∀ labels, collectLabels p 0 [] = .ok labels →
          (∀ (j : Nat) (q : Instruction), j < i → p[j]? = some q →
            (ins.zero.make optab (selectJump labels j q)).2 = none) →
          f = .error (.atInstruction (selectJump labels i x)
                (.unknownCombination ⟨x.Op, x.From.Typ, (selectJump labels i x).To.Typ⟩))) := by
  have finish : ∀ (p' : Program) (f : Failure), p.layOut optab = (p', .error f) →
      p.Bytes optab = (p', .error f)
      ∧ (∀ (σ : Type) (W : Writer σ) (w : σ), p.WriteTo optab W w = (p', w, 0, some f)) :=
    fun p' f h => ⟨Bytes_of_layOut_error optab p p' f h,
      fun σ W w => WriteTo_of_layOut_error optab p p' f W w h⟩
  cases hl : collectLabels p 0 [] with
  | error f =>
    have h := layOut_of_collect_error optab p f hl
    exact ⟨p, f, h, (finish p f h).1, (finish p f h).2,
      Or.inl (collectLabels_error p 0 [] f hl), fun labels hc => by cases hc⟩
  | ok labels =>
    have hfr := selectJump_frame labels i x
    have hyk : optab ⟨(selectJump labels i x).Op, (selectJump labels i x).From.Typ,
        (selectJump labels i x).To.Typ⟩ = none := by
      rw [hfr.1, hfr.2.1]
      exact hkey labels hl
    have hyop : (selectJump labels i x).Op ≠ LABEL := by rw [hfr.1]; exact hop
    have hget : (selectJumps labels p 0).1[i]? = some (selectJump labels i x) := by
      rw [selectJumps_getElem, hx, Nat.zero_add]
      rfl
    obtain ⟨f, hf, hc⟩ := layOutAll_fails optab (selectJumps labels p 0).1
      (selectJump labels i x) (List.getElem?_mem hget) hyop hyk
    have h := layOut_of_layOutAll_error optab p labels f hl hf
    refine ⟨_, f, h, (finish _ f h).1, (finish _ f h).2, ?_, ?_⟩
    · rcases hc with ⟨q, err, _, e1, _⟩ | ⟨q, e, _, e1, e2⟩
      · exact Or.inl ⟨_, e1⟩
      · exact Or.inr ⟨q, e, e1, e2⟩
    · intro labels' hl' hbefore
      cases hl'
      have herr : (ins.zero.make optab (selectJump labels i x)).2
          = some (.error (.unknownCombination
              ⟨x.Op, x.From.Typ, (selectJump labels i x).To.Typ⟩)) := by
        unfold ins.make
        rw [if_neg hyop, hyk, hfr.1, hfr.2.1]
      have := layOutAll_first_error optab (selectJumps labels p 0).1 i _ _ hget
        (fun j q hj hq => by
          rw [selectJumps_getElem, Nat.zero_add] at hq
          cases hpj : p[j]? with
          | none => rw [hpj] at hq; cases hq
          | some q0 =>
            rw [hpj] at hq
            cases hq
            exact hbefore j q0 hj hpj) herr
      rw [this] at hf
      cases hf
      rfl

/-- Witness for C13: `ADDQ BP,BX` followed by a `RET` with a register source, whose key
`scenarioOptab` lacks: nothing is written, not even the three bytes of the `ADDQ`. And
`farBackwardJump`, whose jump is looked up as `(JHI, None, Rel16)`, a key
`scenarioOptab` lacks, fails too. -/
theorem C13_witness :
    absentKey.WriteTo scenarioOptab bufferWriter []
        = (absentKey, [], 0, some (.error (.atInstruction ⟨RET, Register.Addr AX, Addr.zero⟩
            (.unknownCombination ⟨RET, Reg, None⟩))))
    ∧ (∃ (p' : Program) (f : Failure),
      absentKey.layOut scenarioOptab = (p', .error f)
      ∧ absentKey.Bytes scenarioOptab = (p', .error f)
      ∧ (∀ (σ : Type) (W : Writer σ) (w : σ),
          absentKey.WriteTo scenarioOptab W w = (p', w, 0, some f))
      ∧ ((∃ err, f = .error err)
        ∨ ∃ q e, f = .panic e ∧ (ins.zero.make scenarioOptab q).2 = some (.panic e))
      ∧ (∀ labels, collectLabels absentKey 0 [] = .ok labels →
          (∀ (j : Nat) (q : Instruction), j < 1 → absentKey[j]? = some q →
            (ins.zero.make scenarioOptab (selectJump labels j q)).2 = none) →
          f = .error (.atInstruction
                (selectJump labels 1 ⟨RET, Register.Addr AX, Addr.zero⟩)
                (.unknownCombination ⟨(⟨RET, Register.Addr AX, Addr.zero⟩ : Instruction).Op,
                  (⟨RET, Register.Addr AX, Addr.zero⟩ : Instruction).From.Typ,
                  (selectJump labels 1 ⟨RET, Register.Addr AX, Addr.zero⟩).To.Typ⟩))))
    ∧ ∃ (p' : Program) (f : Failure),
      farBackwardJump.layOut scenarioOptab = (p', .error f)
      ∧ farBackwardJump.Bytes scenarioOptab = (p', .error f)
      ∧ (∀ (σ : Type) (W : Writer σ) (w : σ),
          farBackwardJump.WriteTo scenarioOptab W w = (p', w, 0, some f)) :=
  ⟨by rfl,
   C13_absent_key_fails scenarioOptab absentKey 1 ⟨RET, Register.Addr AX, Addr.zero⟩ rfl
    (by decide) (fun labels _ => by rfl),
   have h := C13_absent_key_fails scenarioOptab farBackwardJump 18
    ⟨JHI, Addr.zero, LabelAddr "loop"⟩ (by rfl) (by decide) (fun labels hl => by
      have e : collectLabels farBackwardJump 0 [] = .ok [("loop", 0)] := by rfl
      rw [e] at hl
      cases hl
      rfl)
   match h with
   | ⟨p', f, h1, h2, h3, _⟩ => ⟨p', f, h1, h2, h3⟩⟩

/-- Counterexample for C13: `loopProgram` holds `JHI loop`, which is no `LABEL` and whose
key `(JHI, None, Label)` is absent from `scenarioOptab`, yet `Bytes` returns
`48 01 eb 77 fb` and `WriteTo` writes these bytes without failure: the jump is looked
up as `(JHI, None, Rel8)`. -/
theorem C13_counterexample :
    loopProgram[2]? = some ⟨JHI, Addr.zero, LabelAddr "loop"⟩
    ∧ JHI ≠ LABEL
    ∧ scenarioOptab ⟨JHI, Addr.zero.Typ, (LabelAddr "loop").Typ⟩ = none
    ∧ (loopProgram.Bytes scenarioOptab).2 = .ok [0x48, 0x01, 0xeb, 0x77, 0xfb]
    ∧ (loopProgram.WriteTo scenarioOptab bufferWriter []).2.1 = [0x48, 0x01, 0xeb, 0x77, 0xfb]
    ∧ (loopProgram.WriteTo scenarioOptab bufferWriter []).2.2.2 = none :=
  ⟨by rfl, by decide, by rfl, by rfl, by decide, by decide⟩

/-- C14: what `layOut` does to the program, whether it succeeds or fails. The length is
unchanged; every instruction keeps its `Op` and its `From` operand; a `To` operand whose
kind was not `Label` is unchanged; a `To` operand whose kind was `Label` keeps its `Name`
and `Disp`, and its kind is now `Rel8`, `Rel16` or `Rel32` when the names of the `LABEL`
pseudo-ops are pairwise distinct. When a label name repeats, the label catalog fails
before any rewrite and the program is unchanged. -/
theorem C14_layout_frame (optab : Optab) (p : Program) :
    (p.layOut optab).1.length = p.length
    ∧ (∀ (i : Nat) (x y : Instruction), p[i]? = some x → (p.layOut optab).1[i]? = some y →
        y.Op = x.Op ∧ y.From = x.From ∧ y.To.Name = x.To.Name ∧ y.To.Disp = x.To.Disp
        ∧ (x.To.Typ ≠ Label → y.To = x.To)
        ∧ (x.To.Typ = Label → (labelNames p).Nodup →
            y.To.Typ = Rel8 ∨ y.To.Typ = Rel16 ∨ y.To.Typ = Rel32))
    ∧ (¬ (labelNames p).Nodup → (p.layOut optab).1 = p) :=
  layOut_frame optab p

/-- Counterexample for C14: on `a:`, `a:`, `JHI a` layout fails in the label catalog and
the destination of the jump is still of kind `Label`, none of `Rel8`, `Rel16`, `Rel32`. -/
theorem C14_counterexample :
    (∃ f, (duplicateLabel.layOut scenarioOptab).2 = .error f)
    ∧ duplicateLabel[2]?.map (fun x => x.To.Typ) = some Label
    ∧ (duplicateLabel.layOut scenarioOptab).1[2]?.map (fun x => x.To.Typ) = some Label
    ∧ Label ≠ Rel8 ∧ Label ≠ Rel16 ∧ Label ≠ Rel32 :=
  ⟨⟨_, rfl⟩, by decide, by decide, by decide, by decide, by decide⟩

/-- Witness for C14: on `loopProgram` the jump `JHI loop` at index 2 keeps `Op`, `From`,
`Name` and `Disp`, and its destination is now `Rel8` with payload `int8 (-5)`. -/
theorem C14_witness :
    (loopProgram.layOut scenarioOptab).1.length = loopProgram.length
    ∧ (loopProgram.layOut scenarioOptab).1[2]?
        = some ⟨JHI, Addr.zero, ⟨Rel8, .int8 (-5), 0, "loop"⟩⟩
    ∧ ((⟨JHI, Addr.zero, ⟨Rel8, .int8 (-5), 0, "loop"⟩⟩ : Instruction).Op = JHI
      ∧ (⟨JHI, Addr.zero, ⟨Rel8, .int8 (-5), 0, "loop"⟩⟩ : Instruction).From = Addr.zero
      ∧ (⟨JHI, Addr.zero, ⟨Rel8, .int8 (-5), 0, "loop"⟩⟩ : Instruction).To.Name = "loop"
      ∧ (⟨JHI, Addr.zero, ⟨Rel8, .int8 (-5), 0, "loop"⟩⟩ : Instruction).To.Disp = 0
      ∧ ((LabelAddr "loop").Typ ≠ Label →
          (⟨JHI, Addr.zero, ⟨Rel8, .int8 (-5), 0, "loop"⟩⟩ : Instruction).To = LabelAddr "loop")
      ∧ ((LabelAddr "loop").Typ = Label → (labelNames loopProgram).Nodup →
          (⟨JHI, Addr.zero, ⟨Rel8, .int8 (-5), 0, "loop"⟩⟩ : Instruction).To.Typ = Rel8
          ∨ (⟨JHI, Addr.zero, ⟨Rel8, .int8 (-5), 0, "loop"⟩⟩ : Instruction).To.Typ = Rel16
          ∨ (⟨JHI, Addr.zero, ⟨Rel8, .int8 (-5), 0, "loop"⟩⟩ : Instruction).To.Typ = Rel32)) :=
  ⟨(C14_layout_frame scenarioOptab loopProgram).1, by rfl,
   (C14_layout_frame scenarioOptab loopProgram).2.1 2 ⟨JHI, Addr.zero, LabelAddr "loop"⟩
     ⟨JHI, Addr.zero, ⟨Rel8, .int8 (-5), 0, "loop"⟩⟩ rfl (by rfl)⟩

/-- C15: what the public constructors return. `r.Ind(d)` has kind `Ind`, displacement `d`
and carries `r` itself, whatever register `r` is, so that it carries a general register
exactly when `r` is one; `r.Addr()` carries `r`, with kind `Xmm` iff `r` is in `X0..X15`
and kind `Reg` otherwise; `Imm(v)` returns, for a `uint8`, `uint32` or `uint64`, an
address carrying `v` whose kind is `Imm8`, `Imm32` or `Imm64` with the width of `v`, and
panics for every other payload; `Rel(v)` returns, for an `int8` or `int32`, an address
carrying `v` whose kind is `Rel8` or `Rel32` with the width of `v`, and panics for
every other payload. -/
theorem C15_constructor_invariants :
    (∀ (r : Int) (d : Nat),
      (Register.Ind r d).Typ = Ind ∧ (Register.Ind r d).Value = .register r
      ∧ (Register.Ind r d).Disp = d
      ∧ ((∃ g : Int, (Register.Ind r d).Value = .register g ∧ AX ≤ g ∧ g ≤ R15)
          ↔ AX ≤ r ∧ r ≤ R15))
    ∧ (∀ r : Int,
      (Register.Addr r).Value = .register r
      ∧ ((Register.Addr r).Typ = Xmm ↔ X0 ≤ r ∧ r ≤ X15)
      ∧ (¬ (X0 ≤ r ∧ r ≤ X15) → (Register.Addr r).Typ = Reg))
    ∧ (∀ v : Value,
      ((∃ n, v = .uint8 n ∨ v = .uint32 n ∨ v = .uint64 n) →
        ∃ a, Imm v = .ok a ∧ a.Value = v ∧ (a.Typ = Imm8 ∨ a.Typ = Imm32 ∨ a.Typ = Imm64)
          ∧ AddrType.width a.Typ = v.width)
      ∧ ((¬ ∃ n, v = .uint8 n ∨ v = .uint32 n ∨ v = .uint64 n) →
        Imm v = .error .unknownImm))
    ∧ (∀ v : Value,
      ((∃ n, v = .int8 n ∨ v = .int32 n) →
        ∃ a, Rel v = .ok a ∧ a.Value = v ∧ (a.Typ = Rel8 ∨ a.Typ = Rel32)
          ∧ AddrType.width a.Typ = v.width)
      ∧ ((¬ ∃ n, v = .int8 n ∨ v = .int32 n) → Rel v = .error .unknownRel)) := by
  refine ⟨?_, ?_, ?_, ?_⟩
  · intro r d
    refine ⟨rfl, rfl, rfl, ?_⟩
    constructor
    · rintro ⟨g, hg, h⟩
      cases hg
      exact h
    · intro h
      exact ⟨r, rfl, h⟩
  · intro r
    refine ⟨rfl, ?_, ?_⟩
    · unfold Register.Addr
      by_cases h : X0 ≤ r ∧ r ≤ X15
      · simp [h]
      · simp only [h, if_false, iff_false]
        decide
    · intro h
      unfold Register.Addr
      simp [h]
  · intro v
    constructor
    · rintro ⟨n, h | h | h⟩ <;> subst h
      · exact ⟨_, rfl, rfl, Or.inl rfl, rfl⟩
      · exact ⟨_, rfl, rfl, Or.inr (Or.inl rfl), rfl⟩
      · exact ⟨_, rfl, rfl, Or.inr (Or.inr rfl), rfl⟩
    · intro h
      cases v with
      | uint8 n => exact absurd ⟨n, Or.inl rfl⟩ h
      | uint32 n => exact absurd ⟨n, Or.inr (Or.inl rfl)⟩ h
      | uint64 n => exact absurd ⟨n, Or.inr (Or.inr rfl)⟩ h
      | _ => rfl
  · intro v
    constructor
    · rintro ⟨n, h | h⟩ <;> subst h
      · exact ⟨_, rfl, rfl, Or.inl rfl, rfl⟩
      · exact ⟨_, rfl, rfl, Or.inr rfl, rfl⟩
    · intro h
      cases v with
      | int8 n => exact absurd ⟨n, Or.inl rfl⟩ h
      | int32 n => exact absurd ⟨n, Or.inr rfl⟩ h
      | _ => rfl

/-- Counterexample for C15: `X0.Ind(8)` has kind `Ind` and carries the SSE register `X0`,
no general register, and `MOVQ 8+(X0), BX` encodes without failure. -/
theorem C15_counterexample :
    (Register.Ind X0 8).Typ = Ind ∧ (Register.Ind X0 8).Value = .register X0
    ∧ ¬ (AX ≤ X0 ∧ X0 ≤ R15)
    ∧ (¬ ∃ g : Int, (Register.Ind X0 8).Value = .register g ∧ AX ≤ g ∧ g ≤ R15)
    ∧ (ins.zero.make scenarioOptab movqX0).2 = none
    ∧ (ins.zero.make scenarioOptab movqX0).1.emitted = [0x49, 0x8b, 0x58, 0x08] := by
  refine ⟨rfl, rfl, by decide, ?_, by decide, rfl⟩
  rintro ⟨g, hg, h⟩
  cases hg
  revert h
  decide

/-- Witness for C15: `Imm(uint8(5))` is an `Imm8` of width 1, `Imm(uint16(5))` panics,
`Rel(int32(-0x113))` is a `Rel32` of width 4, `X3.Addr()` has kind `Xmm` and
`BX.Addr()` kind `Reg`. -/
theorem C15_witness :
    (∃ a, Imm (.uint8 5) = .ok a ∧ a.Value = .uint8 5
        ∧ (a.Typ = Imm8 ∨ a.Typ = Imm32 ∨ a.Typ = Imm64)
        ∧ AddrType.width a.Typ = (Value.uint8 5).width)
    ∧ Imm (.uint16 5) = .error .unknownImm
    ∧ (∃ a, Rel (.int32 (-0x113)) = .ok a ∧ a.Value = .int32 (-0x113)
        ∧ (a.Typ = Rel8 ∨ a.Typ = Rel32)
        ∧ AddrType.width a.Typ = (Value.int32 (-0x113)).width)
    ∧ (Register.Addr X3).Typ = Xmm
    ∧ (Register.Addr BX).Typ = Reg :=
  ⟨(C15_constructor_invariants.2.2.1 (.uint8 5)).1 ⟨5, Or.inl rfl⟩,
   (C15_constructor_invariants.2.2.1 (.uint16 5)).2 (by
      rintro ⟨n, h | h | h⟩ <;> cases h),
   (C15_constructor_invariants.2.2.2 (.int32 (-0x113))).1 ⟨-0x113, Or.inr rfl⟩,
   (C15_constructor_invariants.2.1 X3).2.1.mpr (by decide),
   (C15_constructor_invariants.2.1 BX).2.2 (by decide)⟩

/-- C16: every op from `LABEL` to `MAXSD`, that is every op below `lastOp`, has an entry
in `opName`, and two different ops of that range have different names. -/
theorem C16_opName_total_injective :
    (∀ op : Op, LABEL ≤ op → op < lastOp → ∃ name, opNameEntry op = some name)
    ∧ (∀ a b : Op, LABEL ≤ a → a < lastOp → LABEL ≤ b → b < lastOp → a ≠ b →
        opName a ≠ opName b) :=
  ⟨fun op h0 h1 => opNameEntry_some op h0 h1,
   fun a b a0 a1 b0 b1 hab => opName_injective a b a0 a1 b0 b1 hab⟩

/-- Witness for C16: `JHI` has the entry `"JHI"`, and `ADDQ` and `ADDL` have different
names. -/
theorem C16_witness :
    (∃ name, opNameEntry JHI = some name) ∧ opName ADDQ ≠ opName ADDL :=
  ⟨C16_opName_total_injective.1 JHI (by decide) (by decide),
   C16_opName_total_injective.2 ADDQ ADDL (by decide) (by decide) (by decide) (by decide)
     (by decide)⟩

/-- C17: for a record pointing to an instruction whose op is in the closed set
(`LABEL..MAXSD`) and whose operands render as `f` and `t`, `printText` writes the name of
the op, then spaces up to a total of exactly 6 characters, then `f`, a comma and `t`. An
operand of kind `None` renders as the empty string and an operand of kind `Reg` or `Xmm`
holding a register renders as the name of that register. -/
theorem C17_printText_format :
    (∀ (c : ins) (p : Instruction) (f t : String), c.insn = some p →
      LABEL ≤ p.Op → p.Op < lastOp →
      p.From.printText c.codeblockEnd = .ok f → p.To.printText c.codeblockEnd = .ok t →
      ∃ pad : String, c.printText = .ok (opName p.Op ++ pad ++ f ++ "," ++ t)
        ∧ (opName p.Op ++ pad).length = 6 ∧ ∀ ch ∈ pad.data, ch = ' ')
    ∧ (∀ (a : Addr) (e : Int), a.Typ = None → a.printText e = .ok "")
    ∧ (∀ (a : Addr) (e : Int) (r : Int), a.Typ = Reg ∨ a.Typ = Xmm →
        a.Value = .register r → a.printText e = .ok (registerName r)) := by
  refine ⟨fun c p f t hc h0 h1 hf ht => printText_padded c p f t hc h0 h1 hf ht, ?_, ?_⟩
  · intro a e h
    unfold Addr.printText
    rw [if_pos h]
  · intro a e r h hv
    unfold Addr.printText
    have hn : ¬ a.Typ = None := by
      rcases h with h | h <;> rw [h] <;> decide
    rw [if_neg hn, if_pos h, hv]

/-- Witness for C17: the texts `ADDQ  BP,BX`, `RET   ,` and `POPQ  ,AX` of `i64tests`. -/
theorem C17_witness :
    (∃ pad : String,
      (ins.zero.make scenarioOptab ⟨ADDQ, Register.Addr BP, Register.Addr BX⟩).1.printText
        = .ok (opName ADDQ ++ pad ++ "BP" ++ "," ++ "BX")
      ∧ (opName ADDQ ++ pad).length = 6 ∧ ∀ ch ∈ pad.data, ch = ' ')
    ∧ (ins.zero.make scenarioOptab ⟨ADDQ, Register.Addr BP, Register.Addr BX⟩).1.printText
        = .ok "ADDQ  BP,BX"
    ∧ (ins.zero.make scenarioOptab ⟨RET, Addr.zero, Addr.zero⟩).1.printText = .ok "RET   ,"
    ∧ (ins.zero.make scenarioOptab ⟨POPQ, Addr.zero, Register.Addr AX⟩).1.printText
        = .ok "POPQ  ,AX" :=
  ⟨C17_printText_format.1
      (ins.zero.make scenarioOptab ⟨ADDQ, Register.Addr BP, Register.Addr BX⟩).1
      ⟨ADDQ, Register.Addr BP, Register.Addr BX⟩ "BP" "BX" (by rfl) (by decide) (by decide)
      (by rfl) (by rfl),
   by rfl, by rfl, by rfl⟩

/-- C18 (code defect). The second loop of `layOut` compares `i - labels[name]` with 17
without taking the absolute value, so a forward jump gets `Rel8` whatever its distance.
On `farForwardJump` the jump is instruction 0 and its label instruction 18, at distance
18: the operand becomes `Rel8`, layout succeeds, and the jump over 170 bytes is emitted
as `77 aa`, displacement `-86`. The backward jump at the same distance, on
`farBackwardJump`, becomes `Rel16`. A `CALL` becomes `Rel32` and a jump to a label fewer
than 17 instructions back becomes `Rel8`. -/
theorem C18_forward_jump_always_Rel8 :
    (Program.layOut scenarioOptab farForwardJump).1[0]?.map Instruction.To
        = some ⟨Rel8, .int8 (-86), 0, "done"⟩
    ∧ offsetsOf (Program.layOut scenarioOptab farForwardJump).2 18 0
        = some (some 172, some 2)
    ∧ (Program.Bytes scenarioOptab farForwardJump).2.toOption.map (List.take 2)
        = some [0x77, 0xaa]
    ∧ (Program.layOut scenarioOptab farBackwardJump).1[18]?.map
        (fun x => (x.To.Typ, x.To.Value)) = some (Rel16, .int16 0)
    ∧ (selectJump [("f", 18)] 0 ⟨CALL, Addr.zero, LabelAddr "f"⟩).To.Typ = Rel32
    ∧ (Program.layOut scenarioOptab backwardJump).1[14]?.map (fun x => x.To.Typ)
        = some Rel8 := by
  decide

/-- C19: an indirect operand whose base is a general register with low three bits other
than `100` (`AX`, `CX`, `DX`, `BX`, `BP`, `SI`, `DI`, `R8..R11`, `R13..R15`). The step
`indirectAddress` on any record does not fail when the displacement fits 32 bits, sets
no SIB byte, sets rm to the low three bits of the register and ORs REX.B in exactly
when the register is in `R8..R15`; hence a successful `make` on a zero record, for a
recipe with a ModR/M byte, yields a record with a ModR/M byte, no SIB byte, rm the low
three bits, and REX.B set iff the register is in `R8..R15`. -/
theorem C19_indirect_base_without_SIB (optab : Optab) (p : Instruction) (v : opVal)
    (reg : Int) (hop : p.Op ≠ LABEL)
    (hkey : optab ⟨p.Op, p.From.Typ, p.To.Typ⟩ = some v) (hmod : v.mod ≠ .modNone)
    (hind : p.r2.Typ = Ind) (hv : p.r2.Value = .register reg)
    (hreg : AX ≤ reg ∧ reg ≤ R15) (hlow : reg % 8 ≠ 0b100) :
    (∀ c : ins, p.r2.Disp ≤ 0xffffffff →
      (c.indirectAddress p.r2).2 = none
      ∧ (c.indirectAddress p.r2).1.sib = c.sib
      ∧ (c.indirectAddress p.r2).1.modRMrm = (reg % 8).toNat
      ∧ (c.indirectAddress p.r2).1.rex = c.rex ||| (if R8 ≤ reg then rexB else 0))
    ∧ ((ins.zero.make optab p).2 = none →
      (ins.zero.make optab p).1.modRM = true
      ∧ (ins.zero.make optab p).1.sib = false
      ∧ (ins.zero.make optab p).1.modRMrm = (reg % 8).toNat
      ∧ ((ins.zero.make optab p).1.rex &&& rexB ≠ 0 ↔ R8 ≤ reg)) := by
  constructor
  · intro c hd
    have h := indirectAddress_low c p.r2 reg hv hreg hlow
    have h2 := h.2 (h.1 hd)
    exact ⟨h.1 hd, h2.1, h2.2.2.1, h2.2.2.2⟩
  · intro hok
    obtain ⟨x, xi, xr, xs, _, xok, e1, e2, _, _, e5, e6⟩ := make_modRM optab p v hop hkey hok
    have h := makeMod_indirect_low x p v.mod reg xi hmod hind hv hreg hlow xok
    refine ⟨e2.trans h.1, e6.trans (h.2.1.trans xs), e5.trans h.2.2.1, ?_⟩
    rw [e1]
    rcases h.2.2.2 with hr | hr <;> rw [hr, xr] <;>
      by_cases hw : v.rex = true <;> by_cases h8 : R8 ≤ reg <;>
      simp only [hw, h8, if_true, if_false, iff_true, iff_false, not_not] <;> decide

/-- Witness for C19: `CMPQ SP,(CX)` encodes as `48 3b 21`, with rm = 001, no SIB byte and
REX.B clear. -/
theorem C19_witness :
    (ins.zero.make scenarioOptab ⟨CMPQ, Register.Addr SP, Register.Ind CX 0⟩).1.emitted
        = [0x48, 0x3b, 0x21]
    ∧ (ins.zero.make scenarioOptab ⟨CMPQ, Register.Addr SP, Register.Ind CX 0⟩).1.modRM = true
    ∧ (ins.zero.make scenarioOptab ⟨CMPQ, Register.Addr SP, Register.Ind CX 0⟩).1.sib = false
    ∧ (ins.zero.make scenarioOptab ⟨CMPQ, Register.Addr SP, Register.Ind CX 0⟩).1.modRMrm
        = (CX % 8).toNat
    ∧ ((ins.zero.make scenarioOptab ⟨CMPQ, Register.Addr SP, Register.Ind CX 0⟩).1.rex
        &&& rexB ≠ 0 ↔ R8 ≤ CX) :=
  ⟨by decide,
   (C19_indirect_base_without_SIB scenarioOptab ⟨CMPQ, Register.Addr SP, Register.Ind CX 0⟩
      ⟨0, 0x3b, 0, true, false, .modDefault⟩ CX (by decide) (by decide) (by decide)
      (by decide) rfl (by decide) (by decide)).2 (by decide)⟩

/-- C20: under a policy `Fixed-k` (any of `mod0..mod8`), for an instruction whose operand
that may be indirect is a direct register holding one of the 32 registers, whatever the
other operand is. The step `makeMod` on a record without SIB byte does not fail, sets
mod = 11, stores `k` as the reg value and the low three bits of the register as rm, and
the ModR/M byte, the last byte `writeTo` collects before the displacement, has mod = 11,
rm equal to the low three bits of the register and reg field `k mod 8`: the constant
`k` for `k` in `0..7`, and `0` for `k = 8`, which does not fit the three bits. A
successful `make` on a zero record yields a record with these fields. -/
theorem C20_fixed_reg_field (p : Instruction) (bits : modBits) (reg : Int)
    (hn : bits ≠ .modNone) (hd : bits ≠ .modDefault)
    (hk : p.r2.Typ ≠ Ind) (hv : p.r2.Value = .register reg)
    (hreg : AX ≤ reg ∧ reg ≤ X15) :
    (∀ c : ins, c.insn = some p → c.sib = false →
      (c.makeMod bits).2 = none
      ∧ (c.makeMod bits).1.modRM = true
      ∧ (c.makeMod bits).1.modRMmod = 0b11
      ∧ (c.makeMod bits).1.modRMreg = bits.fixed
      ∧ (c.makeMod bits).1.modRMrm = (reg % 8).toNat
      ∧ ∃ B, (c.makeMod bits).1.buf.getLast? = some B
          ∧ B / 64 = 0b11 ∧ B / 8 % 8 = bits.fixed % 8 ∧ B % 8 = (reg % 8).toNat
          ∧ (bits ≠ .mod8 → B / 8 % 8 = bits.fixed))
    ∧ (∀ (optab : Optab) (v : opVal), p.Op ≠ LABEL →
        optab ⟨p.Op, p.From.Typ, p.To.Typ⟩ = some v → v.mod = bits →
        (ins.zero.make optab p).2 = none →
        (ins.zero.make optab p).1.modRM = true
        ∧ (ins.zero.make optab p).1.sib = false
        ∧ (ins.zero.make optab p).1.modRMmod = 0b11
        ∧ (ins.zero.make optab p).1.modRMreg = bits.fixed
        ∧ (ins.zero.make optab p).1.modRMrm = (reg % 8).toNat) := by
  have hf8 := modBits.fixed_le bits
  have hr8 : (reg % 8).toNat < 8 := by omega
  have hmod : bits.fixed % 256 = bits.fixed := Nat.mod_eq_of_lt (by omega)
  constructor
  · intro c hc hs
    rw [makeMod_fixed_direct c p bits reg hc hn hd hk hv hreg]
    refine ⟨rfl, rfl, rfl, hmod, rfl, ?_⟩
    have hb := modRM_byte_fields bits.fixed (reg % 8).toNat hf8 hr8
    refine ⟨(0x3 <<< 6) % 256 ||| ((bits.fixed % 256) <<< 3) % 256 ||| (reg % 8).toNat,
      ?_, hb.1, hb.2.1, hb.2.2, ?_⟩
    · simp only [ins.buf, hs]
      by_cases h15 : c.c1 = 0x0f <;> simp [h15, List.getLast?_append, List.getLast?_cons_cons]
    · intro h8
      rw [hb.2.1]
      apply Nat.mod_eq_of_lt
      revert h8 hn hd
      cases bits <;> decide
  · intro optab v hop hkey hvm hok
    obtain ⟨x, xi, _, xs, _, _, _, e2, e3, e4, e5, e6⟩ := make_modRM optab p v hop hkey hok
    rw [e2, e3, e4, e5, e6, hvm, makeMod_fixed_direct x p bits reg xi hn hd hk hv hreg]
    exact ⟨rfl, xs, rfl, hmod, rfl⟩

/-- Witness for C20: with `k = 7`, `IDIVL BX` gives `f7 fb` and `IDIVQ BX` gives
`48 f7 fb`; the ModR/M byte `fb` is 11 111 011. -/
theorem C20_witness :
    (ins.zero.make scenarioOptab ⟨IDIVL, Addr.zero, Register.Addr BX⟩).1.emitted = [0xf7, 0xfb]
    ∧ (ins.zero.make scenarioOptab ⟨IDIVQ, Addr.zero, Register.Addr BX⟩).1.emitted
        = [0x48, 0xf7, 0xfb]
    ∧ 0xfb / 64 = 0b11 ∧ 0xfb / 8 % 8 = 7 ∧ 0xfb % 8 = 3
    ∧ ((ins.zero.make scenarioOptab ⟨IDIVQ, Addr.zero, Register.Addr BX⟩).1.modRM = true
      ∧ (ins.zero.make scenarioOptab ⟨IDIVQ, Addr.zero, Register.Addr BX⟩).1.sib = false
      ∧ (ins.zero.make scenarioOptab ⟨IDIVQ, Addr.zero, Register.Addr BX⟩).1.modRMmod = 0b11
      ∧ (ins.zero.make scenarioOptab ⟨IDIVQ, Addr.zero, Register.Addr BX⟩).1.modRMreg
          = modBits.fixed .mod7
      ∧ (ins.zero.make scenarioOptab ⟨IDIVQ, Addr.zero, Register.Addr BX⟩).1.modRMrm
          = (BX % 8).toNat) :=
  ⟨by decide, by decide, by decide, by decide, by decide,
   (C20_fixed_reg_field ⟨IDIVQ, Addr.zero, Register.Addr BX⟩ .mod7 BX (by decide) (by decide)
      (by decide) rfl (by decide)).2 scenarioOptab ⟨0, 0xf7, 0, true, false, .mod7⟩
      (by decide) (by decide) rfl (by decide)⟩

/-- Counterexample for C20: under `Fixed-8` the instruction `IDIVL BX` encodes without
failure as `f7 c3`; the record holds the reg value 8, and no emitted byte carries 8 in
bits 5..3: the ModR/M byte `c3` is 11 000 011. -/
theorem C20_counterexample :
    (ins.zero.make fixed8Optab ⟨IDIVL, Addr.zero, Register.Addr BX⟩).2 = none
    ∧ (ins.zero.make fixed8Optab ⟨IDIVL, Addr.zero, Register.Addr BX⟩).1.modRMreg
        = modBits.fixed .mod8
    ∧ (ins.zero.make fixed8Optab ⟨IDIVL, Addr.zero, Register.Addr BX⟩).1.emitted
        = [0xf7, 0xc3]
    ∧ ∀ B ∈ (ins.zero.make fixed8Optab ⟨IDIVL, Addr.zero, Register.Addr BX⟩).1.emitted,
        B / 8 % 8 ≠ modBits.fixed .mod8 := by
  decide

/-- C21 (code defect). `writeTo` emits the REX prefix as `0x48|c.rex`, and `0x48` holds
the W bit, so every emitted prefix has W set. `ADDSD X8, X1`: the recipe requests no
REX.W and the record holds REX.R alone, yet the prefix is `4c`; `MOVSD (R9), X0`: the
record holds REX.B alone, yet the prefix is `49`. -/
theorem C21_REX_prefix_always_has_W :
    (scenarioOptab ⟨ADDSD, Xmm, Xmm⟩).map opVal.rex = some false
    ∧ (ins.zero.make scenarioOptab addsdX8).2 = none
    ∧ (ins.zero.make scenarioOptab addsdX8).1.rex = rexR
    ∧ (ins.zero.make scenarioOptab addsdX8).1.rex &&& rexW = 0
    ∧ (ins.zero.make scenarioOptab addsdX8).1.emitted = [0x4c, 0xf2, 0x0f, 0x58, 0xc1]
    ∧ (ins.zero.make scenarioOptab addsdX8).1.emitted.head?.map (fun b => b &&& rexW)
        = some rexW
    ∧ (scenarioOptab ⟨MOVSD, Ind, Xmm⟩).map opVal.rex = some false
    ∧ (ins.zero.make scenarioOptab movsdR9).2 = none
    ∧ (ins.zero.make scenarioOptab movsdR9).1.rex = rexB
    ∧ (ins.zero.make scenarioOptab movsdR9).1.emitted = [0x49, 0xf2, 0x0f, 0x10, 0x01]
    ∧ (ins.zero.make scenarioOptab movsdR9).1.emitted.head?.map (fun b => b &&& rexW)
        = some rexW := by
  decide

/-- C22 (code defect). `indirectAddress` picks the one-byte form for every displacement
up to `0xFF` and the four-byte form up to `0xFFFFFFFF`, but a displacement byte is
signed: `MOVQ 0x80+(CX), BX` encodes as `48 8b 59 80`, whose displacement byte `80`
denotes -128, and `MOVQ 0x80000000+(CX), BX` emits the displacement `00 00 00 80`, which
denotes -2147483648. -/
theorem C22_displacement_read_signed :
    (ins.zero.make scenarioOptab movqDisp80).2 = none
    ∧ (ins.zero.make scenarioOptab movqDisp80).1.emitted = [0x48, 0x8b, 0x59, 0x80]
    ∧ (ins.zero.make scenarioOptab movqDisp80).1.dispBytes = [0x80]
    ∧ signedLittleEndian (ins.zero.make scenarioOptab movqDisp80).1.dispBytes = -128
    ∧ (ins.zero.make scenarioOptab movqDisp31).2 = none
    ∧ (ins.zero.make scenarioOptab movqDisp31).1.emitted
        = [0x48, 0x8b, 0x99, 0x00, 0x00, 0x00, 0x80]
    ∧ (ins.zero.make scenarioOptab movqDisp31).1.dispBytes = [0x00, 0x00, 0x00, 0x80]
    ∧ signedLittleEndian (ins.zero.make scenarioOptab movqDisp31).1.dispBytes
        = -2147483648 := by
  decide

/-- C23: when `Bytes` succeeds on a program and returns `b`, a second `Bytes` call on the
program as the first call has left it (its `Label` destinations rewritten in place)
succeeds, returns `b` again and leaves the program as it is; and `Bytes` on the program
as `PrintText` has left it returns `b` too. -/
theorem C23_layout_idempotent (optab : Optab) (p : Program) (b : List Nat)
    (h : (p.Bytes optab).2 = .ok b) :
    (p.Bytes optab).1.Bytes optab = ((p.Bytes optab).1, .ok b)
    ∧ (p.PrintText optab).1.Bytes optab = ((p.Bytes optab).1, .ok b) := by
  rw [Bytes_fst, PrintText_fst]
  exact ⟨Bytes_again optab p b h, Bytes_again optab p b h⟩

/-- Witness for C23: `loopProgram` assembles to `48 01 eb 77 fb`, and so does the program
the first call leaves, in which `JHI loop` has become a `Rel8` jump. -/
theorem C23_witness :
    (loopProgram.Bytes scenarioOptab).1[2]?.map (fun x => x.To.Typ) = some Rel8
    ∧ (loopProgram.Bytes scenarioOptab).1.Bytes scenarioOptab
        = ((loopProgram.Bytes scenarioOptab).1, .ok [0x48, 0x01, 0xeb, 0x77, 0xfb])
    ∧ (loopProgram.PrintText scenarioOptab).1.Bytes scenarioOptab
        = ((loopProgram.Bytes scenarioOptab).1, .ok [0x48, 0x01, 0xeb, 0x77, 0xfb]) :=
  ⟨by decide,
   C23_layout_idempotent scenarioOptab loopProgram [0x48, 0x01, 0xeb, 0x77, 0xfb] (by rfl)⟩

end I64
